import Mathlib

/-!
# island: path module (`le_path.cpp`) and shader binding info (`le_backend_types_internal.h`)

A shallow embedding of the path data model, the path construction API and the
simplified-SVG reader of `modules/le_path/le_path.cpp`, of the tracing and
flattening passes of the same file, and of the packed record
`le_shader_binding_info` of `le_backend_vk/le_backend_types_internal.h`.

Modelling conventions.

* `float` is an arbitrary carrier `F`.  The path construction API and the SVG
  reader only move coordinates around, so they need nothing of `F` but the value
  `0` (a value-initialised `Vertex{}`).  The tracing code takes its arithmetic from
  the class `FloatArith`, so every structural statement holds for any
  arithmetic, IEEE or exact.  The instance `binary32Arith` on the type
  `Binary32` is IEEE 754 binary32, every operation rounded to nearest with ties
  to even, with infinities and NaN (the sign of a zero and the payload of a NaN
  are not kept): what the code computes in `float` is stated in it.
  `exactArith` is arithmetic on the rationals without rounding, for the
  statements that say "in exact arithmetic".
* A C string is the list of its characters up to, and without, the terminating
  NUL.  `c + n` is `c.drop n`.
* `strtof` belongs to the C library and is a parameter: it maps the text at the
  read position to the value read and the number of characters consumed
  (`0` when no conversion was possible).
* An operation whose `assert` fails, or which calls `back()` on an empty vector,
  yields `none`.
* The loop of `flatten_cubic_bezier_to` has no bound in the source; its model
  takes a bound `fuel` and yields `none` when the bound is reached.
* The bit-field members of `le_shader_binding_info` are placed low to high in
  declaration order, which is the placement the header says its sort relies on.
* Two parts are not in the sources and are modelled from the specification: an
  emitter of simplified SVG, and the sort of binding infos.
-/

namespace Island

/-! ## Data model (`le_path.cpp`, lines 10-43) -/

/-- `le_path_api::Vertex`, a `glm::vec2`. -/
structure Vertex (F : Type) where
  x : F
  y : F
deriving DecidableEq

/-- A value-initialised `Vertex{}`. -/
instance Vertex.instZero {F : Type} [Zero F] : Zero (Vertex F) := ⟨⟨0, 0⟩⟩

/-- `PathCommand::Type`; `eCurveTo` is another name of `eQuadBezierTo`. -/
inductive PathCommandType where
  | eUnknown
  | eMoveTo
  | eLineTo
  | eQuadBezierTo
  | eCubicBezierTo
  | eClosePath
deriving DecidableEq

/-- `struct PathCommand`: a type tag, the end point and two control points. -/
structure PathCommand (F : Type) where
  type : PathCommandType
  p : Vertex F
  c1 : Vertex F
  c2 : Vertex F
deriving DecidableEq

/-- `struct Contour`: the commands of one sub-path. -/
structure Contour (F : Type) where
  commands : List (PathCommand F)
deriving DecidableEq

/-- `struct Polyline`. -/
structure Polyline (F : Type) where
  vertices : List (Vertex F)
  tangents : List (Vertex F)
  distances : List F
  total_distance : F
deriving DecidableEq

/-- `struct le_path_o`. -/
structure le_path_o (F : Type) where
  contours : List (Contour F)
  polylines : List (Polyline F)
deriving DecidableEq

/-- The object made by `le_path_create`. -/
def le_path_create (F : Type) : le_path_o F := ⟨[], []⟩

/-- `le_path_clear`. -/
def le_path_clear {F : Type} (_self : le_path_o F) : le_path_o F := ⟨[], []⟩

/-! ## Path construction (`le_path.cpp`, lines 646-739) -/

section PathApi

variable {F : Type} [Zero F]

/-- The statement `contours.back().commands.push_back( cmd )`; callers guard
against the empty vector. -/
def push_back_command (contours : List (Contour F)) (cmd : PathCommand F) :
    List (Contour F) :=
  match contours.getLast? with
  | none => contours
  | some s => contours.dropLast ++ [⟨s.commands ++ [cmd]⟩]

/-- `le_path_move_to`: open a new contour holding the single command
`{eMoveTo, *p}`. -/
def le_path_move_to (self : le_path_o F) (p : Vertex F) : le_path_o F :=
  { self with contours := self.contours ++ [⟨[⟨.eMoveTo, p, 0, 0⟩]⟩] }

/-- `le_path_line_to`: on a path without contour a `move_to (0,0)` comes first. -/
def le_path_line_to (self : le_path_o F) (p : Vertex F) : le_path_o F :=
  let self1 := if self.contours.isEmpty then le_path_move_to self 0 else self
  { self1 with contours := push_back_command self1.contours ⟨.eLineTo, p, 0, 0⟩ }

/-- `le_path_get_previous_p`: outer `none` is a failed assertion, inner `none`
is the returned `nullptr`. -/
def le_path_get_previous_p (self : le_path_o F) : Option (Option (Vertex F)) :=
  match self.contours.getLast? with
  | none => none
  | some s =>
    match s.commands.getLast? with
    | none => none
    | some c =>
      match c.type with
      | .eMoveTo => some (some c.p)
      | .eLineTo => some (some c.p)
      | .eQuadBezierTo => some (some c.p)
      | .eCubicBezierTo => some (some c.p)
      | _ => some none

/-- `le_path_line_horiz_to`. -/
def le_path_line_horiz_to (self : le_path_o F) (px : F) : Option (le_path_o F) :=
  match le_path_get_previous_p self with
  | none => none
  | some none => some self
  | some (some p) => some (le_path_line_to self { p with x := px })

/-- `le_path_line_vert_to`. -/
def le_path_line_vert_to (self : le_path_o F) (py : F) : Option (le_path_o F) :=
  match le_path_get_previous_p self with
  | none => none
  | some none => some self
  | some (some p) => some (le_path_line_to self { p with y := py })

/-- `le_path_quad_bezier_to`. -/
def le_path_quad_bezier_to (self : le_path_o F) (p c1 : Vertex F) : Option (le_path_o F) :=
  if self.contours.isEmpty then none
  else some { self with
    contours := push_back_command self.contours ⟨.eQuadBezierTo, p, c1, 0⟩ }

/-- `le_path_cubic_bezier_to`. -/
def le_path_cubic_bezier_to (self : le_path_o F) (p c1 c2 : Vertex F) :
    Option (le_path_o F) :=
  if self.contours.isEmpty then none
  else some { self with
    contours := push_back_command self.contours ⟨.eCubicBezierTo, p, c1, c2⟩ }

/-- `le_path_close_path`; `back()` of an empty `contours` is undefined. -/
def le_path_close_path (self : le_path_o F) : Option (le_path_o F) :=
  if self.contours.isEmpty then none
  else some { self with
    contours := push_back_command self.contours ⟨.eClosePath, 0, 0, 0⟩ }

end PathApi

/-! ## The simplified-SVG reader (`le_path.cpp`, lines 775-1055)

The C predicates return `bool` and report through `int *offset` and through
pointers to the values read.  Here each takes the value of `*offset` on entry
and returns, on success, the value of `*offset` on exit together with the
values read.  A failing predicate leaves nothing behind that a caller reads:
all offsets it wrote are locals of the failed test, and the coordinate
variables `p0`, `p1`, `p2` of the reader are written again by the successful
test before they are used. -/

section Reader

variable {F : Type}

/-- `add_offsets`: the new value of `*offset_total`. -/
def add_offsets (offset_local offset_total : Nat) : Nat := offset_total + offset_local

/-- `is_float_number`. -/
def is_float_number (strtof : List Char → F × Nat) (c : List Char) (offset : Nat) :
    Option (Nat × F) :=
  match c with
  | [] => none
  | _ :: _ =>
    let r := strtof c
    if r.2 = 0 then none else some (offset + r.2, r.1)

/-- `is_character_match`. -/
def is_character_match (needle : Char) (c : List Char) (offset : Nat) : Option Nat :=
  match c with
  | [] => none
  | ch :: _ => if ch = needle then some (offset + 1) else none

/-- The loop condition of `is_whitespace`. -/
def is_whitespace_char (ch : Char) : Bool :=
  ch = Char.ofNat 0x20 || ch = Char.ofNat 0x9 || ch = Char.ofNat 0xD || ch = Char.ofNat 0xA

/-- The `while` loop of `is_whitespace`: how many characters it steps over. -/
def whitespace_run : List Char → Nat
  | [] => 0
  | ch :: c => if is_whitespace_char ch then whitespace_run c + 1 else 0

/-- `is_whitespace`. -/
def is_whitespace (c : List Char) (offset : Nat) : Option Nat :=
  match c with
  | [] => none
  | _ :: _ => if whitespace_run c = 0 then none else some (offset + whitespace_run c)

/-- `is_coordinate_pair`. -/
def is_coordinate_pair (strtof : List Char → F × Nat) (c : List Char) (offset : Nat) :
    Option (Nat × Vertex F) :=
  match c with
  | [] => none
  | _ :: _ =>
    match is_float_number strtof c 0 with
    | none => none
    | some (o1, vx) =>
      match is_character_match ',' (c.drop o1) o1 with
      | none => none
      | some o2 =>
        match is_float_number strtof (c.drop o2) o2 with
        | none => none
        | some (o3, vy) => some (add_offsets o3 offset, ⟨vx, vy⟩)

/-- The common shape of `is_m_instruction` and `is_l_instruction`: a letter,
whitespace, a coordinate pair. -/
def is_letter_pair_instruction (strtof : List Char → F × Nat) (letter : Char)
    (c : List Char) (offset : Nat) : Option (Nat × Vertex F) :=
  match c with
  | [] => none
  | _ :: _ =>
    match is_character_match letter c 0 with
    | none => none
    | some o1 =>
      match is_whitespace (c.drop o1) o1 with
      | none => none
      | some o2 =>
        match is_coordinate_pair strtof (c.drop o2) o2 with
        | none => none
        | some (o3, p0) => some (add_offsets o3 offset, p0)

/-- `is_m_instruction`. -/
def is_m_instruction (strtof : List Char → F × Nat) (c : List Char) (offset : Nat) :
    Option (Nat × Vertex F) :=
  is_letter_pair_instruction strtof 'M' c offset

/-- `is_l_instruction`. -/
def is_l_instruction (strtof : List Char → F × Nat) (c : List Char) (offset : Nat) :
    Option (Nat × Vertex F) :=
  is_letter_pair_instruction strtof 'L' c offset

/-- The common shape of `is_h_instruction` and `is_v_instruction`: a letter,
whitespace, a number. -/
def is_letter_number_instruction (strtof : List Char → F × Nat) (letter : Char)
    (c : List Char) (offset : Nat) : Option (Nat × F) :=
  match c with
  | [] => none
  | _ :: _ =>
    match is_character_match letter c 0 with
    | none => none
    | some o1 =>
      match is_whitespace (c.drop o1) o1 with
      | none => none
      | some o2 =>
        match is_float_number strtof (c.drop o2) o2 with
        | none => none
        | some (o3, v) => some (add_offsets o3 offset, v)

/-- `is_h_instruction`. -/
def is_h_instruction (strtof : List Char → F × Nat) (c : List Char) (offset : Nat) :
    Option (Nat × F) :=
  is_letter_number_instruction strtof 'H' c offset

/-- `is_v_instruction`. -/
def is_v_instruction (strtof : List Char → F × Nat) (c : List Char) (offset : Nat) :
    Option (Nat × F) :=
  is_letter_number_instruction strtof 'V' c offset

/-- `is_c_instruction`: on success the three pairs in textual order. -/
def is_c_instruction (strtof : List Char → F × Nat) (c : List Char) (offset : Nat) :
    Option (Nat × Vertex F × Vertex F × Vertex F) :=
  match c with
  | [] => none
  | _ :: _ =>
    match is_character_match 'C' c 0 with
    | none => none
    | some o1 =>
      match is_whitespace (c.drop o1) o1 with
      | none => none
      | some o2 =>
        match is_coordinate_pair strtof (c.drop o2) o2 with
        | none => none
        | some (o3, p0) =>
          match is_whitespace (c.drop o3) o3 with
          | none => none
          | some o4 =>
            match is_coordinate_pair strtof (c.drop o4) o4 with
            | none => none
            | some (o5, p1) =>
              match is_whitespace (c.drop o5) o5 with
              | none => none
              | some o6 =>
                match is_coordinate_pair strtof (c.drop o6) o6 with
                | none => none
                | some (o7, p2) => some (add_offsets o7 offset, p0, p1, p2)

/-- `is_q_instruction`: on success the two pairs in textual order. -/
def is_q_instruction (strtof : List Char → F × Nat) (c : List Char) (offset : Nat) :
    Option (Nat × Vertex F × Vertex F) :=
  match c with
  | [] => none
  | _ :: _ =>
    match is_character_match 'Q' c 0 with
    | none => none
    | some o1 =>
      match is_whitespace (c.drop o1) o1 with
      | none => none
      | some o2 =>
        match is_coordinate_pair strtof (c.drop o2) o2 with
        | none => none
        | some (o3, p0) =>
          match is_whitespace (c.drop o3) o3 with
          | none => none
          | some o4 =>
            match is_coordinate_pair strtof (c.drop o4) o4 with
            | none => none
            | some (o5, p1) => some (add_offsets o5 offset, p0, p1)

variable [Zero F]

/-- The `for ( ; *c != 0; )` loop of `le_path_add_from_simplified_svg`.  Every
turn moves `c` forward by at least one character, so `fuel` turns suffice for a
text of `fuel` characters; `none` stands for a failed assertion of a path
operation (and for exhausted fuel, which `svg_loop_fuel` rules out). -/
def svg_loop (strtof : List Char → F × Nat) :
    Nat → le_path_o F → List Char → Option (le_path_o F)
  | _, self, [] => some self
  | 0, _, _ :: _ => none
  | fuel + 1, self, ch :: cs =>
    let c := ch :: cs
    match is_m_instruction strtof c 0 with
    | some (offset, p0) => svg_loop strtof fuel (le_path_move_to self p0) (c.drop offset)
    | none =>
    match is_l_instruction strtof c 0 with
    | some (offset, p0) => svg_loop strtof fuel (le_path_line_to self p0) (c.drop offset)
    | none =>
    match is_h_instruction strtof c 0 with
    | some (offset, p0x) =>
      (le_path_line_horiz_to self p0x).bind fun s => svg_loop strtof fuel s (c.drop offset)
    | none =>
    match is_v_instruction strtof c 0 with
    | some (offset, p0y) =>
      (le_path_line_vert_to self p0y).bind fun s => svg_loop strtof fuel s (c.drop offset)
    | none =>
    match is_c_instruction strtof c 0 with
    | some (offset, p0, p1, p2) =>
      (le_path_cubic_bezier_to self p2 p0 p1).bind fun s =>
        svg_loop strtof fuel s (c.drop offset)
    | none =>
    match is_q_instruction strtof c 0 with
    | some (offset, p0, p1) =>
      (le_path_quad_bezier_to self p1 p0).bind fun s =>
        svg_loop strtof fuel s (c.drop offset)
    | none =>
    match is_character_match 'Z' c 0 with
    | some offset =>
      (le_path_close_path self).bind fun s => svg_loop strtof fuel s (c.drop offset)
    | none => svg_loop strtof fuel self (c.drop 1)

/-- `le_path_add_from_simplified_svg`. -/
def le_path_add_from_simplified_svg (strtof : List Char → F × Nat) (self : le_path_o F)
    (svg : List Char) : Option (le_path_o F) :=
  svg_loop strtof svg.length self svg

end Reader

/-! ## Tracing and flattening (`le_path.cpp`, lines 67-462) -/

/-- The arithmetic of `float` the tracing code uses: the four operations and
negation, the conversion of an unsigned integer (`float( resolution )`, and the
integer and float literals `1.f`, `2`, `3`, `6`), the literal `0.04f`,
`std::numeric_limits<float>::epsilon()`, `sqrtf`, `fabsf`, and the comparisons
`<=` and `<`. -/
class FloatArith (F : Type) extends Zero F, Add F, Sub F, Mul F, Div F, Neg F where
  ofNat : Nat → F
  lit_0_04 : F
  epsilon : F
  sqrtf : F → F
  fabsf : F → F
  le : F → F → Bool
  lt : F → F → Bool

section Tracing

variable {F : Type} [FloatArith F]

/-- Component-wise `glm::vec2 + glm::vec2`. -/
instance Vertex.instAdd : Add (Vertex F) := ⟨fun a b => ⟨a.x + b.x, a.y + b.y⟩⟩

/-- Component-wise `glm::vec2 - glm::vec2`. -/
instance Vertex.instSub : Sub (Vertex F) := ⟨fun a b => ⟨a.x - b.x, a.y - b.y⟩⟩

/-- The product `float * glm::vec2`. -/
instance Vertex.instSMul : SMul F (Vertex F) := ⟨fun s v => ⟨s * v.x, s * v.y⟩⟩

/-- The product `glm::vec2 * float`. -/
def Vertex.mul_scalar (v : Vertex F) (s : F) : Vertex F := ⟨v.x * s, v.y * s⟩

/-- `glm::dot` on `vec2`. -/
def glm_dot (a b : Vertex F) : F := a.x * b.x + a.y * b.y

/-- `glm::distance( p0, p1 )`, the length of `p1 - p0`. -/
def glm_distance (p0 p1 : Vertex F) : F := FloatArith.sqrtf (glm_dot (p1 - p0) (p1 - p0))

/-- `glm::normalize`: the vector times the inverse square root of its squared
length. -/
def glm_normalize (v : Vertex F) : Vertex F :=
  Vertex.mul_scalar v (FloatArith.ofNat 1 / FloatArith.sqrtf (glm_dot v v))

/-- The product `glm::mat2 * glm::vec2` of the matrix with columns `m0`, `m1`. -/
def glm_mat2_mul (m0 m1 v : Vertex F) : Vertex F :=
  ⟨m0.x * v.x + m1.x * v.y, m0.y * v.x + m1.y * v.y⟩

/-- `std::min<float>( a, b )`, which is `( b < a ) ? b : a`. -/
def std_min (a b : F) : F := if FloatArith.lt b a then b else a

/-- A default-constructed `Polyline`. -/
def Polyline.empty : Polyline F := ⟨[], [], [], 0⟩

/-- `trace_move_to`. -/
def trace_move_to (polyline : Polyline F) (p : Vertex F) : Polyline F :=
  { polyline with
    distances := polyline.distances ++ [0]
    vertices := polyline.vertices ++ [p] }

/-- `trace_line_to`; `vertices.back()` of an empty polyline is undefined. -/
def trace_line_to (polyline : Polyline F) (p : Vertex F) : Option (Polyline F) :=
  match polyline.vertices.getLast? with
  | none => none
  | some p0 =>
    let relativeMovement := p - p0
    let dist2 := glm_dot relativeMovement relativeMovement
    let epsilon2 : F := FloatArith.epsilon * FloatArith.epsilon
    if FloatArith.le dist2 epsilon2 then some polyline
    else
      let total_distance := polyline.total_distance + FloatArith.sqrtf dist2
      some { vertices := polyline.vertices ++ [p]
             tangents := polyline.tangents ++ [relativeMovement]
             distances := polyline.distances ++ [total_distance]
             total_distance := total_distance }

/-- `trace_close_path`; `vertices.front()` of an empty polyline is undefined. -/
def trace_close_path (polyline : Polyline F) : Option (Polyline F) :=
  match polyline.vertices.head? with
  | none => none
  | some p => trace_line_to polyline p

/-- One turn of the `for` loop of `trace_quad_bezier_to`; the state is the
polyline and `p_prev`. -/
def trace_quad_bezier_step (p0 p1 c1 : Vertex F) (delta_t : F)
    (st : Polyline F × Vertex F) (i : Nat) : Polyline F × Vertex F :=
  let polyline := st.1
  let p_prev := st.2
  let t := FloatArith.ofNat i * delta_t
  let t_sq := t * t
  let one_minus_t := FloatArith.ofNat 1 - t
  let one_minus_t_sq := one_minus_t * one_minus_t
  let b : Vertex F :=
    one_minus_t_sq • p0 + (FloatArith.ofNat 2 * one_minus_t * t) • c1 + t_sq • p1
  let total_distance := polyline.total_distance + glm_distance b p_prev
  ({ vertices := polyline.vertices ++ [b]
     tangents := polyline.tangents ++
       [(FloatArith.ofNat 2 * one_minus_t) • (c1 - p0) + (FloatArith.ofNat 2 * t) • (p1 - c1)]
     distances := polyline.distances ++ [total_distance]
     total_distance := total_distance }, b)

/-- `trace_quad_bezier_to`. -/
def trace_quad_bezier_to (polyline : Polyline F) (p1 c1 : Vertex F) (resolution : Nat) :
    Option (Polyline F) :=
  if resolution = 0 then some polyline
  else if resolution = 1 then trace_line_to polyline p1
  else
    match polyline.vertices.getLast? with
    | none => none
    | some p0 =>
      let delta_t : F := FloatArith.ofNat 1 / FloatArith.ofNat resolution
      some ((List.range' 1 resolution).foldl
        (trace_quad_bezier_step p0 p1 c1 delta_t) (polyline, p0)).1

/-- One turn of the `for` loop of `trace_cubic_bezier_to`. -/
def trace_cubic_bezier_step (p0 p1 c1 c2 : Vertex F) (delta_t : F)
    (st : Polyline F × Vertex F) (i : Nat) : Polyline F × Vertex F :=
  let polyline := st.1
  let p_prev := st.2
  let t := FloatArith.ofNat i * delta_t
  let t_sq := t * t
  let t_cub := t_sq * t
  let one_minus_t := FloatArith.ofNat 1 - t
  let one_minus_t_sq := one_minus_t * one_minus_t
  let one_minus_t_cub := one_minus_t_sq * one_minus_t
  let b : Vertex F :=
    one_minus_t_cub • p0 + (FloatArith.ofNat 3 * one_minus_t_sq * t) • c1
      + (FloatArith.ofNat 3 * one_minus_t * t_sq) • c2 + t_cub • p1
  let total_distance := polyline.total_distance + glm_distance b p_prev
  ({ vertices := polyline.vertices ++ [b]
     tangents := polyline.tangents ++
       [(FloatArith.ofNat 3 * one_minus_t_sq) • (c1 - p0)
          + (FloatArith.ofNat 6 * one_minus_t * t) • (c2 - c1)
          + (FloatArith.ofNat 3 * t_sq) • (p1 - c2)]
     distances := polyline.distances ++ [total_distance]
     total_distance := total_distance }, b)

/-- `trace_cubic_bezier_to`. -/
def trace_cubic_bezier_to (polyline : Polyline F) (p1 c1 c2 : Vertex F) (resolution : Nat) :
    Option (Polyline F) :=
  if resolution = 0 then some polyline
  else if resolution = 1 then trace_line_to polyline p1
  else
    match polyline.vertices.getLast? with
    | none => none
    | some p0 =>
      let delta_t : F := FloatArith.ofNat 1 / FloatArith.ofNat resolution
      some ((List.range' 1 resolution).foldl
        (trace_cubic_bezier_step p0 p1 c1 c2 delta_t) (polyline, p0)).1

/-- The `switch` of `le_path_trace_path` on one command; `assert( false )` on
`eUnknown`. -/
def trace_command (resolution : Nat) (polyline : Polyline F) (command : PathCommand F) :
    Option (Polyline F) :=
  match command.type with
  | .eMoveTo => some (trace_move_to polyline command.p)
  | .eLineTo => trace_line_to polyline command.p
  | .eQuadBezierTo => trace_quad_bezier_to polyline command.p command.c1 resolution
  | .eCubicBezierTo =>
    trace_cubic_bezier_to polyline command.p command.c1 command.c2 resolution
  | .eClosePath => trace_close_path polyline
  | .eUnknown => none

/-- The inner `for` loop of `le_path_trace_path` over the commands of one
contour. -/
def trace_commands (resolution : Nat) :
    Polyline F → List (PathCommand F) → Option (Polyline F)
  | polyline, [] => some polyline
  | polyline, command :: rest =>
    (trace_command resolution polyline command).bind fun q =>
      trace_commands resolution q rest

/-- The outer `for` loop of `le_path_trace_path`: a fresh `Polyline` per
contour, the assertion `vertices.size() == distances.size()`, and
`polylines.emplace_back`. -/
def trace_contours (resolution : Nat) :
    List (Polyline F) → List (Contour F) → Option (List (Polyline F))
  | polylines, [] => some polylines
  | polylines, s :: rest =>
    match trace_commands resolution Polyline.empty s.commands with
    | none => none
    | some polyline =>
      if polyline.vertices.length = polyline.distances.length then
        trace_contours resolution (polylines ++ [polyline]) rest
      else none

/-- `le_path_trace_path`: `polylines.clear()`, then the loop over the contours. -/
def le_path_trace_path (self : le_path_o F) (resolution : Nat) : Option (le_path_o F) :=
  (trace_contours resolution [] self.contours).map fun polylines =>
    { self with polylines := polylines }

/-- A cubic Bezier curve `Vertex b[ 4 ]`, in the format `{p0,c0,c1,p1}`. -/
structure Bezier4 (F : Type) where
  b0 : Vertex F
  b1 : Vertex F
  b2 : Vertex F
  b3 : Vertex F
deriving DecidableEq

/-- `bezier_subdivide`: the two halves `s_0` and `s_1`. -/
def bezier_subdivide (b : Bezier4 F) (t : F) : Bezier4 F × Bezier4 F :=
  let b2_ := b.b2 + t • (b.b3 - b.b2)
  let b1_ := b.b1 + t • (b.b2 - b.b1)
  let b0_ := b.b0 + t • (b.b1 - b.b0)
  let b0__ := b0_ + t • (b1_ - b0_)
  let b1__ := b1_ + t • (b2_ - b1_)
  let b0___ := b0__ + t • (b1__ - b0__)
  (⟨b.b0, b0_, b0__, b0___⟩, ⟨b0___, b1__, b2_, b.b3⟩)

/-- The `for ( ;; )` loop of `flatten_cubic_bezier_to`, at most `fuel` turns;
`none` when the loop has not reached its `break` by then. -/
def flatten_cubic_bezier_loop (toi : F) :
    Nat → Bezier4 F → Vertex F → Polyline F → Option (Polyline F)
  | 0, _, _, _ => none
  | fuel + 1, b, p_prev, polyline =>
    let r := glm_normalize (b.b1 - b.b0)
    let s : Vertex F := ⟨r.y, -r.x⟩
    let b1 := glm_mat2_mul r s (b.b1 - b.b0)
    let b2 := glm_mat2_mul r s (b.b2 - b.b0)
    let b3 := glm_mat2_mul r s (b.b3 - b.b0)
    let b0 : Vertex F := 0
    let t_dash := FloatArith.sqrtf (toi / (FloatArith.ofNat 3 * FloatArith.fabsf b2.y))
    let t := std_min (FloatArith.ofNat 1) (t_dash * FloatArith.ofNat 2)
    let t_sq := t * t
    let t_cub := t_sq * t
    let pt_local : Vertex F :=
      b0 + Vertex.mul_scalar ((FloatArith.ofNat 3 : F) • (b1 - b0)) t
        + Vertex.mul_scalar ((FloatArith.ofNat 3 : F) • (b2 - (FloatArith.ofNat 2 : F) • b1 + b0)) t_sq
        + Vertex.mul_scalar
            (b3 - (FloatArith.ofNat 3 : F) • b2 + (FloatArith.ofNat 3 : F) • b1 - b0) t_cub
    let pt := p_prev + glm_mat2_mul r s pt_local
    let total_distance := polyline.total_distance + glm_distance pt p_prev
    let polyline1 : Polyline F :=
      { vertices := polyline.vertices ++ [pt]
        tangents := polyline.tangents ++ [0]
        distances := polyline.distances ++ [total_distance]
        total_distance := total_distance }
    if FloatArith.le (FloatArith.ofNat 1) t then some polyline1
    else
      let s1 := (bezier_subdivide ⟨b0, b1, b2, b3⟩ t).2
      flatten_cubic_bezier_loop toi fuel
        ⟨p_prev + glm_mat2_mul r s s1.b0, p_prev + glm_mat2_mul r s s1.b1,
         p_prev + glm_mat2_mul r s s1.b2, p_prev + glm_mat2_mul r s s1.b3⟩
        pt polyline1

/-- `flatten_cubic_bezier_to`: `toi` is set to `tolerance` and then to `0.04f`. -/
def flatten_cubic_bezier_to (fuel : Nat) (polyline : Polyline F) (p1 c1 c2 : Vertex F)
    (tolerance : F) : Option (Polyline F) :=
  match polyline.vertices.getLast? with
  | none => none
  | some p0 =>
    let _toi := tolerance
    let toi : F := FloatArith.lit_0_04
    flatten_cubic_bezier_loop toi fuel ⟨p0, c1, c2, p1⟩ p0 polyline

/-- The `switch` of `le_path_flatten_path` on one command. -/
def flatten_command (fuel : Nat) (tolerance : F) (polyline : Polyline F)
    (command : PathCommand F) : Option (Polyline F) :=
  match command.type with
  | .eMoveTo => some (trace_move_to polyline command.p)
  | .eLineTo => trace_line_to polyline command.p
  | .eQuadBezierTo =>
    flatten_cubic_bezier_to fuel polyline command.p command.c1 command.c1 tolerance
  | .eCubicBezierTo =>
    flatten_cubic_bezier_to fuel polyline command.p command.c1 command.c2 tolerance
  | .eClosePath => trace_close_path polyline
  | .eUnknown => none

/-- The inner `for` loop of `le_path_flatten_path`. -/
def flatten_commands (fuel : Nat) (tolerance : F) :
    Polyline F → List (PathCommand F) → Option (Polyline F)
  | polyline, [] => some polyline
  | polyline, command :: rest =>
    (flatten_command fuel tolerance polyline command).bind fun q =>
      flatten_commands fuel tolerance q rest

/-- The outer `for` loop of `le_path_flatten_path`. -/
def flatten_contours (fuel : Nat) (tolerance : F) :
    List (Polyline F) → List (Contour F) → Option (List (Polyline F))
  | polylines, [] => some polylines
  | polylines, s :: rest =>
    match flatten_commands fuel tolerance Polyline.empty s.commands with
    | none => none
    | some polyline =>
      if polyline.vertices.length = polyline.distances.length then
        flatten_contours fuel tolerance (polylines ++ [polyline]) rest
      else none

/-- `le_path_flatten_path`; `fuel` bounds the turns of each flattening loop. -/
def le_path_flatten_path (fuel : Nat) (self : le_path_o F) (tolerance : F) :
    Option (le_path_o F) :=
  (flatten_contours fuel tolerance [] self.contours).map fun polylines =>
    { self with polylines := polylines }

end Tracing

/-! ## Simplified SVG as a list of instructions

The doc comment of `le_path_add_from_simplified_svg` fixes the text format: an
instruction is a letter followed by its parameters, the parameters are
coordinate pairs `x,y` (a single number for `H` and `V`), the target point
comes last. -/

section Instructions

variable {F : Type}

/-- An instruction of simplified SVG with its parameters in textual order. -/
inductive SvgInstruction (F : Type) where
  | M (p : Vertex F)
  | L (p : Vertex F)
  | H (x : F)
  | V (y : F)
  | C (c0 c1 p : Vertex F)
  | Q (c0 p : Vertex F)
  | Z
deriving DecidableEq

/-- The instructions the doc comment of the reader lists: all but `H`, `V`. -/
inductive PlainInstruction (F : Type) where
  | M (p : Vertex F)
  | L (p : Vertex F)
  | C (c0 c1 p : Vertex F)
  | Q (c0 p : Vertex F)
  | Z
deriving DecidableEq

/-- A listed instruction as an instruction. -/
def PlainInstruction.toSvg : PlainInstruction F → SvgInstruction F
  | .M p => .M p
  | .L p => .L p
  | .C c0 c1 p => .C c0 c1 p
  | .Q c0 p => .Q c0 p
  | .Z => .Z

/-- A non-empty run of the characters `is_whitespace` accepts. -/
def IsWhitespace (w : List Char) : Prop :=
  w ≠ [] ∧ ∀ ch ∈ w, is_whitespace_char ch = true

/-- The characters `s`, standing before `rest`, are a number that `strtof` reads
as `v`, consuming exactly `s`; `s` does not begin with white space. -/
def NumberAt (strtof : List Char → F × Nat) (s : List Char) (v : F) (rest : List Char) :
    Prop :=
  s ≠ [] ∧ (∀ ch ∈ s.head?, is_whitespace_char ch = false) ∧
    strtof (s ++ rest) = (v, s.length)

/-- The characters `s`, standing before `rest`, are a coordinate pair `x,y`
with value `p`. -/
def PairAt (strtof : List Char → F × Nat) (s : List Char) (p : Vertex F)
    (rest : List Char) : Prop :=
  ∃ sx sy, s = sx ++ ',' :: sy ∧ NumberAt strtof sx p.x (',' :: (sy ++ rest)) ∧
    NumberAt strtof sy p.y rest

/-- A text that is a sequence of well-formed simplified-SVG instructions, with
the instructions it spells: at least one white space character after each
letter and between coordinate pairs, any white space between instructions. -/
inductive SvgText (strtof : List Char → F × Nat) :
    List Char → List (SvgInstruction F) → Prop where
  | done : SvgText strtof [] []
  | space (ch : Char) (t : List Char) (is : List (SvgInstruction F)) :
      is_whitespace_char ch = true → SvgText strtof t is → SvgText strtof (ch :: t) is
  | M (w s : List Char) (p : Vertex F) (t : List Char) (is : List (SvgInstruction F)) :
      IsWhitespace w → PairAt strtof s p t → SvgText strtof t is →
      SvgText strtof ('M' :: (w ++ (s ++ t))) (.M p :: is)
  | L (w s : List Char) (p : Vertex F) (t : List Char) (is : List (SvgInstruction F)) :
      IsWhitespace w → PairAt strtof s p t → SvgText strtof t is →
      SvgText strtof ('L' :: (w ++ (s ++ t))) (.L p :: is)
  | H (w s : List Char) (x : F) (t : List Char) (is : List (SvgInstruction F)) :
      IsWhitespace w → NumberAt strtof s x t → SvgText strtof t is →
      SvgText strtof ('H' :: (w ++ (s ++ t))) (.H x :: is)
  | V (w s : List Char) (y : F) (t : List Char) (is : List (SvgInstruction F)) :
      IsWhitespace w → NumberAt strtof s y t → SvgText strtof t is →
      SvgText strtof ('V' :: (w ++ (s ++ t))) (.V y :: is)
  | C (w1 s1 w2 s2 w3 s3 : List Char) (c0 c1 p : Vertex F) (t : List Char)
      (is : List (SvgInstruction F)) :
      IsWhitespace w1 → PairAt strtof s1 c0 (w2 ++ (s2 ++ (w3 ++ (s3 ++ t)))) →
      IsWhitespace w2 → PairAt strtof s2 c1 (w3 ++ (s3 ++ t)) →
      IsWhitespace w3 → PairAt strtof s3 p t → SvgText strtof t is →
      SvgText strtof ('C' :: (w1 ++ (s1 ++ (w2 ++ (s2 ++ (w3 ++ (s3 ++ t)))))))
        (.C c0 c1 p :: is)
  | Q (w1 s1 w2 s2 : List Char) (c0 p : Vertex F) (t : List Char)
      (is : List (SvgInstruction F)) :
      IsWhitespace w1 → PairAt strtof s1 c0 (w2 ++ (s2 ++ t)) →
      IsWhitespace w2 → PairAt strtof s2 p t → SvgText strtof t is →
      SvgText strtof ('Q' :: (w1 ++ (s1 ++ (w2 ++ (s2 ++ t))))) (.Q c0 p :: is)
  | Z (t : List Char) (is : List (SvgInstruction F)) :
      SvgText strtof t is → SvgText strtof ('Z' :: t) (.Z :: is)

variable [Zero F]

/-- The path operation the reader calls for an instruction
(`le_path_add_from_simplified_svg`, lines 1002-1045). -/
def run_instruction (self : le_path_o F) : SvgInstruction F → Option (le_path_o F)
  | .M p => some (le_path_move_to self p)
  | .L p => some (le_path_line_to self p)
  | .H x => le_path_line_horiz_to self x
  | .V y => le_path_line_vert_to self y
  | .C c0 c1 p => le_path_cubic_bezier_to self p c0 c1
  | .Q c0 p => le_path_quad_bezier_to self p c0
  | .Z => le_path_close_path self

/-- The path operations for a list of instructions, in order. -/
def run_instructions : le_path_o F → List (SvgInstruction F) → Option (le_path_o F)
  | self, [] => some self
  | self, i :: is => (run_instruction self i).bind fun s => run_instructions s is

/-- The path command the documented format assigns to an instruction: the type
of the letter, the last pair as end point, the pairs before it as control
points 1 and 2. -/
def instruction_command : PlainInstruction F → PathCommand F
  | .M p => ⟨.eMoveTo, p, 0, 0⟩
  | .L p => ⟨.eLineTo, p, 0, 0⟩
  | .C c0 c1 p => ⟨.eCubicBezierTo, p, c0, c1⟩
  | .Q c0 p => ⟨.eQuadBezierTo, p, c0, 0⟩
  | .Z => ⟨.eClosePath, 0, 0, 0⟩

/-- The contours a list of `M`, `L`, `C`, `Q`, `Z` instructions describes: each
`M` opens a new contour, every other instruction adds its command to the most
recent contour. -/
def described_contours : List (Contour F) → List (PlainInstruction F) → List (Contour F)
  | contours, [] => contours
  | contours, .M p :: is =>
    described_contours (contours ++ [⟨[instruction_command (.M p)]⟩]) is
  | contours, i :: is =>
    match contours.getLast? with
    | none => described_contours contours is
    | some s =>
      described_contours (contours.dropLast ++ [⟨s.commands ++ [instruction_command i]⟩]) is

/-- All commands of a path, contour after contour. -/
def all_commands (contours : List (Contour F)) : List (PathCommand F) :=
  (contours.map fun s => s.commands).flatten

/-- Modelled from the spec: the emitter of simplified SVG, which the repository
does not contain.  It follows the format the reader documents: `fmt` prints a
number, a pair is `x,y`, an instruction is its letter, a blank, and its pairs
separated by one blank, the target point last.  Here the pair. -/
def emit_pair (fmt : F → List Char) (p : Vertex F) : List Char :=
  fmt p.x ++ ',' :: fmt p.y

/-- Modelled from the spec: the emitter of simplified SVG, which the repository
does not contain; here the text of one path command. -/
def emit_command (fmt : F → List Char) (command : PathCommand F) : List Char :=
  match command.type with
  | .eMoveTo => 'M' :: ' ' :: emit_pair fmt command.p
  | .eLineTo => 'L' :: ' ' :: emit_pair fmt command.p
  | .eQuadBezierTo =>
    'Q' :: ' ' :: (emit_pair fmt command.c1 ++ ' ' :: emit_pair fmt command.p)
  | .eCubicBezierTo =>
    'C' :: ' ' :: (emit_pair fmt command.c1 ++ ' ' ::
      (emit_pair fmt command.c2 ++ ' ' :: emit_pair fmt command.p))
  | .eClosePath => ['Z']
  | .eUnknown => []

/-- Modelled from the spec: the emitter of simplified SVG, which the repository
does not contain; here a list of commands, one blank after each. -/
def emit_commands (fmt : F → List Char) : List (PathCommand F) → List Char
  | [] => []
  | command :: rest => emit_command fmt command ++ ' ' :: emit_commands fmt rest

/-- Modelled from the spec: the emitter of simplified SVG, which the repository
does not contain; the text of a path is the text of the commands of its
contours, in order. -/
def emit_path (fmt : F → List Char) (self : le_path_o F) : List Char :=
  emit_commands fmt (all_commands self.contours)

end Instructions

/-! ## Concrete number syntax and arithmetic, to run the definitions -/

/-- The value of a decimal digit character. -/
def digit_of_char (ch : Char) : Option Nat :=
  if ch = '0' then some 0 else if ch = '1' then some 1 else if ch = '2' then some 2
  else if ch = '3' then some 3 else if ch = '4' then some 4 else if ch = '5' then some 5
  else if ch = '6' then some 6 else if ch = '7' then some 7 else if ch = '8' then some 8
  else if ch = '9' then some 9 else none

/-- The character of a decimal digit. -/
def char_of_digit (d : Nat) : Char :=
  match d with
  | 0 => '0' | 1 => '1' | 2 => '2' | 3 => '3' | 4 => '4'
  | 5 => '5' | 6 => '6' | 7 => '7' | 8 => '8' | _ => '9'

/-- Reads the decimal digits at the front of `c`: the value of `acc` followed by
these digits, and how many digits there are. -/
def read_digits : List Char → Nat → Nat × Nat
  | [], acc => (acc, 0)
  | ch :: c, acc =>
    match digit_of_char ch with
    | none => (acc, 0)
    | some d => ((read_digits c (10 * acc + d)).1, (read_digits c (10 * acc + d)).2 + 1)

/-- `strtof` on unsigned decimal integers: no conversion unless the text begins
with a digit. -/
def strtof_decimal (c : List Char) : Nat × Nat := read_digits c 0

/-- Decimal printing of a natural number. -/
def fmt_decimal (n : Nat) : List Char :=
  if n = 0 then ['0'] else ((Nat.digits 10 n).map char_of_digit).reverse

/-- Bitwise integer square root: the largest `r < 2 ^ k` above the start value
with `r * r ≤ n`. -/
def isqrt_bits : Nat → Nat → Nat → Nat
  | 0, _, r => r
  | k + 1, n, r =>
    if (r + 2 ^ k) * (r + 2 ^ k) ≤ n then isqrt_bits k n (r + 2 ^ k) else isqrt_bits k n r

/-- A square root on the rationals, rounded down to a thousandth. -/
def sqrt_milli (q : ℚ) : ℚ :=
  (isqrt_bits 64 (q.num.toNat * 1000000 / q.den) 0 : ℚ) / 1000

/-- Exact rational arithmetic, with a given square root. -/
@[reducible] def exactArith (sq : ℚ → ℚ) : FloatArith ℚ where
  zero := 0
  add := (· + ·)
  sub := (· - ·)
  mul := (· * ·)
  div := (· / ·)
  neg := (- ·)
  ofNat n := (n : ℚ)
  lit_0_04 := 4 / 100
  epsilon := 1 / 2 ^ 23
  sqrtf := sq
  fabsf q := |q|
  le a b := decide (a ≤ b)
  lt a b := decide (a < b)

/-! ## `le_shader_binding_info` (`le_backend_types_internal.h`, lines 71-94)

The record is a union of seven bit-fields with the 64-bit word `data`.  The
header states the placement it relies on: members of a bit-field are placed low
to high, the first declared member in the least significant bits. -/

/-- The bit-field members of `le_shader_binding_info`. -/
inductive BindingField where
  | dynamic_offset_idx
  | stage_bits
  | range
  | type
  | count
  | binding
  | setIndex
deriving DecidableEq

/-- The members in the order of their declaration. -/
def BindingField.declared : List BindingField :=
  [.dynamic_offset_idx, .stage_bits, .range, .type, .count, .binding, .setIndex]

/-- The declared width of a member. -/
def BindingField.width : BindingField → Nat
  | .dynamic_offset_idx => 8
  | .stage_bits => 6
  | .range => 27
  | .type => 4
  | .count => 8
  | .binding => 8
  | .setIndex => 3

/-- The position of the lowest bit of a member: the widths of the members
declared before it, added up. -/
def BindingField.bit_offset (f : BindingField) : Nat :=
  ((BindingField.declared.takeWhile fun g => g ≠ f).map BindingField.width).sum

/-- `struct le_shader_binding_info`: the `uint64_t` word `data`, which the
bit-fields share, and the `uint64_t name_hash`. -/
structure le_shader_binding_info where
  data : Nat
  name_hash : Nat
  data_lt : data < 2 ^ 64
  name_hash_lt : name_hash < 2 ^ 64
deriving DecidableEq

namespace le_shader_binding_info

/-- Reading a bit-field member: shift and mask. -/
def get (info : le_shader_binding_info) (f : BindingField) : Nat :=
  (info.data / 2 ^ f.bit_offset) % 2 ^ f.width

/-- The member `setIndex`. -/
def setIndex (info : le_shader_binding_info) : Nat := info.get .setIndex

/-- The member `binding`. -/
def binding (info : le_shader_binding_info) : Nat := info.get .binding

/-- The word in which every member `f` holds `v f` (truncated to the width of
`f`, as a store to a bit-field does). -/
def pack_word (v : BindingField → Nat) : Nat :=
  (BindingField.declared.map fun f => (v f % 2 ^ f.width) * 2 ^ f.bit_offset).sum

/-- The record whose members hold the values `v` and whose name hash is
`name_hash`. -/
def pack (v : BindingField → Nat) (name_hash : Nat) : le_shader_binding_info where
  data := pack_word v % 2 ^ 64
  name_hash := name_hash % 2 ^ 64
  data_lt := Nat.mod_lt _ (by decide)
  name_hash_lt := Nat.mod_lt _ (by decide)

/-- `operator <`: `data < lhs.data`. -/
def operator_lt (self lhs : le_shader_binding_info) : Bool :=
  decide (self.data < lhs.data)

end le_shader_binding_info

/-- Modelled from the spec: the sort of a list of binding infos, which is not
in the header (only `operator <` is).  The spec asks for a stable sort on the
packed word, ascending: an element goes before the first element that is not
smaller than it under `operator <`. -/
def sort_binding_infos (l : List le_shader_binding_info) : List le_shader_binding_info :=
  l.insertionSort fun a b => le_shader_binding_info.operator_lt b a = false

/-! ## Auxiliary definitions: one turn of the reader, the contour invariant,
reachable paths, agreement of number printer and `strtof` -/

section Recognise
variable {F : Type}

/-- What one turn of the loop of `le_path_add_from_simplified_svg` finds at `c`:
the instruction of the first test that succeeds, if any, and the number of
characters the turn moves on. -/
def recognise_instruction (strtof : List Char → F × Nat) (c : List Char) :
    Option (SvgInstruction F) × Nat :=
  match is_m_instruction strtof c 0 with
  | some (offset, p0) => (some (.M p0), offset)
  | none =>
  match is_l_instruction strtof c 0 with
  | some (offset, p0) => (some (.L p0), offset)
  | none =>
  match is_h_instruction strtof c 0 with
  | some (offset, p0x) => (some (.H p0x), offset)
  | none =>
  match is_v_instruction strtof c 0 with
  | some (offset, p0y) => (some (.V p0y), offset)
  | none =>
  match is_c_instruction strtof c 0 with
  | some (offset, p0, p1, p2) => (some (.C p0 p1 p2), offset)
  | none =>
  match is_q_instruction strtof c 0 with
  | some (offset, p0, p1) => (some (.Q p0 p1), offset)
  | none =>
  match is_character_match 'Z' c 0 with
  | some offset => (some .Z, offset)
  | none => (none, 1)
end Recognise

section Invariant
variable {F : Type} [Zero F]

/-- A contour as the path operations build it: a `MoveTo` with value-initialised
control points, followed by commands that are not `MoveTo` and carry exactly the
parameters of their type. -/
def CanonicalContour (s : Contour F) : Prop :=
  ∃ p rest, s.commands = ⟨.eMoveTo, p, 0, 0⟩ :: rest ∧
    ∀ c ∈ rest, c.type ≠ .eMoveTo ∧ ∃ i : PlainInstruction F, instruction_command i = c

/-- Every contour of the path is canonical. -/
def CanonicalPath (self : le_path_o F) : Prop :=
  ∀ s ∈ self.contours, CanonicalContour s

/-- The paths that the construction API and the simplified-SVG reader produce
from an empty path, each operation under its asserted precondition (it returns
a path). -/
inductive Reachable : le_path_o F → Prop where
  | create : Reachable (le_path_create F)
  | move_to (self : le_path_o F) (p : Vertex F) :
      Reachable self → Reachable (le_path_move_to self p)
  | line_to (self : le_path_o F) (p : Vertex F) :
      Reachable self → Reachable (le_path_line_to self p)
  | line_horiz_to (self next : le_path_o F) (px : F) :
      Reachable self → le_path_line_horiz_to self px = some next → Reachable next
  | line_vert_to (self next : le_path_o F) (py : F) :
      Reachable self → le_path_line_vert_to self py = some next → Reachable next
  | quad_bezier_to (self next : le_path_o F) (p c1 : Vertex F) :
      Reachable self → le_path_quad_bezier_to self p c1 = some next → Reachable next
  | cubic_bezier_to (self next : le_path_o F) (p c1 c2 : Vertex F) :
      Reachable self → le_path_cubic_bezier_to self p c1 c2 = some next → Reachable next
  | close (self next : le_path_o F) :
      Reachable self → le_path_close_path self = some next → Reachable next
  | add_from_simplified_svg (strtof : List Char → F × Nat) (self next : le_path_o F)
      (svg : List Char) :
      Reachable self → le_path_add_from_simplified_svg strtof self svg = some next →
      Reachable next

end Invariant

section Format
variable {F : Type}

/-- The number printer `fmt` and `strtof` agree: before a comma or a blank,
`strtof` reads the text `fmt v` as `v` and consumes exactly that text. -/
def NumberFormat (strtof : List Char → F × Nat) (fmt : F → List Char) : Prop :=
  ∀ (v : F) (t : List Char),
    NumberAt strtof (fmt v) v (',' :: t) ∧ NumberAt strtof (fmt v) v (' ' :: t)

end Format

/-! ## Sample data -/

/-- A sample instruction list with all seven instructions; the `H` after `Z`
has no previous point and adds nothing. -/
def sample_instructions : List (SvgInstruction Nat) :=
  [.M ⟨1, 2⟩, .L ⟨3, 4⟩, .H 7, .V 9, .Q ⟨10, 11⟩ ⟨12, 13⟩, .Z, .H 5,
   .M ⟨20, 0⟩, .C ⟨1, 2⟩ ⟨3, 4⟩ ⟨5, 6⟩]

/-- The path the sample instruction list builds. -/
def sample_path : le_path_o Nat :=
  ⟨[⟨[⟨.eMoveTo, ⟨1, 2⟩, 0, 0⟩, ⟨.eLineTo, ⟨3, 4⟩, 0, 0⟩, ⟨.eLineTo, ⟨7, 4⟩, 0, 0⟩,
      ⟨.eLineTo, ⟨7, 9⟩, 0, 0⟩, ⟨.eQuadBezierTo, ⟨12, 13⟩, ⟨10, 11⟩, 0⟩,
      ⟨.eClosePath, 0, 0, 0⟩]⟩,
    ⟨[⟨.eMoveTo, ⟨20, 0⟩, 0, 0⟩, ⟨.eCubicBezierTo, ⟨5, 6⟩, ⟨1, 2⟩, ⟨3, 4⟩⟩]⟩], []⟩

section TraceDefs
variable {F : Type} [FloatArith F]

/-- A polyline that has a first vertex and as many distances as vertices. -/
def Polyline.Started (q : Polyline F) : Prop :=
  q.vertices ≠ [] ∧ q.vertices.length = q.distances.length

end TraceDefs

/-- Division for the sample arithmetic: a division by zero gives a huge value
of the sign of the dividend, where IEEE arithmetic gives an infinity. -/
def sample_div (a b : ℚ) : ℚ :=
  if b = 0 then (if a < 0 then -(2 ^ 100) else 2 ^ 100) else a / b

/-- Rational arithmetic to run the tracing code: exact operations, the square
root rounded down to a thousandth, and `sample_div` as division. -/
@[reducible] def sampleArith : FloatArith ℚ :=
  { exactArith sqrt_milli with div := sample_div }

/-- A sample path over the rationals: a closed contour with a cubic curve, and
a contour with a line and a quadratic curve. -/
def sample_curve_path : le_path_o ℚ :=
  ⟨[⟨[⟨.eMoveTo, ⟨0, 0⟩, 0, 0⟩, ⟨.eCubicBezierTo, ⟨3, 0⟩, ⟨1, 0⟩, ⟨2, 1⟩⟩,
      ⟨.eClosePath, 0, 0, 0⟩]⟩,
    ⟨[⟨.eMoveTo, ⟨5, 5⟩, 0, 0⟩, ⟨.eLineTo, ⟨6, 5⟩, 0, 0⟩,
      ⟨.eQuadBezierTo, ⟨8, 5⟩, ⟨7, 6⟩, 0⟩]⟩], []⟩

/-- A sample record: set 1, binding 200, every other member at its largest
value. -/
def sample_info_a : le_shader_binding_info :=
  le_shader_binding_info.pack (fun f => match f with
    | .setIndex => 1 | .binding => 200 | .count => 255 | .type => 15
    | .range => 2 ^ 27 - 1 | .stage_bits => 63 | .dynamic_offset_idx => 255) 17

/-- A sample record: set 2, binding 3, every other member zero. -/
def sample_info_b : le_shader_binding_info :=
  le_shader_binding_info.pack (fun f => match f with
    | .setIndex => 2 | .binding => 3 | _ => 0) 18

/-- A sample record: binding 5 in set 3, every other member zero. -/
def sample_info_c : le_shader_binding_info :=
  le_shader_binding_info.pack (fun f => match f with
    | .setIndex => 3 | .binding => 5 | _ => 0) 0

/-- A sample record: every member zero. -/
def sample_info_zero : le_shader_binding_info :=
  le_shader_binding_info.pack (fun _ => 0) 0

/-- Sample member values, each below two to the width of its member. -/
def sample_values : BindingField → Nat
  | .setIndex => 7
  | .binding => 129
  | .count => 4
  | .type => 9
  | .range => 100000000
  | .stage_bits => 33
  | .dynamic_offset_idx => 250

/-- Two sample records with the same packed word and different name hashes. -/
def sample_info_x : le_shader_binding_info := ⟨5, 1, by decide, by decide⟩

/-- The second of the two sample records with the same packed word. -/
def sample_info_y : le_shader_binding_info := ⟨5, 2, by decide, by decide⟩

/-! ## Bezier curves as the claims write them -/

section BezierSpec

variable {R : Type} [CommRing R]

/-- The point at parameter `t` of the quadratic Bezier curve with start `p0`,
control point `c1` and end `p1`, written as
`(1-t)^2 p0 + 2(1-t)t c1 + t^2 p1`. -/
def quad_bezier_point (p0 c1 p1 : Vertex R) (t : R) : Vertex R :=
  ⟨(1 - t) ^ 2 * p0.x + 2 * (1 - t) * t * c1.x + t ^ 2 * p1.x,
   (1 - t) ^ 2 * p0.y + 2 * (1 - t) * t * c1.y + t ^ 2 * p1.y⟩

/-- The point at parameter `t` of the cubic Bezier curve with start `p0`,
control points `c1`, `c2` and end `p1`, written as
`(1-t)^3 p0 + 3(1-t)^2 t c1 + 3(1-t)t^2 c2 + t^3 p1`. -/
def cubic_bezier_point (p0 c1 c2 p1 : Vertex R) (t : R) : Vertex R :=
  ⟨(1 - t) ^ 3 * p0.x + 3 * (1 - t) ^ 2 * t * c1.x + 3 * (1 - t) * t ^ 2 * c2.x
      + t ^ 3 * p1.x,
   (1 - t) ^ 3 * p0.y + 3 * (1 - t) ^ 2 * t * c1.y + 3 * (1 - t) * t ^ 2 * c2.y
      + t ^ 3 * p1.y⟩

/-- The vector `2(1-t)(c1-p0) + 2t(p1-c1)`. -/
def quad_bezier_derivative (p0 c1 p1 : Vertex R) (t : R) : Vertex R :=
  ⟨2 * (1 - t) * (c1.x - p0.x) + 2 * t * (p1.x - c1.x),
   2 * (1 - t) * (c1.y - p0.y) + 2 * t * (p1.y - c1.y)⟩

/-- The vector `3(1-t)^2(c1-p0) + 6(1-t)t(c2-c1) + 3t^2(p1-c2)`. -/
def cubic_bezier_derivative (p0 c1 c2 p1 : Vertex R) (t : R) : Vertex R :=
  ⟨3 * (1 - t) ^ 2 * (c1.x - p0.x) + 6 * (1 - t) * t * (c2.x - c1.x)
      + 3 * t ^ 2 * (p1.x - c2.x),
   3 * (1 - t) ^ 2 * (c1.y - p0.y) + 6 * (1 - t) * t * (c2.y - c1.y)
      + 3 * t ^ 2 * (p1.y - c2.y)⟩

end BezierSpec

section TraceStepDefs

variable {F : Type} [FloatArith F]

/-- The vertex `b` that turn `i` of the loop of `trace_quad_bezier_to` appends. -/
def trace_quad_bezier_vertex (p0 p1 c1 : Vertex F) (delta_t : F) (i : Nat) : Vertex F :=
  (trace_quad_bezier_step p0 p1 c1 delta_t (Polyline.empty, p0) i).2

/-- The tangent that turn `i` of the loop of `trace_quad_bezier_to` appends. -/
def trace_quad_bezier_tangent (p0 p1 c1 : Vertex F) (delta_t : F) (i : Nat) : Vertex F :=
  let t := FloatArith.ofNat i * delta_t
  let one_minus_t := FloatArith.ofNat 1 - t
  (FloatArith.ofNat 2 * one_minus_t) • (c1 - p0) + (FloatArith.ofNat 2 * t) • (p1 - c1)

/-- The vertex `b` that turn `i` of the loop of `trace_cubic_bezier_to` appends. -/
def trace_cubic_bezier_vertex (p0 p1 c1 c2 : Vertex F) (delta_t : F) (i : Nat) : Vertex F :=
  (trace_cubic_bezier_step p0 p1 c1 c2 delta_t (Polyline.empty, p0) i).2

/-- The tangent that turn `i` of the loop of `trace_cubic_bezier_to` appends. -/
def trace_cubic_bezier_tangent (p0 p1 c1 c2 : Vertex F) (delta_t : F) (i : Nat) :
    Vertex F :=
  let t := FloatArith.ofNat i * delta_t
  let t_sq := t * t
  let one_minus_t := FloatArith.ofNat 1 - t
  let one_minus_t_sq := one_minus_t * one_minus_t
  (FloatArith.ofNat 3 * one_minus_t_sq) • (c1 - p0)
    + (FloatArith.ofNat 6 * one_minus_t * t) • (c2 - c1)
    + (FloatArith.ofNat 3 * t_sq) • (p1 - c2)

end TraceStepDefs

/-- A sample polyline over the rationals: the single vertex `(0,0)` of a
`MoveTo`. -/
def sample_polyline : Polyline ℚ := ⟨[⟨0, 0⟩], [], [0], 0⟩

section CountDefs
variable {F : Type}

/-- The polyline `r` has, for some `k`, `k` vertices, `k` tangents and `k`
distances more than `q`. -/
def Polyline.Extends (q r : Polyline F) : Prop :=
  ∃ k, r.vertices.length = q.vertices.length + k ∧
    r.tangents.length = q.tangents.length + k ∧
    r.distances.length = q.distances.length + k

end CountDefs

/-- A sample closed contour: `M 0,0 L 1,0 Z`. -/
def sample_closed_commands : List (PathCommand ℚ) :=
  [⟨.eMoveTo, ⟨0, 0⟩, 0, 0⟩, ⟨.eLineTo, ⟨1, 0⟩, 0, 0⟩, ⟨.eClosePath, 0, 0, 0⟩]

/-- A sample open contour: `M 0,0 L 1,0 Q 2,1 3,0 C 4,0 5,1 6,0`. -/
def sample_open_commands : List (PathCommand ℚ) :=
  [⟨.eLineTo, ⟨1, 0⟩, 0, 0⟩, ⟨.eQuadBezierTo, ⟨3, 0⟩, ⟨2, 1⟩, 0⟩,
   ⟨.eCubicBezierTo, ⟨6, 0⟩, ⟨4, 0⟩, ⟨5, 1⟩⟩]

/-- A sample cubic curve, from `(0,0)` to `(3,0)` with control points `(1,0)`
and `(2,1)`, as the array `b` of `flatten_cubic_bezier_to`. -/
def sample_bezier : Bezier4 ℚ := ⟨⟨0, 0⟩, ⟨1, 0⟩, ⟨2, 1⟩, ⟨3, 0⟩⟩

/-- A sample contour with one quadratic curve: `M 0,0 Q 3,4 6,0`. -/
def sample_quad_commands : List (PathCommand ℚ) :=
  [⟨.eMoveTo, ⟨0, 0⟩, 0, 0⟩, ⟨.eQuadBezierTo, ⟨6, 0⟩, ⟨3, 4⟩, 0⟩]

/-! ## The facade `le::RenderPass` (le_renderer.h)

The facade holds one pointer, `self`.  `renderpass_i.ref_inc` and
`renderpass_i.ref_dec` are function pointers of the renderer api; what the
facade does with them is to call them, so the calls are recorded by argument. -/

/-- The facades of class `le::RenderPass` that are alive, each as the pair of
its address and its member `self` (`none` for `nullptr`, `some n` for the pass
`n`), and the arguments of the calls made so far to `renderpass_i.ref_inc` and
to `renderpass_i.ref_dec`. -/
structure FacadeWorld where
  facades : List (Nat × Option Nat)
  ref_inc_calls : List (Option Nat)
  ref_dec_calls : List (Option Nat)
  deriving DecidableEq

/-- Writes `v` to the member `self` of the facade at address `this`. -/
def set_self_in : List (Nat × Option Nat) → Nat → Option Nat → List (Nat × Option Nat)
  | [], _, _ => []
  | e :: es, this, v => if e.1 = this then (this, v) :: es else e :: set_self_in es this v

/-- Removes the facade at address `this`. -/
def remove_facade : List (Nat × Option Nat) → Nat → List (Nat × Option Nat)
  | [], _ => []
  | e :: es, this => if e.1 = this then es else e :: remove_facade es this

/-- Reads the member `self` of the facade at address `this`; `none` when no
facade is alive there. -/
def self_in : List (Nat × Option Nat) → Nat → Option (Option Nat)
  | [], _ => none
  | e :: es, this => if e.1 = this then some e.2 else self_in es this

namespace FacadeWorld

/-- The member `self` of the facade at `this`, if one is alive there. -/
def self_of (w : FacadeWorld) (this : Nat) : Option (Option Nat) := self_in w.facades this

/-- The assignment `self = v` in the facade at `this`. -/
def set_self (w : FacadeWorld) (this : Nat) (v : Option Nat) : FacadeWorld :=
  { w with facades := set_self_in w.facades this v }

/-- A new facade at `this`, with `self` initialised to `v`. -/
def construct (w : FacadeWorld) (this : Nat) (v : Option Nat) : FacadeWorld :=
  { w with facades := w.facades ++ [(this, v)] }

/-- A call `le_renderer::renderpass_i.ref_inc( self )`. -/
def ref_inc (w : FacadeWorld) (self : Option Nat) : FacadeWorld :=
  { w with ref_inc_calls := w.ref_inc_calls ++ [self] }

/-- A call `le_renderer::renderpass_i.ref_dec( self )`. -/
def ref_dec (w : FacadeWorld) (self : Option Nat) : FacadeWorld :=
  { w with ref_dec_calls := w.ref_dec_calls ++ [self] }

/-- The number of `ref_inc` calls minus the number of `ref_dec` calls issued
for the pass `pass`. -/
def net_ref_calls (w : FacadeWorld) (pass : Nat) : Int :=
  (w.ref_inc_calls.count (some pass) : Int) - (w.ref_dec_calls.count (some pass) : Int)

/-- The number of live facades that hold the pass `pass`. -/
def holders (w : FacadeWorld) (pass : Nat) : Nat :=
  w.facades.countP fun e => e.2 = some pass

/-- From `w` to `w2`, the calls issued for `pass` match the change in the
number of live facades that hold it. -/
def Balanced (w w2 : FacadeWorld) (pass : Nat) : Prop :=
  w2.net_ref_calls pass - w.net_ref_calls pass = (w2.holders pass : Int) - (w.holders pass : Int)

instance (w w2 : FacadeWorld) (pass : Nat) : Decidable (Balanced w w2 pass) :=
  inferInstanceAs (Decidable (_ = _))

end FacadeWorld

namespace RenderPass

/-- `RenderPass( le_renderpass_o *self_ )`, constructing at the address `this`,
where no facade is alive. -/
def from_pointer (w : FacadeWorld) (this : Nat) (self_ : Option Nat) : Option FacadeWorld :=
  match w.self_of this with
  | some _ => none
  | none => some ((w.construct this self_).ref_inc self_)

/-- `~RenderPass()`, of the facade at `this`. -/
def destructor (w : FacadeWorld) (this : Nat) : Option FacadeWorld :=
  match w.self_of this with
  | none => none
  | some self =>
    let w1 := if self.isSome then w.ref_dec self else w
    some { w1 with facades := remove_facade w1.facades this }

/-- `RenderPass( RenderPass const &rhs )`, constructing at `this` from the
facade at `rhs`. -/
def copy_constructor (w : FacadeWorld) (this rhs : Nat) : Option FacadeWorld :=
  match w.self_of this, w.self_of rhs with
  | none, some rhs_self => some ((w.construct this rhs_self).ref_inc rhs_self)
  | _, _ => none

/-- `RenderPass &operator=( RenderPass const &rhs )`, on the facade at `this`. -/
def copy_assignment (w : FacadeWorld) (this rhs : Nat) : Option FacadeWorld :=
  match w.self_of this, w.self_of rhs with
  | some _, some rhs_self => some ((w.set_self this rhs_self).ref_inc rhs_self)
  | _, _ => none

/-- `RenderPass( RenderPass &&rhs )`, constructing at `this` from the facade at
`rhs`. -/
def move_constructor (w : FacadeWorld) (this rhs : Nat) : Option FacadeWorld :=
  match w.self_of this, w.self_of rhs with
  | none, some rhs_self => some ((w.construct this rhs_self).set_self rhs none)
  | _, _ => none

/-- `RenderPass &operator=( RenderPass &&rhs )`, on the facade at `this`. -/
def move_assignment (w : FacadeWorld) (this rhs : Nat) : Option FacadeWorld :=
  match w.self_of this, w.self_of rhs with
  | some _, some rhs_self => some ((w.set_self this rhs_self).set_self rhs none)
  | _, _ => none

end RenderPass

/-- Two facades built from pointers: `a` at address 0 on the pass 1, and `b` at
address 1 on the pass 2. -/
def sample_world : FacadeWorld :=
  ⟨[(0, some 1), (1, some 2)], [some 1, some 2], []⟩

/-! ## The type `float`: IEEE 754 binary32

The tracing code computes in `float`.  A value is kept as the rational number
it stands for, an infinity or a NaN; every operation takes the exact result and
rounds it to the nearest value with 24 significant bits, a tie to the even one.
The sign of a zero and the payload of a NaN are not kept: a zero divisor counts
as positive. -/

/-- A value of type `float`. -/
inductive Binary32 where
  | finite (value : ℚ)
  | infinity (negative : Bool)
  | nan
  deriving DecidableEq

namespace Binary32

/-- The rational `2 ^ e`, for an integer `e`. -/
def pow2 (e : Int) : ℚ :=
  if 0 ≤ e then ((2 ^ e.toNat : Nat) : ℚ) else 1 / ((2 ^ (-e).toNat : Nat) : ℚ)

/-- The number of binary digits of `n`, at most `fuel` of them. -/
def bit_length : Nat → Nat → Nat
  | 0, _ => 0
  | fuel + 1, n => if n = 0 then 0 else bit_length fuel (n / 2) + 1

/-- The binary exponent of `q ≠ 0`: the `e` with `2 ^ e ≤ |q| < 2 ^ (e + 1)`. -/
def ilog2 (q : ℚ) : Int :=
  let k : Int := (bit_length q.num.natAbs q.num.natAbs : Int) - (bit_length q.den q.den : Int)
  if pow2 k ≤ |q| then k else k - 1

/-- The multiple of `2 ^ e` nearest to `q`, a tie going to the even multiple. -/
def round_to_multiple (q : ℚ) (e : Int) : ℚ :=
  let s := q / pow2 e
  let n : Int := ⌊s⌋
  let r := s - n
  let m : Int :=
    if r < 1 / 2 then n else if 1 / 2 < r then n + 1 else if n % 2 = 0 then n else n + 1
  (m : ℚ) * pow2 e

/-- The `float` nearest to the real number `q`: 24 significant bits, exponents
from -126 (below `2 ^ -126` the spacing stays `2 ^ -149`), and an infinity when
the rounded magnitude reaches `2 ^ 128`. -/
def round (q : ℚ) : Binary32 :=
  if q = 0 then finite 0
  else
    let e := max (ilog2 q) (-126)
    let r := round_to_multiple q (e - 23)
    if pow2 128 ≤ |r| then infinity (decide (q < 0)) else finite r

/-- The sum. -/
def add : Binary32 → Binary32 → Binary32
  | finite a, finite b => round (a + b)
  | finite _, infinity s => infinity s
  | infinity s, finite _ => infinity s
  | infinity s, infinity t => if s = t then infinity s else nan
  | _, _ => nan

/-- The negation. -/
def neg : Binary32 → Binary32
  | finite a => finite (-a)
  | infinity s => infinity (!s)
  | nan => nan

/-- The difference. -/
def sub (a b : Binary32) : Binary32 := add a (neg b)

/-- The product. -/
def mul : Binary32 → Binary32 → Binary32
  | finite a, finite b => round (a * b)
  | finite a, infinity s => if a = 0 then nan else infinity (xor s (decide (a < 0)))
  | infinity s, finite b => if b = 0 then nan else infinity (xor s (decide (b < 0)))
  | infinity s, infinity t => infinity (xor s t)
  | _, _ => nan

/-- The quotient. -/
def div : Binary32 → Binary32 → Binary32
  | finite a, finite b =>
    if b = 0 then (if a = 0 then nan else infinity (decide (a < 0))) else round (a / b)
  | finite _, infinity _ => finite 0
  | infinity s, finite b => infinity (xor s (decide (b < 0)))
  | _, _ => nan

/-- A rational in the same rounding interval as the square root of `q > 0`:
the root itself when it has at most 28 bits, else the midpoint of the two
neighbouring 28-bit numbers. -/
def sqrt_sticky (q : ℚ) : ℚ :=
  let k : Int := 27 - ilog2 q / 2
  let scaled := q * pow2 (2 * k)
  let r : Nat := isqrt_bits 32 (⌊scaled⌋).toNat 0
  if ((r * r : Nat) : ℚ) = scaled then (r : ℚ) / pow2 k else ((r : ℚ) + 1 / 2) / pow2 k

/-- `sqrtf`. -/
def sqrt : Binary32 → Binary32
  | finite a => if a < 0 then nan else if a = 0 then finite 0 else round (sqrt_sticky a)
  | infinity false => infinity false
  | _ => nan

/-- `fabsf`. -/
def abs : Binary32 → Binary32
  | finite a => finite |a|
  | infinity _ => infinity false
  | nan => nan

/-- The comparison `a <= b`, false when an operand is a NaN. -/
def le : Binary32 → Binary32 → Bool
  | finite a, finite b => decide (a ≤ b)
  | finite _, infinity s => !s
  | infinity s, finite _ => s
  | infinity s, infinity t => s || !t
  | _, _ => false

/-- The comparison `a < b`, false when an operand is a NaN. -/
def lt : Binary32 → Binary32 → Bool
  | finite a, finite b => decide (a < b)
  | finite _, infinity s => !s
  | infinity s, finite _ => s
  | infinity s, infinity t => s && !t
  | _, _ => false

end Binary32

/-- The arithmetic of `float`: `0.04f` and the conversion of an integer are
roundings, `epsilon` is `2 ^ -23`. -/
@[reducible] def binary32Arith : FloatArith Binary32 where
  zero := .finite 0
  add := Binary32.add
  sub := Binary32.sub
  mul := Binary32.mul
  div := Binary32.div
  neg := Binary32.neg
  ofNat n := Binary32.round n
  lit_0_04 := Binary32.round (4 / 100)
  epsilon := .finite (Binary32.pow2 (-23))
  sqrtf := Binary32.sqrt
  fabsf := Binary32.abs
  le := Binary32.le
  lt := Binary32.lt

section FlattenStepDefs

variable {F : Type} [FloatArith F]

/-- The step `t` that one turn of the loop of `flatten_cubic_bezier_to` takes on
the curve `b`. -/
def flatten_step_t (toi : F) (b : Bezier4 F) : F :=
  let r := glm_normalize (b.b1 - b.b0)
  let s : Vertex F := ⟨r.y, -r.x⟩
  let b2 := glm_mat2_mul r s (b.b2 - b.b0)
  let t_dash := FloatArith.sqrtf (toi / (FloatArith.ofNat 3 * FloatArith.fabsf b2.y))
  std_min (FloatArith.ofNat 1) (t_dash * FloatArith.ofNat 2)

/-- The point `pt` that one turn of the loop of `flatten_cubic_bezier_to`
appends, on the curve `b` with the previous point `p_prev`. -/
def flatten_step_pt (toi : F) (b : Bezier4 F) (p_prev : Vertex F) : Vertex F :=
  let r := glm_normalize (b.b1 - b.b0)
  let s : Vertex F := ⟨r.y, -r.x⟩
  let b1 := glm_mat2_mul r s (b.b1 - b.b0)
  let b2 := glm_mat2_mul r s (b.b2 - b.b0)
  let b3 := glm_mat2_mul r s (b.b3 - b.b0)
  let b0 : Vertex F := 0
  let t := flatten_step_t toi b
  let t_sq := t * t
  let t_cub := t_sq * t
  let pt_local : Vertex F :=
    b0 + Vertex.mul_scalar ((FloatArith.ofNat 3 : F) • (b1 - b0)) t
      + Vertex.mul_scalar ((FloatArith.ofNat 3 : F) • (b2 - (FloatArith.ofNat 2 : F) • b1 + b0)) t_sq
      + Vertex.mul_scalar
          (b3 - (FloatArith.ofNat 3 : F) • b2 + (FloatArith.ofNat 3 : F) • b1 - b0) t_cub
  p_prev + glm_mat2_mul r s pt_local

/-- The curve `b` with which the next turn of the loop of
`flatten_cubic_bezier_to` starts: the part of the curve from `t` on, moved back
from the local basis. -/
def flatten_step_bezier (toi : F) (b : Bezier4 F) (p_prev : Vertex F) : Bezier4 F :=
  let r := glm_normalize (b.b1 - b.b0)
  let s : Vertex F := ⟨r.y, -r.x⟩
  let b1 := glm_mat2_mul r s (b.b1 - b.b0)
  let b2 := glm_mat2_mul r s (b.b2 - b.b0)
  let b3 := glm_mat2_mul r s (b.b3 - b.b0)
  let b0 : Vertex F := 0
  let s1 := (bezier_subdivide ⟨b0, b1, b2, b3⟩ (flatten_step_t toi b)).2
  ⟨p_prev + glm_mat2_mul r s s1.b0, p_prev + glm_mat2_mul r s s1.b1,
   p_prev + glm_mat2_mul r s s1.b2, p_prev + glm_mat2_mul r s s1.b3⟩

end FlattenStepDefs

/-- A polyline in `float`: the single vertex `(0,0)` of a `MoveTo`. -/
def sample_polyline32 : Polyline Binary32 :=
  ⟨[⟨.finite 0, .finite 0⟩], [], [.finite 0], .finite 0⟩

/-- The start point `(2^40, 2^40)` of the sample curve with large coordinates. -/
def far_p0 : Vertex Binary32 := ⟨.finite (2 ^ 40), .finite (2 ^ 40)⟩

/-- A cubic curve with large coordinates, where neighbouring values of `float`
are `2^17` apart: from `(2^40, 2^40)` to `(2^40 + 3 * 2^17, 2^40)` with the
control points `(2^40 + 2^17, 2^40)` and `(2^40 + 2^18, 2^40 + 2^17)`. -/
def far_bezier : Bezier4 Binary32 :=
  ⟨far_p0, ⟨.finite (2 ^ 40 + 2 ^ 17), .finite (2 ^ 40)⟩,
    ⟨.finite (2 ^ 40 + 2 ^ 18), .finite (2 ^ 40 + 2 ^ 17)⟩,
    ⟨.finite (2 ^ 40 + 3 * 2 ^ 17), .finite (2 ^ 40)⟩⟩

/-- The commands `M 1099511627776,1099511627776
C 1099511758848,1099511627776 1099511889920,1099511758848
1099512020992,1099511627776`: one open contour with the curve `far_bezier`. -/
def far_commands : List (PathCommand Binary32) :=
  [⟨.eMoveTo, far_p0, ⟨.finite 0, .finite 0⟩, ⟨.finite 0, .finite 0⟩⟩,
   ⟨.eCubicBezierTo, far_bezier.b3, far_bezier.b1, far_bezier.b2⟩]

/-- The path with the single contour `far_commands`. -/
def far_path : le_path_o Binary32 := ⟨[⟨far_commands⟩], []⟩

/-- A path in `float` with ordinary coordinates: `M 0,0 C 1,0 2,1 3,0 Z` and
`M 5,5 L 6,5 Q 7,6 8,5`. -/
def sample_path32 : le_path_o Binary32 :=
  ⟨[⟨[⟨.eMoveTo, ⟨.finite 0, .finite 0⟩, ⟨.finite 0, .finite 0⟩, ⟨.finite 0, .finite 0⟩⟩,
      ⟨.eCubicBezierTo, ⟨.finite 3, .finite 0⟩, ⟨.finite 1, .finite 0⟩,
        ⟨.finite 2, .finite 1⟩⟩,
      ⟨.eClosePath, ⟨.finite 0, .finite 0⟩, ⟨.finite 0, .finite 0⟩, ⟨.finite 0, .finite 0⟩⟩]⟩,
    ⟨[⟨.eMoveTo, ⟨.finite 5, .finite 5⟩, ⟨.finite 0, .finite 0⟩, ⟨.finite 0, .finite 0⟩⟩,
      ⟨.eLineTo, ⟨.finite 6, .finite 5⟩, ⟨.finite 0, .finite 0⟩, ⟨.finite 0, .finite 0⟩⟩,
      ⟨.eQuadBezierTo, ⟨.finite 8, .finite 5⟩, ⟨.finite 7, .finite 6⟩, ⟨.finite 0, .finite 0⟩⟩]⟩], []⟩

/-- The command `M 0,0` in `float`. -/
def sample_move32 : PathCommand Binary32 :=
  ⟨.eMoveTo, ⟨.finite 0, .finite 0⟩, ⟨.finite 0, .finite 0⟩, ⟨.finite 0, .finite 0⟩⟩

/-- The commands `L 1,0 Q 2,1 3,0 C 4,0 5,1 6,0` in `float`: with `M 0,0` before
them, an open contour. -/
def sample_open_commands32 : List (PathCommand Binary32) :=
  [⟨.eLineTo, ⟨.finite 1, .finite 0⟩, ⟨.finite 0, .finite 0⟩, ⟨.finite 0, .finite 0⟩⟩,
   ⟨.eQuadBezierTo, ⟨.finite 3, .finite 0⟩, ⟨.finite 2, .finite 1⟩, ⟨.finite 0, .finite 0⟩⟩,
   ⟨.eCubicBezierTo, ⟨.finite 6, .finite 0⟩, ⟨.finite 4, .finite 0⟩, ⟨.finite 5, .finite 1⟩⟩]

/-- The arithmetic of `float` as the arithmetic of the type `Binary32`. -/
instance Binary32.instFloatArith : FloatArith Binary32 := binary32Arith

/-! ## Lemmas on the simplified-SVG reader -/

section ReaderLemmas

variable {F : Type}

theorem whitespace_run_append (w rest : List Char)
    (hw : ∀ ch ∈ w, is_whitespace_char ch = true)
    (hr : ∀ ch ∈ rest.head?, is_whitespace_char ch = false) :
    whitespace_run (w ++ rest) = w.length := by
  induction w with
  | nil =>
    cases rest with
    | nil => rfl
    | cons ch r =>
      have h := hr ch (by simp)
      simp [whitespace_run, h]
  | cons ch w ih =>
    have h := hw ch (by simp)
    have ih1 := ih (fun c hc => hw c (by simp [hc]))
    simp [whitespace_run, h, ih1]

theorem is_whitespace_append (w rest : List Char) (o : Nat) (hw : IsWhitespace w)
    (hr : ∀ ch ∈ rest.head?, is_whitespace_char ch = false) :
    is_whitespace (w ++ rest) o = some (o + w.length) := by
  obtain ⟨hne, hall⟩ := hw
  have hrun := whitespace_run_append w rest hall hr
  obtain ⟨ch, w1, rfl⟩ := List.exists_cons_of_ne_nil hne
  rw [List.cons_append] at hrun ⊢
  simp only [is_whitespace, hrun]
  simp

theorem is_float_number_at (strtof : List Char → F × Nat) (s rest : List Char) (v : F)
    (o : Nat) (h : NumberAt strtof s v rest) :
    is_float_number strtof (s ++ rest) o = some (o + s.length, v) := by
  obtain ⟨hne, -, hs⟩ := h
  obtain ⟨ch, s1, rfl⟩ := List.exists_cons_of_ne_nil hne
  rw [List.cons_append] at hs ⊢
  simp [is_float_number, hs]

theorem is_character_match_head (needle : Char) (t : List Char) (o : Nat) :
    is_character_match needle (needle :: t) o = some (o + 1) := by
  simp [is_character_match]

theorem is_character_match_ne (needle ch : Char) (t : List Char) (o : Nat) (h : ch ≠ needle) :
    is_character_match needle (ch :: t) o = none := by
  simp [is_character_match, h]

theorem pairAt_head_not_space {strtof : List Char → F × Nat} {s rest : List Char}
    {p : Vertex F} (h : PairAt strtof s p rest) (t : List Char) :
    ∀ ch ∈ (s ++ t).head?, is_whitespace_char ch = false := by
  obtain ⟨sx, sy, rfl, ⟨hne, hh, -⟩, -⟩ := h
  obtain ⟨ch, s1, rfl⟩ := List.exists_cons_of_ne_nil hne
  intro c hc
  simp at hc
  exact hh c (by simp [hc])

theorem numberAt_head_not_space {strtof : List Char → F × Nat} {s rest : List Char}
    {v : F} (h : NumberAt strtof s v rest) (t : List Char) :
    ∀ ch ∈ (s ++ t).head?, is_whitespace_char ch = false := by
  obtain ⟨hne, hh, -⟩ := h
  obtain ⟨ch, s1, rfl⟩ := List.exists_cons_of_ne_nil hne
  intro c hc
  simp at hc
  exact hh c (by simp [hc])

theorem is_coordinate_pair_at (strtof : List Char → F × Nat) (s rest : List Char)
    (p : Vertex F) (o : Nat) (h : PairAt strtof s p rest) :
    is_coordinate_pair strtof (s ++ rest) o = some (o + s.length, p) := by
  obtain ⟨sx, sy, rfl, hx, hy⟩ := h
  have h1 := is_float_number_at strtof sx (',' :: (sy ++ rest)) p.x 0 hx
  have h3 := is_float_number_at strtof sy rest p.y (0 + sx.length + 1) hy
  have hne := hx.1
  obtain ⟨ch, s1, rfl⟩ := List.exists_cons_of_ne_nil hne
  have e1 : (ch :: s1 ++ ',' :: sy) ++ rest = ch :: (s1 ++ ',' :: (sy ++ rest)) := by simp
  have e2 : (ch :: s1) ++ ',' :: (sy ++ rest) = ch :: (s1 ++ ',' :: (sy ++ rest)) := by simp
  rw [e2] at h1
  rw [e1]
  have d1 : (ch :: (s1 ++ ',' :: (sy ++ rest))).drop (0 + (ch :: s1).length) = ',' :: (sy ++ rest) := by
    rw [← e2]; simp
  have d2 : (ch :: (s1 ++ ',' :: (sy ++ rest))).drop (0 + (ch :: s1).length + 1) = sy ++ rest := by
    rw [← e2, ← List.drop_drop]; simp
  simp only [is_coordinate_pair, h1, d1, is_character_match_head, d2, h3, add_offsets]
  simp
  omega

end ReaderLemmas

section ReaderLemmas2

variable {F : Type}

theorem drop_of_drop_append {c w r : List Char} {o : Nat} (h : c.drop o = w ++ r) :
    c.drop (o + w.length) = r := by
  have : c.drop (o + w.length) = (c.drop o).drop w.length := by
    rw [List.drop_drop]
  rw [this, h]; simp

theorem is_whitespace_drop (c w r : List Char) (o : Nat) (h : c.drop o = w ++ r)
    (hw : IsWhitespace w) (hr : ∀ ch ∈ r.head?, is_whitespace_char ch = false) :
    is_whitespace (c.drop o) o = some (o + w.length) ∧ c.drop (o + w.length) = r :=
  ⟨by rw [h]; exact is_whitespace_append w r o hw hr, drop_of_drop_append h⟩

theorem is_coordinate_pair_drop (strtof : List Char → F × Nat) (c s r : List Char)
    (p : Vertex F) (o : Nat) (h : c.drop o = s ++ r) (hp : PairAt strtof s p r) :
    is_coordinate_pair strtof (c.drop o) o = some (o + s.length, p) ∧
      c.drop (o + s.length) = r :=
  ⟨by rw [h]; exact is_coordinate_pair_at strtof s r p o hp, drop_of_drop_append h⟩

theorem is_float_number_drop (strtof : List Char → F × Nat) (c s r : List Char)
    (v : F) (o : Nat) (h : c.drop o = s ++ r) (hp : NumberAt strtof s v r) :
    is_float_number strtof (c.drop o) o = some (o + s.length, v) ∧
      c.drop (o + s.length) = r :=
  ⟨by rw [h]; exact is_float_number_at strtof s r v o hp, drop_of_drop_append h⟩

theorem is_letter_pair_instruction_at (strtof : List Char → F × Nat) (letter : Char)
    (w s t : List Char) (p : Vertex F) (hw : IsWhitespace w) (hp : PairAt strtof s p t) :
    ∃ k, is_letter_pair_instruction strtof letter (letter :: (w ++ (s ++ t))) 0 = some (k, p) ∧
      (letter :: (w ++ (s ++ t))).drop k = t ∧ 1 ≤ k := by
  have h1 := is_whitespace_drop (letter :: (w ++ (s ++ t))) w (s ++ t) (0 + 1) (by simp) hw
    (pairAt_head_not_space hp t)
  have h2 := is_coordinate_pair_drop strtof (letter :: (w ++ (s ++ t))) s t p
    (0 + 1 + w.length) h1.2 hp
  refine ⟨add_offsets (0 + 1 + w.length + s.length) 0, ?_, by simpa [add_offsets] using h2.2,
    by simp [add_offsets]; omega⟩
  simp only [is_letter_pair_instruction, is_character_match_head, h1.1, h2.1, add_offsets]

theorem is_letter_pair_instruction_ne (strtof : List Char → F × Nat) (letter ch : Char)
    (t : List Char) (o : Nat) (h : ch ≠ letter) :
    is_letter_pair_instruction strtof letter (ch :: t) o = none := by
  simp [is_letter_pair_instruction, is_character_match, h]

theorem is_letter_number_instruction_at (strtof : List Char → F × Nat) (letter : Char)
    (w s t : List Char) (v : F) (hw : IsWhitespace w) (hp : NumberAt strtof s v t) :
    ∃ k, is_letter_number_instruction strtof letter (letter :: (w ++ (s ++ t))) 0
        = some (k, v) ∧
      (letter :: (w ++ (s ++ t))).drop k = t ∧ 1 ≤ k := by
  have h1 := is_whitespace_drop (letter :: (w ++ (s ++ t))) w (s ++ t) (0 + 1) (by simp) hw
    (numberAt_head_not_space hp t)
  have h2 := is_float_number_drop strtof (letter :: (w ++ (s ++ t))) s t v
    (0 + 1 + w.length) h1.2 hp
  refine ⟨add_offsets (0 + 1 + w.length + s.length) 0, ?_, by simpa [add_offsets] using h2.2,
    by simp [add_offsets]; omega⟩
  simp only [is_letter_number_instruction, is_character_match_head, h1.1, h2.1, add_offsets]

theorem is_letter_number_instruction_ne (strtof : List Char → F × Nat) (letter ch : Char)
    (t : List Char) (o : Nat) (h : ch ≠ letter) :
    is_letter_number_instruction strtof letter (ch :: t) o = none := by
  simp [is_letter_number_instruction, is_character_match, h]

theorem is_q_instruction_at (strtof : List Char → F × Nat)
    (w1 s1 w2 s2 t : List Char) (c0 p : Vertex F)
    (hw1 : IsWhitespace w1) (hp1 : PairAt strtof s1 c0 (w2 ++ (s2 ++ t)))
    (hw2 : IsWhitespace w2) (hp2 : PairAt strtof s2 p t) :
    ∃ k, is_q_instruction strtof ('Q' :: (w1 ++ (s1 ++ (w2 ++ (s2 ++ t))))) 0
        = some (k, c0, p) ∧
      ('Q' :: (w1 ++ (s1 ++ (w2 ++ (s2 ++ t))))).drop k = t ∧ 1 ≤ k := by
  have h1 := is_whitespace_drop ('Q' :: (w1 ++ (s1 ++ (w2 ++ (s2 ++ t))))) w1
    (s1 ++ (w2 ++ (s2 ++ t))) (0 + 1) (by simp) hw1 (pairAt_head_not_space hp1 _)
  have h2 := is_coordinate_pair_drop strtof _ s1 _ c0 (0 + 1 + w1.length) h1.2 hp1
  have h3 := is_whitespace_drop _ w2 _ _ h2.2 hw2 (pairAt_head_not_space hp2 _)
  have h4 := is_coordinate_pair_drop strtof _ s2 _ p _ h3.2 hp2
  refine ⟨add_offsets (0 + 1 + w1.length + s1.length + w2.length + s2.length) 0, ?_,
    by simpa [add_offsets] using h4.2, by simp [add_offsets]; omega⟩
  simp only [is_q_instruction, is_character_match_head, h1.1, h2.1, h3.1, h4.1, add_offsets]

theorem is_q_instruction_ne (strtof : List Char → F × Nat) (ch : Char)
    (t : List Char) (o : Nat) (h : ch ≠ 'Q') :
    is_q_instruction strtof (ch :: t) o = none := by
  simp [is_q_instruction, is_character_match, h]

theorem is_c_instruction_at (strtof : List Char → F × Nat)
    (w1 s1 w2 s2 w3 s3 t : List Char) (c0 c1 p : Vertex F)
    (hw1 : IsWhitespace w1) (hp1 : PairAt strtof s1 c0 (w2 ++ (s2 ++ (w3 ++ (s3 ++ t)))))
    (hw2 : IsWhitespace w2) (hp2 : PairAt strtof s2 c1 (w3 ++ (s3 ++ t)))
    (hw3 : IsWhitespace w3) (hp3 : PairAt strtof s3 p t) :
    ∃ k, is_c_instruction strtof
        ('C' :: (w1 ++ (s1 ++ (w2 ++ (s2 ++ (w3 ++ (s3 ++ t))))))) 0 = some (k, c0, c1, p) ∧
      ('C' :: (w1 ++ (s1 ++ (w2 ++ (s2 ++ (w3 ++ (s3 ++ t))))))).drop k = t ∧ 1 ≤ k := by
  have h1 := is_whitespace_drop ('C' :: (w1 ++ (s1 ++ (w2 ++ (s2 ++ (w3 ++ (s3 ++ t)))))))
    w1 (s1 ++ (w2 ++ (s2 ++ (w3 ++ (s3 ++ t))))) (0 + 1) (by simp) hw1
    (pairAt_head_not_space hp1 _)
  have h2 := is_coordinate_pair_drop strtof _ s1 _ c0 (0 + 1 + w1.length) h1.2 hp1
  have h3 := is_whitespace_drop _ w2 _ _ h2.2 hw2 (pairAt_head_not_space hp2 _)
  have h4 := is_coordinate_pair_drop strtof _ s2 _ c1 _ h3.2 hp2
  have h5 := is_whitespace_drop _ w3 _ _ h4.2 hw3 (pairAt_head_not_space hp3 _)
  have h6 := is_coordinate_pair_drop strtof _ s3 _ p _ h5.2 hp3
  refine ⟨add_offsets
    (0 + 1 + w1.length + s1.length + w2.length + s2.length + w3.length + s3.length) 0,
    ?_, by simpa [add_offsets] using h6.2, by simp [add_offsets]; omega⟩
  simp only [is_c_instruction, is_character_match_head, h1.1, h2.1, h3.1, h4.1, h5.1, h6.1,
    add_offsets]

theorem is_c_instruction_ne (strtof : List Char → F × Nat) (ch : Char)
    (t : List Char) (o : Nat) (h : ch ≠ 'C') :
    is_c_instruction strtof (ch :: t) o = none := by
  simp [is_c_instruction, is_character_match, h]

end ReaderLemmas2

section ReaderLemmas3

variable {F : Type}

theorem is_character_match_some {needle : Char} {c : List Char} {o k : Nat}
    (h : is_character_match needle c o = some k) : k = o + 1 := by
  cases c with
  | nil => simp [is_character_match] at h
  | cons ch t =>
    simp only [is_character_match] at h
    split at h
    · exact (Option.some.inj h).symm
    · simp at h

theorem is_whitespace_some {c : List Char} {o k : Nat}
    (h : is_whitespace c o = some k) : o ≤ k := by
  cases c with
  | nil => simp [is_whitespace] at h
  | cons ch t =>
    simp only [is_whitespace] at h
    split at h
    · simp at h
    · have := Option.some.inj h; omega

theorem is_float_number_some {strtof : List Char → F × Nat} {c : List Char} {o k : Nat}
    {v : F} (h : is_float_number strtof c o = some (k, v)) : o ≤ k := by
  cases c with
  | nil => simp [is_float_number] at h
  | cons ch t =>
    simp only [is_float_number] at h
    split at h
    · simp at h
    · have := (Prod.mk.inj (Option.some.inj h)).1; omega

theorem is_coordinate_pair_some {strtof : List Char → F × Nat} {c : List Char} {o k : Nat}
    {p : Vertex F} (h : is_coordinate_pair strtof c o = some (k, p)) : o ≤ k := by
  cases c with
  | nil => simp [is_coordinate_pair] at h
  | cons ch t =>
    simp only [is_coordinate_pair] at h
    cases h1 : is_float_number strtof (ch :: t) 0 with
    | none => simp [h1] at h
    | some r1 =>
      obtain ⟨o1, vx⟩ := r1
      simp only [h1] at h
      cases h2 : is_character_match ',' (List.drop o1 (ch :: t)) o1 with
      | none => simp [h2] at h
      | some o2 =>
        simp only [h2] at h
        cases h3 : is_float_number strtof (List.drop o2 (ch :: t)) o2 with
        | none => simp [h3] at h
        | some r3 =>
          obtain ⟨o3, vy⟩ := r3
          simp only [h3, add_offsets] at h
          have := (Prod.mk.inj (Option.some.inj h)).1
          omega

theorem is_letter_pair_instruction_some {strtof : List Char → F × Nat} {letter : Char}
    {c : List Char} {o k : Nat} {p : Vertex F}
    (h : is_letter_pair_instruction strtof letter c o = some (k, p)) : o + 1 ≤ k := by
  cases c with
  | nil => simp [is_letter_pair_instruction] at h
  | cons ch t =>
    simp only [is_letter_pair_instruction] at h
    cases h1 : is_character_match letter (ch :: t) 0 with
    | none => simp [h1] at h
    | some o1 =>
      simp only [h1] at h
      cases h2 : is_whitespace (List.drop o1 (ch :: t)) o1 with
      | none => simp [h2] at h
      | some o2 =>
        simp only [h2] at h
        cases h3 : is_coordinate_pair strtof (List.drop o2 (ch :: t)) o2 with
        | none => simp [h3] at h
        | some r3 =>
          obtain ⟨o3, q⟩ := r3
          simp only [h3, add_offsets] at h
          have := (Prod.mk.inj (Option.some.inj h)).1
          have := is_character_match_some h1
          have := is_whitespace_some h2
          have := is_coordinate_pair_some h3
          omega

theorem is_letter_number_instruction_some {strtof : List Char → F × Nat} {letter : Char}
    {c : List Char} {o k : Nat} {v : F}
    (h : is_letter_number_instruction strtof letter c o = some (k, v)) : o + 1 ≤ k := by
  cases c with
  | nil => simp [is_letter_number_instruction] at h
  | cons ch t =>
    simp only [is_letter_number_instruction] at h
    cases h1 : is_character_match letter (ch :: t) 0 with
    | none => simp [h1] at h
    | some o1 =>
      simp only [h1] at h
      cases h2 : is_whitespace (List.drop o1 (ch :: t)) o1 with
      | none => simp [h2] at h
      | some o2 =>
        simp only [h2] at h
        cases h3 : is_float_number strtof (List.drop o2 (ch :: t)) o2 with
        | none => simp [h3] at h
        | some r3 =>
          obtain ⟨o3, q⟩ := r3
          simp only [h3, add_offsets] at h
          have := (Prod.mk.inj (Option.some.inj h)).1
          have := is_character_match_some h1
          have := is_whitespace_some h2
          have := is_float_number_some h3
          omega

theorem is_q_instruction_some {strtof : List Char → F × Nat}
    {c : List Char} {o k : Nat} {r : Vertex F × Vertex F}
    (h : is_q_instruction strtof c o = some (k, r)) : o + 1 ≤ k := by
  cases c with
  | nil => simp [is_q_instruction] at h
  | cons ch t =>
    simp only [is_q_instruction] at h
    cases h1 : is_character_match 'Q' (ch :: t) 0 with
    | none => simp [h1] at h
    | some o1 =>
      simp only [h1] at h
      cases h2 : is_whitespace (List.drop o1 (ch :: t)) o1 with
      | none => simp [h2] at h
      | some o2 =>
        simp only [h2] at h
        cases h3 : is_coordinate_pair strtof (List.drop o2 (ch :: t)) o2 with
        | none => simp [h3] at h
        | some r3 =>
          obtain ⟨o3, q3⟩ := r3
          simp only [h3] at h
          cases h4 : is_whitespace (List.drop o3 (ch :: t)) o3 with
          | none => simp [h4] at h
          | some o4 =>
            simp only [h4] at h
            cases h5 : is_coordinate_pair strtof (List.drop o4 (ch :: t)) o4 with
            | none => simp [h5] at h
            | some r5 =>
              obtain ⟨o5, q5⟩ := r5
              simp only [h5, add_offsets] at h
              have := (Prod.mk.inj (Option.some.inj h)).1
              have := is_character_match_some h1
              have := is_whitespace_some h2
              have := is_coordinate_pair_some h3
              have := is_whitespace_some h4
              have := is_coordinate_pair_some h5
              omega

theorem is_c_instruction_some {strtof : List Char → F × Nat}
    {c : List Char} {o k : Nat} {r : Vertex F × Vertex F × Vertex F}
    (h : is_c_instruction strtof c o = some (k, r)) : o + 1 ≤ k := by
  cases c with
  | nil => simp [is_c_instruction] at h
  | cons ch t =>
    simp only [is_c_instruction] at h
    cases h1 : is_character_match 'C' (ch :: t) 0 with
    | none => simp [h1] at h
    | some o1 =>
      simp only [h1] at h
      cases h2 : is_whitespace (List.drop o1 (ch :: t)) o1 with
      | none => simp [h2] at h
      | some o2 =>
        simp only [h2] at h
        cases h3 : is_coordinate_pair strtof (List.drop o2 (ch :: t)) o2 with
        | none => simp [h3] at h
        | some r3 =>
          obtain ⟨o3, q3⟩ := r3
          simp only [h3] at h
          cases h4 : is_whitespace (List.drop o3 (ch :: t)) o3 with
          | none => simp [h4] at h
          | some o4 =>
            simp only [h4] at h
            cases h5 : is_coordinate_pair strtof (List.drop o4 (ch :: t)) o4 with
            | none => simp [h5] at h
            | some r5 =>
              obtain ⟨o5, q5⟩ := r5
              simp only [h5] at h
              cases h6 : is_whitespace (List.drop o5 (ch :: t)) o5 with
              | none => simp [h6] at h
              | some o6 =>
                simp only [h6] at h
                cases h7 : is_coordinate_pair strtof (List.drop o6 (ch :: t)) o6 with
                | none => simp [h7] at h
                | some r7 =>
                  obtain ⟨o7, q7⟩ := r7
                  simp only [h7, add_offsets] at h
                  have := (Prod.mk.inj (Option.some.inj h)).1
                  have := is_character_match_some h1
                  have := is_whitespace_some h2
                  have := is_coordinate_pair_some h3
                  have := is_whitespace_some h4
                  have := is_coordinate_pair_some h5
                  have := is_whitespace_some h6
                  have := is_coordinate_pair_some h7
                  omega

end ReaderLemmas3

section LoopLemmas

variable {F : Type}

theorem recognise_instruction_pos (strtof : List Char → F × Nat) (c : List Char) :
    1 ≤ (recognise_instruction strtof c).2 := by
  unfold recognise_instruction
  cases h1 : is_m_instruction strtof c 0 with
  | some r =>
    obtain ⟨k, p⟩ := r
    have := is_letter_pair_instruction_some (show is_letter_pair_instruction strtof 'M' c 0 = some (k, p) from h1)
    simpa using this
  | none =>
  cases h2 : is_l_instruction strtof c 0 with
  | some r =>
    obtain ⟨k, p⟩ := r
    have := is_letter_pair_instruction_some (show is_letter_pair_instruction strtof 'L' c 0 = some (k, p) from h2)
    simpa using this
  | none =>
  cases h3 : is_h_instruction strtof c 0 with
  | some r =>
    obtain ⟨k, p⟩ := r
    have := is_letter_number_instruction_some (show is_letter_number_instruction strtof 'H' c 0 = some (k, p) from h3)
    simpa using this
  | none =>
  cases h4 : is_v_instruction strtof c 0 with
  | some r =>
    obtain ⟨k, p⟩ := r
    have := is_letter_number_instruction_some (show is_letter_number_instruction strtof 'V' c 0 = some (k, p) from h4)
    simpa using this
  | none =>
  cases h5 : is_c_instruction strtof c 0 with
  | some r =>
    obtain ⟨k, p⟩ := r
    have := is_c_instruction_some h5
    simpa using this
  | none =>
  cases h6 : is_q_instruction strtof c 0 with
  | some r =>
    obtain ⟨k, p⟩ := r
    have := is_q_instruction_some h6
    simpa using this
  | none =>
  cases h7 : is_character_match 'Z' c 0 with
  | some r =>
    have := is_character_match_some h7
    simp [this]
  | none => simp

variable [Zero F]

theorem svg_loop_succ (strtof : List Char → F × Nat) (fuel : Nat) (self : le_path_o F)
    (ch : Char) (cs : List Char) :
    svg_loop strtof (fuel + 1) self (ch :: cs) =
      match (recognise_instruction strtof (ch :: cs)).1 with
      | none => svg_loop strtof fuel self
          ((ch :: cs).drop (recognise_instruction strtof (ch :: cs)).2)
      | some i => (run_instruction self i).bind fun s => svg_loop strtof fuel s
          ((ch :: cs).drop (recognise_instruction strtof (ch :: cs)).2) := by
  rw [svg_loop, recognise_instruction]
  cases is_m_instruction strtof (ch :: cs) 0 with
  | some r => simp [run_instruction]
  | none =>
  cases is_l_instruction strtof (ch :: cs) 0 with
  | some r => simp [run_instruction]
  | none =>
  cases is_h_instruction strtof (ch :: cs) 0 with
  | some r => simp [run_instruction]
  | none =>
  cases is_v_instruction strtof (ch :: cs) 0 with
  | some r => simp [run_instruction]
  | none =>
  cases is_c_instruction strtof (ch :: cs) 0 with
  | some r => simp [run_instruction]
  | none =>
  cases is_q_instruction strtof (ch :: cs) 0 with
  | some r => simp [run_instruction]
  | none =>
  cases is_character_match 'Z' (ch :: cs) 0 with
  | some r => simp [run_instruction]
  | none => simp

theorem svg_loop_nil (strtof : List Char → F × Nat) (fuel : Nat) (self : le_path_o F) :
    svg_loop strtof fuel self [] = some self := by
  cases fuel <;> rfl

/-- Fuel beyond the length of the text changes nothing: the loop never runs
out of fuel when started with the length of the text. -/
theorem svg_loop_fuel (strtof : List Char → F × Nat) :
    ∀ (n m : Nat) (self : le_path_o F) (c : List Char), c.length ≤ n → c.length ≤ m →
      svg_loop strtof n self c = svg_loop strtof m self c := by
  intro n
  induction n with
  | zero =>
    intro m self c hn hm
    have : c = [] := List.length_eq_zero.mp (by omega)
    subst this
    rw [svg_loop_nil, svg_loop_nil]
  | succ n ih =>
    intro m self c hn hm
    cases c with
    | nil => rw [svg_loop_nil, svg_loop_nil]
    | cons ch cs =>
      cases m with
      | zero => simp at hm
      | succ m =>
        have hpos := recognise_instruction_pos strtof (ch :: cs)
        have hlen : ((ch :: cs).drop (recognise_instruction strtof (ch :: cs)).2).length ≤ n := by
          simp only [List.length_drop, List.length_cons] at hn ⊢
          omega
        have hlen2 : ((ch :: cs).drop (recognise_instruction strtof (ch :: cs)).2).length ≤ m := by
          simp only [List.length_drop, List.length_cons] at hm ⊢
          omega
        rw [svg_loop_succ, svg_loop_succ]
        cases (recognise_instruction strtof (ch :: cs)).1 with
        | none => exact ih m self _ hlen hlen2
        | some i =>
          simp only
          cases run_instruction self i with
          | none => rfl
          | some s => exact ih m s _ hlen hlen2

end LoopLemmas

section TextLemmas

variable {F : Type} [Zero F]

theorem svg_add_step_none (strtof : List Char → F × Nat) (self : le_path_o F)
    (text t : List Char) (k : Nat) (hne : text ≠ [])
    (hrec : recognise_instruction strtof text = (none, k)) (hdrop : text.drop k = t) :
    le_path_add_from_simplified_svg strtof self text =
      le_path_add_from_simplified_svg strtof self t := by
  obtain ⟨ch, cs, rfl⟩ := List.exists_cons_of_ne_nil hne
  have hpos := recognise_instruction_pos strtof (ch :: cs)
  have hlen : t.length ≤ cs.length := by
    rw [← hdrop]
    rw [hrec] at hpos
    simp only [List.length_drop, List.length_cons]
    simp only at hpos
    omega
  unfold le_path_add_from_simplified_svg
  rw [List.length_cons, svg_loop_succ, hrec]
  simp only [hdrop]
  exact svg_loop_fuel strtof _ _ self t hlen (le_refl _)

theorem svg_add_step_some (strtof : List Char → F × Nat) (self : le_path_o F)
    (text t : List Char) (i : SvgInstruction F) (k : Nat) (hne : text ≠ [])
    (hrec : recognise_instruction strtof text = (some i, k)) (hdrop : text.drop k = t) :
    le_path_add_from_simplified_svg strtof self text =
      (run_instruction self i).bind fun s =>
        le_path_add_from_simplified_svg strtof s t := by
  obtain ⟨ch, cs, rfl⟩ := List.exists_cons_of_ne_nil hne
  have hpos := recognise_instruction_pos strtof (ch :: cs)
  have hlen : t.length ≤ cs.length := by
    rw [← hdrop]
    rw [hrec] at hpos
    simp only [List.length_drop, List.length_cons]
    simp only at hpos
    omega
  unfold le_path_add_from_simplified_svg
  rw [List.length_cons, svg_loop_succ, hrec]
  simp only [hdrop]
  cases run_instruction self i with
  | none => rfl
  | some s => exact svg_loop_fuel strtof _ _ s t hlen (le_refl _)

omit [Zero F] in
theorem recognise_space (strtof : List Char → F × Nat) (ch : Char) (t : List Char)
    (h : is_whitespace_char ch = true) :
    recognise_instruction strtof (ch :: t) = (none, 1) := by
  have hM : ch ≠ 'M' := by rintro rfl; revert h; decide
  have hL : ch ≠ 'L' := by rintro rfl; revert h; decide
  have hH : ch ≠ 'H' := by rintro rfl; revert h; decide
  have hV : ch ≠ 'V' := by rintro rfl; revert h; decide
  have hC : ch ≠ 'C' := by rintro rfl; revert h; decide
  have hQ : ch ≠ 'Q' := by rintro rfl; revert h; decide
  have hZ : ch ≠ 'Z' := by rintro rfl; revert h; decide
  simp only [recognise_instruction, is_m_instruction, is_l_instruction, is_h_instruction,
    is_v_instruction, is_letter_pair_instruction_ne strtof _ _ _ _ hM,
    is_letter_pair_instruction_ne strtof _ _ _ _ hL,
    is_letter_number_instruction_ne strtof _ _ _ _ hH,
    is_letter_number_instruction_ne strtof _ _ _ _ hV,
    is_c_instruction_ne strtof _ _ _ hC, is_q_instruction_ne strtof _ _ _ hQ,
    is_character_match_ne _ _ _ _ hZ]

omit [Zero F] in
theorem recognise_M (strtof : List Char → F × Nat) (w s t : List Char) (p : Vertex F)
    (hw : IsWhitespace w) (hp : PairAt strtof s p t) :
    ∃ k, recognise_instruction strtof ('M' :: (w ++ (s ++ t))) = (some (.M p), k) ∧
      ('M' :: (w ++ (s ++ t))).drop k = t := by
  obtain ⟨k, h, hd, -⟩ := is_letter_pair_instruction_at strtof 'M' w s t p hw hp
  exact ⟨k, by simp only [recognise_instruction, is_m_instruction, h], hd⟩

omit [Zero F] in
theorem recognise_L (strtof : List Char → F × Nat) (w s t : List Char) (p : Vertex F)
    (hw : IsWhitespace w) (hp : PairAt strtof s p t) :
    ∃ k, recognise_instruction strtof ('L' :: (w ++ (s ++ t))) = (some (.L p), k) ∧
      ('L' :: (w ++ (s ++ t))).drop k = t := by
  obtain ⟨k, h, hd, -⟩ := is_letter_pair_instruction_at strtof 'L' w s t p hw hp
  refine ⟨k, ?_, hd⟩
  simp only [recognise_instruction, is_m_instruction, is_l_instruction, h,
    is_letter_pair_instruction_ne strtof 'M' 'L' _ _ (by decide)]

omit [Zero F] in
theorem recognise_H (strtof : List Char → F × Nat) (w s t : List Char) (x : F)
    (hw : IsWhitespace w) (hp : NumberAt strtof s x t) :
    ∃ k, recognise_instruction strtof ('H' :: (w ++ (s ++ t))) = (some (.H x), k) ∧
      ('H' :: (w ++ (s ++ t))).drop k = t := by
  obtain ⟨k, h, hd, -⟩ := is_letter_number_instruction_at strtof 'H' w s t x hw hp
  refine ⟨k, ?_, hd⟩
  simp only [recognise_instruction, is_m_instruction, is_l_instruction, is_h_instruction, h,
    is_letter_pair_instruction_ne strtof 'M' 'H' _ _ (by decide),
    is_letter_pair_instruction_ne strtof 'L' 'H' _ _ (by decide)]

omit [Zero F] in
theorem recognise_V (strtof : List Char → F × Nat) (w s t : List Char) (y : F)
    (hw : IsWhitespace w) (hp : NumberAt strtof s y t) :
    ∃ k, recognise_instruction strtof ('V' :: (w ++ (s ++ t))) = (some (.V y), k) ∧
      ('V' :: (w ++ (s ++ t))).drop k = t := by
  obtain ⟨k, h, hd, -⟩ := is_letter_number_instruction_at strtof 'V' w s t y hw hp
  refine ⟨k, ?_, hd⟩
  simp only [recognise_instruction, is_m_instruction, is_l_instruction, is_h_instruction,
    is_v_instruction, h,
    is_letter_pair_instruction_ne strtof 'M' 'V' _ _ (by decide),
    is_letter_pair_instruction_ne strtof 'L' 'V' _ _ (by decide),
    is_letter_number_instruction_ne strtof 'H' 'V' _ _ (by decide)]

omit [Zero F] in
theorem recognise_C (strtof : List Char → F × Nat)
    (w1 s1 w2 s2 w3 s3 t : List Char) (c0 c1 p : Vertex F)
    (hw1 : IsWhitespace w1) (hp1 : PairAt strtof s1 c0 (w2 ++ (s2 ++ (w3 ++ (s3 ++ t)))))
    (hw2 : IsWhitespace w2) (hp2 : PairAt strtof s2 c1 (w3 ++ (s3 ++ t)))
    (hw3 : IsWhitespace w3) (hp3 : PairAt strtof s3 p t) :
    ∃ k, recognise_instruction strtof
        ('C' :: (w1 ++ (s1 ++ (w2 ++ (s2 ++ (w3 ++ (s3 ++ t)))))))
        = (some (.C c0 c1 p), k) ∧
      ('C' :: (w1 ++ (s1 ++ (w2 ++ (s2 ++ (w3 ++ (s3 ++ t))))))).drop k = t := by
  obtain ⟨k, h, hd, -⟩ :=
    is_c_instruction_at strtof w1 s1 w2 s2 w3 s3 t c0 c1 p hw1 hp1 hw2 hp2 hw3 hp3
  refine ⟨k, ?_, hd⟩
  simp only [recognise_instruction, is_m_instruction, is_l_instruction, is_h_instruction,
    is_v_instruction, h,
    is_letter_pair_instruction_ne strtof 'M' 'C' _ _ (by decide),
    is_letter_pair_instruction_ne strtof 'L' 'C' _ _ (by decide),
    is_letter_number_instruction_ne strtof 'H' 'C' _ _ (by decide),
    is_letter_number_instruction_ne strtof 'V' 'C' _ _ (by decide)]

omit [Zero F] in
theorem recognise_Q (strtof : List Char → F × Nat)
    (w1 s1 w2 s2 t : List Char) (c0 p : Vertex F)
    (hw1 : IsWhitespace w1) (hp1 : PairAt strtof s1 c0 (w2 ++ (s2 ++ t)))
    (hw2 : IsWhitespace w2) (hp2 : PairAt strtof s2 p t) :
    ∃ k, recognise_instruction strtof ('Q' :: (w1 ++ (s1 ++ (w2 ++ (s2 ++ t)))))
        = (some (.Q c0 p), k) ∧
      ('Q' :: (w1 ++ (s1 ++ (w2 ++ (s2 ++ t))))).drop k = t := by
  obtain ⟨k, h, hd, -⟩ := is_q_instruction_at strtof w1 s1 w2 s2 t c0 p hw1 hp1 hw2 hp2
  refine ⟨k, ?_, hd⟩
  simp only [recognise_instruction, is_m_instruction, is_l_instruction, is_h_instruction,
    is_v_instruction, h,
    is_letter_pair_instruction_ne strtof 'M' 'Q' _ _ (by decide),
    is_letter_pair_instruction_ne strtof 'L' 'Q' _ _ (by decide),
    is_letter_number_instruction_ne strtof 'H' 'Q' _ _ (by decide),
    is_letter_number_instruction_ne strtof 'V' 'Q' _ _ (by decide),
    is_c_instruction_ne strtof 'Q' _ _ (by decide)]

omit [Zero F] in
theorem recognise_Z (strtof : List Char → F × Nat) (t : List Char) :
    recognise_instruction strtof ('Z' :: t) = (some .Z, 1) := by
  simp only [recognise_instruction, is_m_instruction, is_l_instruction, is_h_instruction,
    is_v_instruction,
    is_letter_pair_instruction_ne strtof 'M' 'Z' _ _ (by decide),
    is_letter_pair_instruction_ne strtof 'L' 'Z' _ _ (by decide),
    is_letter_number_instruction_ne strtof 'H' 'Z' _ _ (by decide),
    is_letter_number_instruction_ne strtof 'V' 'Z' _ _ (by decide),
    is_c_instruction_ne strtof 'Z' _ _ (by decide),
    is_q_instruction_ne strtof 'Z' _ _ (by decide), is_character_match_head]

/-- Reading a well-formed text performs the path operations of the
instructions it spells, in order. -/
theorem svg_text_run (strtof : List Char → F × Nat) (text : List Char)
    (is : List (SvgInstruction F)) (h : SvgText strtof text is) :
    ∀ self : le_path_o F,
      le_path_add_from_simplified_svg strtof self text = run_instructions self is := by
  induction h with
  | done => intro self; rfl
  | space ch t is hch _ ih =>
    intro self
    rw [svg_add_step_none strtof self (ch :: t) t 1 (by simp) (recognise_space strtof ch t hch)
      (by simp)]
    exact ih self
  | M w s p t is hw hp _ ih =>
    intro self
    obtain ⟨k, hk, hd⟩ := recognise_M strtof w s t p hw hp
    rw [svg_add_step_some strtof self _ t _ k (by simp) hk hd]
    simp only [run_instructions, ih]
  | L w s p t is hw hp _ ih =>
    intro self
    obtain ⟨k, hk, hd⟩ := recognise_L strtof w s t p hw hp
    rw [svg_add_step_some strtof self _ t _ k (by simp) hk hd]
    simp only [run_instructions, ih]
  | H w s x t is hw hp _ ih =>
    intro self
    obtain ⟨k, hk, hd⟩ := recognise_H strtof w s t x hw hp
    rw [svg_add_step_some strtof self _ t _ k (by simp) hk hd]
    simp only [run_instructions, ih]
  | V w s y t is hw hp _ ih =>
    intro self
    obtain ⟨k, hk, hd⟩ := recognise_V strtof w s t y hw hp
    rw [svg_add_step_some strtof self _ t _ k (by simp) hk hd]
    simp only [run_instructions, ih]
  | C w1 s1 w2 s2 w3 s3 c0 c1 p t is hw1 hp1 hw2 hp2 hw3 hp3 _ ih =>
    intro self
    obtain ⟨k, hk, hd⟩ := recognise_C strtof w1 s1 w2 s2 w3 s3 t c0 c1 p hw1 hp1 hw2 hp2 hw3 hp3
    rw [svg_add_step_some strtof self _ t _ k (by simp) hk hd]
    simp only [run_instructions, ih]
  | Q w1 s1 w2 s2 c0 p t is hw1 hp1 hw2 hp2 _ ih =>
    intro self
    obtain ⟨k, hk, hd⟩ := recognise_Q strtof w1 s1 w2 s2 t c0 p hw1 hp1 hw2 hp2
    rw [svg_add_step_some strtof self _ t _ k (by simp) hk hd]
    simp only [run_instructions, ih]
  | Z t is _ ih =>
    intro self
    rw [svg_add_step_some strtof self _ t _ 1 (by simp) (recognise_Z strtof t) (by simp)]
    simp only [run_instructions, ih]

end TextLemmas

/-! ## Lemmas on path construction and the contour invariant -/

section PathLemmas

variable {F : Type} [Zero F]

omit [Zero F] in
theorem push_back_command_append (cs : List (Contour F)) (s : Contour F)
    (cmd : PathCommand F) :
    push_back_command (cs ++ [s]) cmd = cs ++ [⟨s.commands ++ [cmd]⟩] := by
  simp [push_back_command]

omit [Zero F] in
theorem exists_append_of_ne_nil {α : Type} (l : List α) (h : l ≠ []) :
    ∃ init last, l = init ++ [last] :=
  ⟨l.dropLast, l.getLast h, (List.dropLast_append_getLast h).symm⟩

theorem le_path_line_to_append (self : le_path_o F) (init : List (Contour F))
    (last : Contour F) (p : Vertex F) (h : self.contours = init ++ [last]) :
    le_path_line_to self p =
      ⟨init ++ [⟨last.commands ++ [⟨.eLineTo, p, 0, 0⟩]⟩], self.polylines⟩ := by
  simp [le_path_line_to, h, push_back_command_append]

theorem le_path_quad_bezier_to_append (self : le_path_o F) (init : List (Contour F))
    (last : Contour F) (p c1 : Vertex F) (h : self.contours = init ++ [last]) :
    le_path_quad_bezier_to self p c1 =
      some ⟨init ++ [⟨last.commands ++ [⟨.eQuadBezierTo, p, c1, 0⟩]⟩], self.polylines⟩ := by
  simp [le_path_quad_bezier_to, h, push_back_command_append]

omit [Zero F] in
theorem le_path_cubic_bezier_to_append (self : le_path_o F) (init : List (Contour F))
    (last : Contour F) (p c1 c2 : Vertex F) (h : self.contours = init ++ [last]) :
    le_path_cubic_bezier_to self p c1 c2 =
      some ⟨init ++ [⟨last.commands ++ [⟨.eCubicBezierTo, p, c1, c2⟩]⟩], self.polylines⟩ := by
  simp [le_path_cubic_bezier_to, h, push_back_command_append]

theorem le_path_close_path_append (self : le_path_o F) (init : List (Contour F))
    (last : Contour F) (h : self.contours = init ++ [last]) :
    le_path_close_path self =
      some ⟨init ++ [⟨last.commands ++ [⟨.eClosePath, 0, 0, 0⟩]⟩], self.polylines⟩ := by
  simp [le_path_close_path, h, push_back_command_append]

theorem described_contours_one (cs : List (Contour F)) (i : PlainInstruction F) :
    described_contours cs [i] =
      match i with
      | .M p => cs ++ [⟨[⟨.eMoveTo, p, 0, 0⟩]⟩]
      | i =>
        match cs.getLast? with
        | none => cs
        | some s => cs.dropLast ++ [⟨s.commands ++ [instruction_command i]⟩] := by
  cases i <;> simp [described_contours, instruction_command]

/-- On a path with a contour, and for `M` on any path, the path operation of a
listed instruction does what the format describes. -/
theorem run_instruction_plain (self : le_path_o F) (i : PlainInstruction F)
    (h : self.contours ≠ [] ∨ ∃ p, i = .M p) :
    run_instruction self i.toSvg =
      some ⟨described_contours self.contours [i], self.polylines⟩ := by
  cases i with
  | M p => simp [run_instruction, PlainInstruction.toSvg, le_path_move_to, described_contours,
      instruction_command]
  | L p =>
    have hne : self.contours ≠ [] := by
      rcases h with h | ⟨q, hq⟩
      · exact h
      · cases hq
    obtain ⟨init, last, hl⟩ := exists_append_of_ne_nil _ hne
    simp [run_instruction, PlainInstruction.toSvg, le_path_line_to_append self init last p hl,
      described_contours, instruction_command, hl]
  | C c0 c1 p =>
    have hne : self.contours ≠ [] := by
      rcases h with h | ⟨q, hq⟩
      · exact h
      · cases hq
    obtain ⟨init, last, hl⟩ := exists_append_of_ne_nil _ hne
    simp [run_instruction, PlainInstruction.toSvg,
      le_path_cubic_bezier_to_append self init last p c0 c1 hl,
      described_contours, instruction_command, hl]
  | Q c0 p =>
    have hne : self.contours ≠ [] := by
      rcases h with h | ⟨q, hq⟩
      · exact h
      · cases hq
    obtain ⟨init, last, hl⟩ := exists_append_of_ne_nil _ hne
    simp [run_instruction, PlainInstruction.toSvg,
      le_path_quad_bezier_to_append self init last p c0 hl,
      described_contours, instruction_command, hl]
  | Z =>
    have hne : self.contours ≠ [] := by
      rcases h with h | ⟨q, hq⟩
      · exact h
      · cases hq
    obtain ⟨init, last, hl⟩ := exists_append_of_ne_nil _ hne
    simp [run_instruction, PlainInstruction.toSvg,
      le_path_close_path_append self init last hl,
      described_contours, instruction_command, hl]

theorem described_contours_cons (cs : List (Contour F)) (i : PlainInstruction F)
    (is : List (PlainInstruction F)) :
    described_contours cs (i :: is) = described_contours (described_contours cs [i]) is := by
  cases i <;> simp [described_contours] <;> split <;> simp [described_contours]

theorem described_contours_one_ne_nil (cs : List (Contour F)) (i : PlainInstruction F)
    (h : cs ≠ [] ∨ ∃ p, i = .M p) : described_contours cs [i] ≠ [] := by
  cases i with
  | M p => simp [described_contours]
  | L p =>
    have hne : cs ≠ [] := by
      rcases h with h | ⟨q, hq⟩
      · exact h
      · cases hq
    obtain ⟨init, last, rfl⟩ := exists_append_of_ne_nil _ hne
    simp [described_contours]
  | C c0 c1 p =>
    have hne : cs ≠ [] := by
      rcases h with h | ⟨q, hq⟩
      · exact h
      · cases hq
    obtain ⟨init, last, rfl⟩ := exists_append_of_ne_nil _ hne
    simp [described_contours]
  | Q c0 p =>
    have hne : cs ≠ [] := by
      rcases h with h | ⟨q, hq⟩
      · exact h
      · cases hq
    obtain ⟨init, last, rfl⟩ := exists_append_of_ne_nil _ hne
    simp [described_contours]
  | Z =>
    have hne : cs ≠ [] := by
      rcases h with h | ⟨q, hq⟩
      · exact h
      · cases hq
    obtain ⟨init, last, rfl⟩ := exists_append_of_ne_nil _ hne
    simp [described_contours]

/-- The path operations of a list of listed instructions build the contours the
format describes, provided a contour exists or the list begins with `M`. -/
theorem run_instructions_plain (is : List (PlainInstruction F)) :
    ∀ self : le_path_o F, (self.contours ≠ [] ∨ ∃ p rest, is = .M p :: rest) →
      run_instructions self (is.map PlainInstruction.toSvg) =
        some ⟨described_contours self.contours is, self.polylines⟩ := by
  induction is with
  | nil => intro self _; rfl
  | cons i is ih =>
    intro self h
    have h1 : self.contours ≠ [] ∨ ∃ p, i = .M p := by
      rcases h with h | ⟨p, rest, hp⟩
      · exact Or.inl h
      · exact Or.inr ⟨p, (List.cons.inj hp).1⟩
    rw [List.map_cons, run_instructions, run_instruction_plain self i h1, Option.some_bind,
      ih _ (Or.inl (described_contours_one_ne_nil _ i h1)), ← described_contours_cons]

omit [Zero F] in
theorem all_commands_append (cs : List (Contour F)) (s : Contour F) :
    all_commands (cs ++ [s]) = all_commands cs ++ s.commands := by
  simp [all_commands]

/-- The commands of the described contours are the old commands followed by one
command per instruction, in order. -/
theorem all_commands_described (is : List (PlainInstruction F)) :
    ∀ cs : List (Contour F), (cs ≠ [] ∨ ∃ p rest, is = .M p :: rest) →
      all_commands (described_contours cs is) =
        all_commands cs ++ is.map instruction_command := by
  induction is with
  | nil => intro cs _; simp [described_contours]
  | cons i is ih =>
    intro cs h
    have h1 : cs ≠ [] ∨ ∃ p, i = .M p := by
      rcases h with h | ⟨p, rest, hp⟩
      · exact Or.inl h
      · exact Or.inr ⟨p, (List.cons.inj hp).1⟩
    rw [described_contours_cons, ih _ (Or.inl (described_contours_one_ne_nil _ i h1))]
    have : all_commands (described_contours cs [i]) = all_commands cs ++ [instruction_command i] := by
      cases i with
      | M p => simp [described_contours, all_commands_append]
      | L p =>
        have hne : cs ≠ [] := by
          rcases h1 with h | ⟨q, hq⟩
          · exact h
          · cases hq
        obtain ⟨init, last, rfl⟩ := exists_append_of_ne_nil _ hne
        simp [described_contours, all_commands_append]
      | C c0 c1 p =>
        have hne : cs ≠ [] := by
          rcases h1 with h | ⟨q, hq⟩
          · exact h
          · cases hq
        obtain ⟨init, last, rfl⟩ := exists_append_of_ne_nil _ hne
        simp [described_contours, all_commands_append]
      | Q c0 p =>
        have hne : cs ≠ [] := by
          rcases h1 with h | ⟨q, hq⟩
          · exact h
          · cases hq
        obtain ⟨init, last, rfl⟩ := exists_append_of_ne_nil _ hne
        simp [described_contours, all_commands_append]
      | Z =>
        have hne : cs ≠ [] := by
          rcases h1 with h | ⟨q, hq⟩
          · exact h
          · cases hq
        obtain ⟨init, last, rfl⟩ := exists_append_of_ne_nil _ hne
        simp [described_contours, all_commands_append]
    rw [this]; simp

end PathLemmas

section InvariantLemmas

variable {F : Type} [Zero F]

theorem canonical_move_to (self : le_path_o F) (p : Vertex F) (h : CanonicalPath self) :
    CanonicalPath (le_path_move_to self p) := by
  intro s hs
  simp only [le_path_move_to, List.mem_append, List.mem_singleton] at hs
  rcases hs with hs | rfl
  · exact h s hs
  · exact ⟨p, [], rfl, by simp⟩

theorem canonical_push (init : List (Contour F)) (last : Contour F) (i : PlainInstruction F)
    (hi : (instruction_command i).type ≠ .eMoveTo)
    (h : ∀ s ∈ init ++ [last], CanonicalContour s) :
    ∀ s ∈ init ++ [⟨last.commands ++ [instruction_command i]⟩], CanonicalContour s := by
  intro s hs
  simp only [List.mem_append, List.mem_singleton] at hs
  rcases hs with hs | rfl
  · exact h s (by simp [hs])
  · obtain ⟨p, rest, hl, hr⟩ := h last (by simp)
    refine ⟨p, rest ++ [instruction_command i], by simp [hl], ?_⟩
    intro c hc
    simp only [List.mem_append, List.mem_singleton] at hc
    rcases hc with hc | rfl
    · exact hr c hc
    · exact ⟨hi, i, rfl⟩

theorem canonical_line_to (self : le_path_o F) (p : Vertex F) (h : CanonicalPath self) :
    CanonicalPath (le_path_line_to self p) := by
  by_cases hne : self.contours = []
  · intro s hs
    simp only [le_path_line_to, hne, List.isEmpty_nil, if_true, le_path_move_to,
      List.nil_append] at hs
    rw [show ([⟨[⟨.eMoveTo, 0, 0, 0⟩]⟩] : List (Contour F)) = [] ++ [⟨[⟨.eMoveTo, 0, 0, 0⟩]⟩]
      from rfl, push_back_command_append] at hs
    simp only [List.nil_append, List.mem_singleton] at hs
    subst hs
    exact ⟨0, [⟨.eLineTo, p, 0, 0⟩], rfl, by
      intro c hc
      simp only [List.mem_singleton] at hc
      subst hc
      exact ⟨by simp, .L p, rfl⟩⟩
  · obtain ⟨init, last, hl⟩ := exists_append_of_ne_nil _ hne
    rw [le_path_line_to_append self init last p hl]
    exact canonical_push init last (.L p) (by simp [instruction_command]) (hl ▸ h)

theorem canonical_line_horiz_to (self next : le_path_o F) (px : F) (h : CanonicalPath self)
    (hn : le_path_line_horiz_to self px = some next) : CanonicalPath next := by
  unfold le_path_line_horiz_to at hn
  split at hn
  · simp at hn
  · cases Option.some.inj hn; exact h
  · cases Option.some.inj hn; exact canonical_line_to self _ h

theorem canonical_line_vert_to (self next : le_path_o F) (py : F) (h : CanonicalPath self)
    (hn : le_path_line_vert_to self py = some next) : CanonicalPath next := by
  unfold le_path_line_vert_to at hn
  split at hn
  · simp at hn
  · cases Option.some.inj hn; exact h
  · cases Option.some.inj hn; exact canonical_line_to self _ h

theorem canonical_quad_bezier_to (self next : le_path_o F) (p c1 : Vertex F)
    (h : CanonicalPath self) (hn : le_path_quad_bezier_to self p c1 = some next) :
    CanonicalPath next := by
  by_cases hne : self.contours = []
  · simp [le_path_quad_bezier_to, hne] at hn
  · obtain ⟨init, last, hl⟩ := exists_append_of_ne_nil _ hne
    rw [le_path_quad_bezier_to_append self init last p c1 hl] at hn
    cases Option.some.inj hn
    exact canonical_push init last (.Q c1 p) (by simp [instruction_command]) (hl ▸ h)

theorem canonical_cubic_bezier_to (self next : le_path_o F) (p c1 c2 : Vertex F)
    (h : CanonicalPath self) (hn : le_path_cubic_bezier_to self p c1 c2 = some next) :
    CanonicalPath next := by
  by_cases hne : self.contours = []
  · simp [le_path_cubic_bezier_to, hne] at hn
  · obtain ⟨init, last, hl⟩ := exists_append_of_ne_nil _ hne
    rw [le_path_cubic_bezier_to_append self init last p c1 c2 hl] at hn
    cases Option.some.inj hn
    exact canonical_push init last (.C c1 c2 p) (by simp [instruction_command]) (hl ▸ h)

theorem canonical_close_path (self next : le_path_o F)
    (h : CanonicalPath self) (hn : le_path_close_path self = some next) :
    CanonicalPath next := by
  by_cases hne : self.contours = []
  · simp [le_path_close_path, hne] at hn
  · obtain ⟨init, last, hl⟩ := exists_append_of_ne_nil _ hne
    rw [le_path_close_path_append self init last hl] at hn
    cases Option.some.inj hn
    exact canonical_push init last .Z (by simp [instruction_command]) (hl ▸ h)

theorem canonical_run_instruction (self next : le_path_o F) (i : SvgInstruction F)
    (h : CanonicalPath self) (hn : run_instruction self i = some next) :
    CanonicalPath next := by
  cases i with
  | M p => cases Option.some.inj hn; exact canonical_move_to self p h
  | L p => cases Option.some.inj hn; exact canonical_line_to self p h
  | H x => exact canonical_line_horiz_to self next x h hn
  | V y => exact canonical_line_vert_to self next y h hn
  | C c0 c1 p => exact canonical_cubic_bezier_to self next p c0 c1 h hn
  | Q c0 p => exact canonical_quad_bezier_to self next p c0 h hn
  | Z => exact canonical_close_path self next h hn

theorem canonical_run_instructions (is : List (SvgInstruction F)) :
    ∀ (self next : le_path_o F), CanonicalPath self →
      run_instructions self is = some next → CanonicalPath next := by
  induction is with
  | nil => intro self next h hn; cases Option.some.inj hn; exact h
  | cons i is ih =>
    intro self next h hn
    rw [run_instructions] at hn
    cases h1 : run_instruction self i with
    | none => simp [h1] at hn
    | some s1 =>
      rw [h1, Option.some_bind] at hn
      exact ih s1 next (canonical_run_instruction self s1 i h h1) hn

theorem canonical_svg_loop (strtof : List Char → F × Nat) :
    ∀ (fuel : Nat) (self next : le_path_o F) (c : List Char), CanonicalPath self →
      svg_loop strtof fuel self c = some next → CanonicalPath next := by
  intro fuel
  induction fuel with
  | zero =>
    intro self next c h hn
    cases c with
    | nil => rw [svg_loop_nil] at hn; cases Option.some.inj hn; exact h
    | cons ch cs => simp [svg_loop] at hn
  | succ fuel ih =>
    intro self next c h hn
    cases c with
    | nil => rw [svg_loop_nil] at hn; cases Option.some.inj hn; exact h
    | cons ch cs =>
      rw [svg_loop_succ] at hn
      cases hi : (recognise_instruction strtof (ch :: cs)).1 with
      | none => rw [hi] at hn; exact ih self next _ h hn
      | some i =>
        rw [hi] at hn
        simp only at hn
        cases h1 : run_instruction self i with
        | none => simp [h1] at hn
        | some s1 =>
          rw [h1, Option.some_bind] at hn
          exact ih s1 next _ (canonical_run_instruction self s1 i h h1) hn

theorem canonical_of_reachable (self : le_path_o F) (h : Reachable self) :
    CanonicalPath self := by
  induction h with
  | create => intro s hs; simp [le_path_create] at hs
  | move_to self p _ ih => exact canonical_move_to self p ih
  | line_to self p _ ih => exact canonical_line_to self p ih
  | line_horiz_to self next px _ hn ih => exact canonical_line_horiz_to self next px ih hn
  | line_vert_to self next py _ hn ih => exact canonical_line_vert_to self next py ih hn
  | quad_bezier_to self next p c1 _ hn ih => exact canonical_quad_bezier_to self next p c1 ih hn
  | cubic_bezier_to self next p c1 c2 _ hn ih =>
    exact canonical_cubic_bezier_to self next p c1 c2 ih hn
  | close self next _ hn ih => exact canonical_close_path self next ih hn
  | add_from_simplified_svg strtof self next svg _ hn ih =>
    exact canonical_svg_loop strtof _ self next svg ih hn

end InvariantLemmas

/-! ## Lemmas on the emitter and on decimal numbers -/

section EmitLemmas

variable {F : Type} [Zero F]

omit [Zero F] in
theorem isWhitespace_blank : IsWhitespace [' '] :=
  ⟨by simp, by intro ch hch; simp only [List.mem_singleton] at hch; subst hch; decide⟩

omit [Zero F] in
theorem pairAt_emit (strtof : List Char → F × Nat) (fmt : F → List Char)
    (hfmt : NumberFormat strtof fmt) (p : Vertex F) (t : List Char) :
    PairAt strtof (emit_pair fmt p) p (' ' :: t) :=
  ⟨fmt p.x, fmt p.y, rfl, (hfmt p.x _).1, (hfmt p.y t).2⟩

/-- The emitted text of a list of listed instructions spells these
instructions. -/
theorem svgText_emit (strtof : List Char → F × Nat) (fmt : F → List Char)
    (hfmt : NumberFormat strtof fmt) (is : List (PlainInstruction F)) :
    SvgText strtof (emit_commands fmt (is.map instruction_command))
      (is.map PlainInstruction.toSvg) := by
  induction is with
  | nil => exact SvgText.done
  | cons i is ih =>
    have hsp := SvgText.space ' ' _ _ (by decide) ih
    cases i with
    | M p =>
      have := SvgText.M [' '] (emit_pair fmt p) p _ _ isWhitespace_blank
        (pairAt_emit strtof fmt hfmt p _) hsp
      simpa [emit_commands, emit_command, instruction_command, PlainInstruction.toSvg]
        using this
    | L p =>
      have := SvgText.L [' '] (emit_pair fmt p) p _ _ isWhitespace_blank
        (pairAt_emit strtof fmt hfmt p _) hsp
      simpa [emit_commands, emit_command, instruction_command, PlainInstruction.toSvg]
        using this
    | C c0 c1 p =>
      have := SvgText.C [' '] (emit_pair fmt c0) [' '] (emit_pair fmt c1) [' ']
        (emit_pair fmt p) c0 c1 p _ _ isWhitespace_blank
        (pairAt_emit strtof fmt hfmt c0 _) isWhitespace_blank
        (pairAt_emit strtof fmt hfmt c1 _) isWhitespace_blank
        (pairAt_emit strtof fmt hfmt p _) hsp
      simpa [emit_commands, emit_command, instruction_command, PlainInstruction.toSvg]
        using this
    | Q c0 p =>
      have := SvgText.Q [' '] (emit_pair fmt c0) [' '] (emit_pair fmt p) c0 p _ _
        isWhitespace_blank (pairAt_emit strtof fmt hfmt c0 _) isWhitespace_blank
        (pairAt_emit strtof fmt hfmt p _) hsp
      simpa [emit_commands, emit_command, instruction_command, PlainInstruction.toSvg]
        using this
    | Z =>
      have := SvgText.Z _ _ hsp
      simpa [emit_commands, emit_command, instruction_command, PlainInstruction.toSvg]
        using this

theorem described_contours_append (is1 is2 : List (PlainInstruction F)) :
    ∀ cs : List (Contour F),
      described_contours cs (is1 ++ is2) = described_contours (described_contours cs is1) is2 := by
  induction is1 with
  | nil => intro cs; rfl
  | cons i is1 ih =>
    intro cs
    rw [List.cons_append, described_contours_cons, ih, ← described_contours_cons]

theorem described_contours_tail (ris : List (PlainInstruction F))
    (hris : ∀ i ∈ ris, (instruction_command i).type ≠ .eMoveTo) :
    ∀ (acc : List (Contour F)) (cmds : List (PathCommand F)),
      described_contours (acc ++ [⟨cmds⟩]) ris =
        acc ++ [⟨cmds ++ ris.map instruction_command⟩] := by
  induction ris with
  | nil => intro acc cmds; simp [described_contours]
  | cons i ris ih =>
    intro acc cmds
    have hi := hris i (by simp)
    have ih1 := ih (fun j hj => hris j (by simp [hj]))
    rw [described_contours_cons]
    cases i with
    | M p => simp [instruction_command] at hi
    | L p => simp [described_contours, ih1]
    | C c0 c1 p => simp [described_contours, ih1]
    | Q c0 p => simp [described_contours, ih1]
    | Z => simp [described_contours, ih1]

theorem canonical_contour_instructions (s : Contour F) (h : CanonicalContour s) :
    ∃ (p : Vertex F) (ris : List (PlainInstruction F)),
      s.commands = (PlainInstruction.M p :: ris).map instruction_command ∧
      ∀ i ∈ ris, (instruction_command i).type ≠ .eMoveTo := by
  obtain ⟨p, rest, hs, hr⟩ := h
  refine ⟨p, ?_⟩
  suffices hsuff : ∃ ris : List (PlainInstruction F), rest = ris.map instruction_command ∧
      ∀ i ∈ ris, (instruction_command i).type ≠ .eMoveTo by
    obtain ⟨ris, h1, h2⟩ := hsuff
    exact ⟨ris, by simp [hs, h1, instruction_command], h2⟩
  clear hs
  induction rest with
  | nil => exact ⟨[], rfl, by simp⟩
  | cons c rest ih =>
    obtain ⟨ris, h1, h2⟩ := ih (fun d hd => hr d (by simp [hd]))
    obtain ⟨hc, i, hi⟩ := hr c (by simp)
    refine ⟨i :: ris, by simp [hi, h1], ?_⟩
    intro j hj
    simp only [List.mem_cons] at hj
    rcases hj with rfl | hj
    · rw [hi]; exact hc
    · exact h2 j hj

/-- Canonical contours are the contours some list of listed instructions
describes, and their commands are the commands of these instructions. -/
theorem canonical_contours_instructions (cs : List (Contour F))
    (h : ∀ s ∈ cs, CanonicalContour s) :
    ∃ is : List (PlainInstruction F),
      is.map instruction_command = all_commands cs ∧
      (∀ acc : List (Contour F), described_contours acc is = acc ++ cs) ∧
      (cs ≠ [] → ∃ p rest, is = .M p :: rest) := by
  induction cs with
  | nil => exact ⟨[], by simp [all_commands], by intro acc; simp [described_contours], by simp⟩
  | cons s cs ih =>
    obtain ⟨is, h1, h2, -⟩ := ih (fun t ht => h t (by simp [ht]))
    obtain ⟨p, ris, hs, hris⟩ := canonical_contour_instructions s (h s (by simp))
    refine ⟨(.M p :: ris) ++ is, ?_, ?_, fun _ => ⟨p, ris ++ is, by simp⟩⟩
    · rw [List.map_append, h1, ← hs]; simp [all_commands]
    · intro acc
      rw [described_contours_append, described_contours_cons]
      have e1 : described_contours acc [PlainInstruction.M p]
          = acc ++ [⟨[instruction_command (.M p)]⟩] := by simp [described_contours]
      rw [e1, described_contours_tail ris hris, h2]
      have : (⟨[instruction_command (.M p)] ++ ris.map instruction_command⟩ : Contour F) = s := by
        cases s; simp only [Contour.mk.injEq]; simpa using hs.symm
      rw [this]; simp

theorem polylines_run_instruction (self next : le_path_o F) (i : SvgInstruction F)
    (hn : run_instruction self i = some next) : next.polylines = self.polylines := by
  cases i with
  | M p => cases Option.some.inj hn; rfl
  | L p => cases Option.some.inj hn; simp only [le_path_line_to]; split <;> rfl
  | H x =>
    simp only [run_instruction, le_path_line_horiz_to] at hn
    split at hn
    · simp at hn
    · cases Option.some.inj hn; rfl
    · cases Option.some.inj hn; simp only [le_path_line_to]; split <;> rfl
  | V y =>
    simp only [run_instruction, le_path_line_vert_to] at hn
    split at hn
    · simp at hn
    · cases Option.some.inj hn; rfl
    · cases Option.some.inj hn; simp only [le_path_line_to]; split <;> rfl
  | C c0 c1 p =>
    simp only [run_instruction, le_path_cubic_bezier_to] at hn
    split at hn
    · simp at hn
    · cases Option.some.inj hn; rfl
  | Q c0 p =>
    simp only [run_instruction, le_path_quad_bezier_to] at hn
    split at hn
    · simp at hn
    · cases Option.some.inj hn; rfl
  | Z =>
    simp only [run_instruction, le_path_close_path] at hn
    split at hn
    · simp at hn
    · cases Option.some.inj hn; rfl

theorem polylines_run_instructions (is : List (SvgInstruction F)) :
    ∀ (self next : le_path_o F), run_instructions self is = some next →
      next.polylines = self.polylines := by
  induction is with
  | nil => intro self next hn; cases Option.some.inj hn; rfl
  | cons i is ih =>
    intro self next hn
    rw [run_instructions] at hn
    cases h1 : run_instruction self i with
    | none => simp [h1] at hn
    | some s1 =>
      rw [h1, Option.some_bind] at hn
      rw [ih s1 next hn, polylines_run_instruction self s1 i h1]

/-- Emitting a canonical path and reading the text into an empty path gives
the contours back. -/
theorem read_emit_canonical (strtof : List Char → F × Nat) (fmt : F → List Char)
    (hfmt : NumberFormat strtof fmt) (self : le_path_o F) (h : CanonicalPath self) :
    le_path_add_from_simplified_svg strtof (le_path_create F) (emit_path fmt self) =
      some ⟨self.contours, []⟩ := by
  obtain ⟨is, h1, h2, h3⟩ := canonical_contours_instructions self.contours h
  have htext := svgText_emit strtof fmt hfmt is
  rw [h1] at htext
  rw [emit_path, svg_text_run strtof _ _ htext]
  by_cases hne : self.contours = []
  · have : is = [] := by
      have := congrArg List.length h1
      simp [hne, all_commands] at this
      exact this
    subst this
    simp [run_instructions, le_path_create, hne]
  · rw [run_instructions_plain is _ (Or.inr (h3 hne)), h2]
    simp [le_path_create]

end EmitLemmas

section DecimalLemmas

theorem digit_of_char_of_digit (d : Nat) (h : d < 10) :
    digit_of_char (char_of_digit d) = some d := by
  interval_cases d <;> rfl

theorem char_of_digit_not_space (d : Nat) : is_whitespace_char (char_of_digit d) = false := by
  unfold char_of_digit
  split <;> decide

theorem read_digits_map (ds : List Nat) (hds : ∀ d ∈ ds, d < 10) (rest : List Char)
    (hrest : ∀ ch ∈ rest.head?, digit_of_char ch = none) :
    ∀ acc : Nat, read_digits (ds.map char_of_digit ++ rest) acc =
      (ds.foldl (fun a d => 10 * a + d) acc, ds.length) := by
  induction ds with
  | nil =>
    intro acc
    cases rest with
    | nil => rfl
    | cons ch r => simp [read_digits, hrest ch (by simp)]
  | cons d ds ih =>
    intro acc
    have hd := digit_of_char_of_digit d (hds d (by simp))
    have ih1 := ih (fun e he => hds e (by simp [he])) (10 * acc + d)
    simp [read_digits, hd, ih1]

theorem foldl_digits_reverse (ds : List Nat) :
    ds.reverse.foldl (fun a d => 10 * a + d) 0 = Nat.ofDigits 10 ds := by
  induction ds with
  | nil => rfl
  | cons d ds ih =>
    rw [List.reverse_cons, List.foldl_append, ih, Nat.ofDigits_cons]
    simp [Nat.add_comm]

theorem strtof_decimal_fmt (n : Nat) (rest : List Char)
    (hrest : ∀ ch ∈ rest.head?, digit_of_char ch = none) :
    strtof_decimal (fmt_decimal n ++ rest) = (n, (fmt_decimal n).length) := by
  unfold strtof_decimal fmt_decimal
  by_cases hn : n = 0
  · subst hn
    have := read_digits_map [0] (by simp) rest hrest 0
    simpa [char_of_digit] using this
  · rw [if_neg hn, ← List.map_reverse,
      read_digits_map _ (fun d hd => Nat.digits_lt_base (by norm_num) (List.mem_reverse.mp hd))
        rest hrest 0,
      foldl_digits_reverse, Nat.ofDigits_digits]
    simp

theorem fmt_decimal_ne_nil (n : Nat) : fmt_decimal n ≠ [] := by
  unfold fmt_decimal
  by_cases hn : n = 0
  · simp [hn]
  · simp [hn, Nat.digits_ne_nil_iff_ne_zero]

theorem fmt_decimal_head (n : Nat) :
    ∀ ch ∈ (fmt_decimal n).head?, is_whitespace_char ch = false := by
  intro ch hch
  have hmem : ch ∈ fmt_decimal n := List.mem_of_mem_head? hch
  unfold fmt_decimal at hmem
  by_cases hn : n = 0
  · simp [hn] at hmem; subst hmem; decide
  · simp only [hn, if_false, List.mem_reverse, List.mem_map] at hmem
    obtain ⟨d, -, rfl⟩ := hmem
    exact char_of_digit_not_space d

/-- Decimal printing and the decimal `strtof` agree. -/
theorem numberFormat_decimal : NumberFormat strtof_decimal fmt_decimal := by
  intro n t
  exact ⟨⟨fmt_decimal_ne_nil n, fmt_decimal_head n,
      strtof_decimal_fmt n _ (by intro ch hch; simp at hch; subst hch; rfl)⟩,
    ⟨fmt_decimal_ne_nil n, fmt_decimal_head n,
      strtof_decimal_fmt n _ (by intro ch hch; simp at hch; subst hch; rfl)⟩⟩

end DecimalLemmas

/-! ## Claims on path construction and the simplified-SVG reader -/

section ReaderClaims

variable {F : Type} [Zero F]

/-- C1. Round trip of simplified SVG: take any path built from an empty path by
`M`, `L`, `H`, `V`, `Q`, `C`, `Z` instructions (through the path operations the
reader calls for them).  Emitting it as simplified-SVG text and reading that text
with `le_path_add_from_simplified_svg` into an empty path gives the same path
back: the same contours with the same commands (`H` and `V` are stored, and
emitted, as `L`).  The number printer and `strtof` are assumed to agree. -/
theorem svg_round_trip (strtof : List Char → F × Nat) (fmt : F → List Char)
    (hfmt : NumberFormat strtof fmt) (is : List (SvgInstruction F)) (self : le_path_o F)
    (hself : run_instructions (le_path_create F) is = some self) :
    le_path_add_from_simplified_svg strtof (le_path_create F) (emit_path fmt self)
      = some self := by
  have hcan : CanonicalPath self :=
    canonical_run_instructions is _ self (by intro s hs; simp [le_path_create] at hs) hself
  have hpoly := polylines_run_instructions is _ self hself
  rw [read_emit_canonical strtof fmt hfmt self hcan]
  cases self
  simp only [le_path_create] at hpoly
  subst hpoly
  rfl

/-- Witness of C1: decimal numbers, and a path with two contours built with all
seven instructions. -/
theorem svg_round_trip_witness :
    NumberFormat strtof_decimal fmt_decimal ∧
    run_instructions (le_path_create Nat) sample_instructions = some sample_path ∧
    emit_path fmt_decimal sample_path
      = "M 1,2 L 3,4 L 7,4 L 7,9 Q 10,11 12,13 Z M 20,0 C 1,2 3,4 5,6 ".toList ∧
    le_path_add_from_simplified_svg strtof_decimal (le_path_create Nat)
      (emit_path fmt_decimal sample_path) = some sample_path :=
  ⟨numberFormat_decimal, by decide, by decide!,
    svg_round_trip strtof_decimal fmt_decimal numberFormat_decimal sample_instructions
      sample_path (by decide)⟩

/-- C2. A text that begins with an `M` instruction and is a sequence of
well-formed `M`, `L`, `Q`, `C`, `Z` instructions (at least one white space
character, in the sense of `is_whitespace` and of the SVG grammar, after each
letter and between coordinate pairs) makes `le_path_add_from_simplified_svg` return
the path in which each `M` has opened a new contour and every other
instruction has added its command to the most recent contour; the commands of
the result are the old commands followed by exactly one command per
instruction, in textual order, each of the type of its letter. -/
theorem svg_one_command_per_instruction (strtof : List Char → F × Nat)
    (self : le_path_o F) (text : List Char) (p : Vertex F)
    (is : List (PlainInstruction F))
    (htext : SvgText strtof text ((.M p :: is).map PlainInstruction.toSvg)) :
    le_path_add_from_simplified_svg strtof self text
        = some ⟨described_contours self.contours (.M p :: is), self.polylines⟩ ∧
      all_commands (described_contours self.contours (.M p :: is))
        = all_commands self.contours ++ (.M p :: is).map instruction_command := by
  refine ⟨?_, all_commands_described _ _ (Or.inr ⟨p, is, rfl⟩)⟩
  rw [svg_text_run strtof text _ htext]
  exact run_instructions_plain _ self (Or.inr ⟨p, is, rfl⟩)

/-- Witness of C2: the text `M 1,2 L 3,4  Q 5,6 7,8 Z` read into an empty path. -/
theorem svg_one_command_per_instruction_witness :
    SvgText strtof_decimal "M 1,2 L 3,4  Q 5,6 7,8 Z".toList
      ((PlainInstruction.M ⟨1, 2⟩ :: [.L ⟨3, 4⟩, .Q ⟨5, 6⟩ ⟨7, 8⟩, .Z]).map
        PlainInstruction.toSvg) ∧
    (le_path_add_from_simplified_svg strtof_decimal (le_path_create Nat)
        "M 1,2 L 3,4  Q 5,6 7,8 Z".toList
        = some ⟨described_contours (le_path_create Nat).contours
            (.M ⟨1, 2⟩ :: [.L ⟨3, 4⟩, .Q ⟨5, 6⟩ ⟨7, 8⟩, .Z]), (le_path_create Nat).polylines⟩ ∧
      all_commands (described_contours (le_path_create Nat).contours
          (.M ⟨1, 2⟩ :: [.L ⟨3, 4⟩, .Q ⟨5, 6⟩ ⟨7, 8⟩, .Z]))
        = all_commands (le_path_create Nat).contours
            ++ (PlainInstruction.M ⟨1, 2⟩ :: [.L ⟨3, 4⟩, .Q ⟨5, 6⟩ ⟨7, 8⟩, .Z]).map
                instruction_command) :=
  have hws : IsWhitespace [' '] := isWhitespace_blank
  have htext : SvgText strtof_decimal "M 1,2 L 3,4  Q 5,6 7,8 Z".toList
      ((PlainInstruction.M ⟨1, 2⟩ :: [.L ⟨3, 4⟩, .Q ⟨5, 6⟩ ⟨7, 8⟩, .Z]).map
        PlainInstruction.toSvg) :=
    SvgText.M [' '] ['1', ',', '2'] ⟨1, 2⟩ _ _ hws
      ⟨['1'], ['2'], rfl, ⟨by decide, by decide, by decide⟩, ⟨by decide, by decide, by decide⟩⟩
      (SvgText.space ' ' _ _ (by decide)
        (SvgText.L [' '] ['3', ',', '4'] ⟨3, 4⟩ _ _ hws
          ⟨['3'], ['4'], rfl, ⟨by decide, by decide, by decide⟩,
            ⟨by decide, by decide, by decide⟩⟩
          (SvgText.space ' ' _ _ (by decide)
            (SvgText.space ' ' _ _ (by decide)
              (SvgText.Q [' '] ['5', ',', '6'] [' '] ['7', ',', '8'] ⟨5, 6⟩ ⟨7, 8⟩ _ _ hws
                ⟨['5'], ['6'], rfl, ⟨by decide, by decide, by decide⟩,
                  ⟨by decide, by decide, by decide⟩⟩
                hws
                ⟨['7'], ['8'], rfl, ⟨by decide, by decide, by decide⟩,
                  ⟨by decide, by decide, by decide⟩⟩
                (SvgText.space ' ' _ _ (by decide)
                  (SvgText.Z _ _ SvgText.done)))))))
  ⟨htext, svg_one_command_per_instruction strtof_decimal (le_path_create Nat) _ ⟨1, 2⟩
    [.L ⟨3, 4⟩, .Q ⟨5, 6⟩ ⟨7, 8⟩, .Z] htext⟩

end ReaderClaims

section ReaderClaims2

variable {F : Type} [Zero F]

/-- C3. Parameter order of curve instructions.  On a path whose most recent
contour is `last`, reading `C a b p` (three coordinate pairs) appends to `last`
the command `CubicBezierTo` with end point `p` (the third pair), control point 1
`a` (the first pair) and control point 2 `b` (the second pair); reading `Q c q`
appends `QuadBezierTo` with end point `q` (the second pair) and control point
`c` (the first pair). -/
theorem svg_curve_parameter_order (strtof : List Char → F × Nat) (self : le_path_o F)
    (init : List (Contour F)) (last : Contour F) (hself : self.contours = init ++ [last])
    (w1 s1 w2 s2 w3 s3 : List Char) (a b p : Vertex F)
    (hw1 : IsWhitespace w1) (hw2 : IsWhitespace w2) (hw3 : IsWhitespace w3)
    (hc1 : PairAt strtof s1 a (w2 ++ (s2 ++ (w3 ++ s3))))
    (hc2 : PairAt strtof s2 b (w3 ++ s3)) (hc3 : PairAt strtof s3 p [])
    (u1 t1 u2 t2 : List Char) (c q : Vertex F)
    (hu1 : IsWhitespace u1) (hu2 : IsWhitespace u2)
    (hq1 : PairAt strtof t1 c (u2 ++ t2)) (hq2 : PairAt strtof t2 q []) :
    le_path_add_from_simplified_svg strtof self
        ('C' :: (w1 ++ (s1 ++ (w2 ++ (s2 ++ (w3 ++ s3))))))
      = some ⟨init ++ [⟨last.commands ++ [⟨.eCubicBezierTo, p, a, b⟩]⟩], self.polylines⟩ ∧
    le_path_add_from_simplified_svg strtof self ('Q' :: (u1 ++ (t1 ++ (u2 ++ t2))))
      = some ⟨init ++ [⟨last.commands ++ [⟨.eQuadBezierTo, q, c, 0⟩]⟩], self.polylines⟩ := by
  constructor
  · have h := svg_text_run strtof _ _
      (SvgText.C w1 s1 w2 s2 w3 s3 a b p [] [] hw1 (by simpa using hc1) hw2
        (by simpa using hc2) hw3 hc3 SvgText.done) self
    simp only [List.append_nil] at h
    rw [h]
    simp [run_instructions, run_instruction,
      le_path_cubic_bezier_to_append self init last p a b hself]
  · have h := svg_text_run strtof _ _
      (SvgText.Q u1 t1 u2 t2 c q [] [] hu1 (by simpa using hq1) hu2 hq2 SvgText.done) self
    simp only [List.append_nil] at h
    rw [h]
    simp [run_instructions, run_instruction,
      le_path_quad_bezier_to_append self init last q c hself]

/-- Witness of C3: the texts `C 1,2 3,4 5,6` and `Q 7,8 9,0` read after `M 0,0`. -/
theorem svg_curve_parameter_order_witness :
    le_path_add_from_simplified_svg strtof_decimal
        (le_path_move_to (le_path_create Nat) ⟨0, 0⟩) "C 1,2 3,4 5,6".toList
      = some ⟨[⟨[⟨.eMoveTo, ⟨0, 0⟩, 0, 0⟩, ⟨.eCubicBezierTo, ⟨5, 6⟩, ⟨1, 2⟩, ⟨3, 4⟩⟩]⟩], []⟩ ∧
    le_path_add_from_simplified_svg strtof_decimal
        (le_path_move_to (le_path_create Nat) ⟨0, 0⟩) "Q 7,8 9,0".toList
      = some ⟨[⟨[⟨.eMoveTo, ⟨0, 0⟩, 0, 0⟩, ⟨.eQuadBezierTo, ⟨9, 0⟩, ⟨7, 8⟩, 0⟩]⟩], []⟩ :=
  svg_curve_parameter_order strtof_decimal (le_path_move_to (le_path_create Nat) ⟨0, 0⟩)
    [] ⟨[⟨.eMoveTo, ⟨0, 0⟩, 0, 0⟩]⟩ rfl
    [' '] ['1', ',', '2'] [' '] ['3', ',', '4'] [' '] ['5', ',', '6'] ⟨1, 2⟩ ⟨3, 4⟩ ⟨5, 6⟩
    isWhitespace_blank isWhitespace_blank isWhitespace_blank
    ⟨['1'], ['2'], rfl, ⟨by decide, by decide, by decide⟩, ⟨by decide, by decide, by decide⟩⟩
    ⟨['3'], ['4'], rfl, ⟨by decide, by decide, by decide⟩, ⟨by decide, by decide, by decide⟩⟩
    ⟨['5'], ['6'], rfl, ⟨by decide, by decide, by decide⟩, ⟨by decide, by decide, by decide⟩⟩
    [' '] ['7', ',', '8'] [' '] ['9', ',', '0'] ⟨7, 8⟩ ⟨9, 0⟩
    isWhitespace_blank isWhitespace_blank
    ⟨['7'], ['8'], rfl, ⟨by decide, by decide, by decide⟩, ⟨by decide, by decide, by decide⟩⟩
    ⟨['9'], ['0'], rfl, ⟨by decide, by decide, by decide⟩, ⟨by decide, by decide, by decide⟩⟩

omit [Zero F] in
theorem le_path_get_previous_p_append (self : le_path_o F) (init : List (Contour F))
    (last : Contour F) (cmds : List (PathCommand F)) (c : PathCommand F)
    (hself : self.contours = init ++ [last]) (hlast : last.commands = cmds ++ [c])
    (htype : c.type = .eMoveTo ∨ c.type = .eLineTo ∨ c.type = .eQuadBezierTo ∨
      c.type = .eCubicBezierTo) :
    le_path_get_previous_p self = some (some c.p) := by
  have h1 : (init ++ [last]).getLast? = some last := by simp
  have h2 : (cmds ++ [c]).getLast? = some c := by simp
  simp only [le_path_get_previous_p, hself, hlast, h1, h2]
  rcases htype with h | h | h | h <;> simp [h]

/-- C4. `H` and `V` are absolute horizontal and vertical line-to commands: when
the last command `c` of the current contour is `MoveTo`, `LineTo`,
`QuadBezierTo` or `CubicBezierTo` with end point `(px, py)`, then
`le_path_line_horiz_to` with `x`, and reading `H x`, append `LineTo (x, py)` to the
current contour, and `le_path_line_vert_to` with `y`, and reading `V y`, append
`LineTo (px, y)`. -/
theorem line_horiz_vert_to_absolute (strtof : List Char → F × Nat) (self : le_path_o F)
    (init : List (Contour F)) (last : Contour F) (cmds : List (PathCommand F))
    (c : PathCommand F) (px py x y : F)
    (hself : self.contours = init ++ [last]) (hlast : last.commands = cmds ++ [c])
    (htype : c.type = .eMoveTo ∨ c.type = .eLineTo ∨ c.type = .eQuadBezierTo ∨
      c.type = .eCubicBezierTo)
    (hp : c.p = ⟨px, py⟩)
    (w sx sy : List Char) (hw : IsWhitespace w)
    (hx : NumberAt strtof sx x []) (hy : NumberAt strtof sy y []) :
    le_path_line_horiz_to self x
        = some ⟨init ++ [⟨last.commands ++ [⟨.eLineTo, ⟨x, py⟩, 0, 0⟩]⟩], self.polylines⟩ ∧
      le_path_add_from_simplified_svg strtof self ('H' :: (w ++ sx))
        = some ⟨init ++ [⟨last.commands ++ [⟨.eLineTo, ⟨x, py⟩, 0, 0⟩]⟩], self.polylines⟩ ∧
      le_path_line_vert_to self y
        = some ⟨init ++ [⟨last.commands ++ [⟨.eLineTo, ⟨px, y⟩, 0, 0⟩]⟩], self.polylines⟩ ∧
      le_path_add_from_simplified_svg strtof self ('V' :: (w ++ sy))
        = some ⟨init ++ [⟨last.commands ++ [⟨.eLineTo, ⟨px, y⟩, 0, 0⟩]⟩], self.polylines⟩ := by
  have hprev := le_path_get_previous_p_append self init last cmds c hself hlast htype
  have hH : le_path_line_horiz_to self x
      = some ⟨init ++ [⟨last.commands ++ [⟨.eLineTo, ⟨x, py⟩, 0, 0⟩]⟩], self.polylines⟩ := by
    simp only [le_path_line_horiz_to, hprev, hp]
    rw [le_path_line_to_append self init last _ hself]
  have hV : le_path_line_vert_to self y
      = some ⟨init ++ [⟨last.commands ++ [⟨.eLineTo, ⟨px, y⟩, 0, 0⟩]⟩], self.polylines⟩ := by
    simp only [le_path_line_vert_to, hprev, hp]
    rw [le_path_line_to_append self init last _ hself]
  refine ⟨hH, ?_, hV, ?_⟩
  · have h := svg_text_run strtof _ _ (SvgText.H w sx x [] [] hw hx SvgText.done) self
    simp only [List.append_nil] at h
    rw [h]
    simp [run_instructions, run_instruction, hH]
  · have h := svg_text_run strtof _ _ (SvgText.V w sy y [] [] hw hy SvgText.done) self
    simp only [List.append_nil] at h
    rw [h]
    simp [run_instructions, run_instruction, hV]

/-- Witness of C4: `H 7` and `V 9` after `M 1,2 L 3,4`. -/
theorem line_horiz_vert_to_absolute_witness :
    le_path_line_horiz_to (⟨[⟨[⟨.eMoveTo, ⟨1, 2⟩, 0, 0⟩, ⟨.eLineTo, ⟨3, 4⟩, 0, 0⟩]⟩], []⟩ :
        le_path_o Nat) 7
      = some ⟨[⟨[⟨.eMoveTo, ⟨1, 2⟩, 0, 0⟩, ⟨.eLineTo, ⟨3, 4⟩, 0, 0⟩,
                 ⟨.eLineTo, ⟨7, 4⟩, 0, 0⟩]⟩], []⟩ ∧
    le_path_add_from_simplified_svg strtof_decimal
        ⟨[⟨[⟨.eMoveTo, ⟨1, 2⟩, 0, 0⟩, ⟨.eLineTo, ⟨3, 4⟩, 0, 0⟩]⟩], []⟩ "H 7".toList
      = some ⟨[⟨[⟨.eMoveTo, ⟨1, 2⟩, 0, 0⟩, ⟨.eLineTo, ⟨3, 4⟩, 0, 0⟩,
                 ⟨.eLineTo, ⟨7, 4⟩, 0, 0⟩]⟩], []⟩ ∧
    le_path_line_vert_to (⟨[⟨[⟨.eMoveTo, ⟨1, 2⟩, 0, 0⟩, ⟨.eLineTo, ⟨3, 4⟩, 0, 0⟩]⟩], []⟩ :
        le_path_o Nat) 9
      = some ⟨[⟨[⟨.eMoveTo, ⟨1, 2⟩, 0, 0⟩, ⟨.eLineTo, ⟨3, 4⟩, 0, 0⟩,
                 ⟨.eLineTo, ⟨3, 9⟩, 0, 0⟩]⟩], []⟩ ∧
    le_path_add_from_simplified_svg strtof_decimal
        ⟨[⟨[⟨.eMoveTo, ⟨1, 2⟩, 0, 0⟩, ⟨.eLineTo, ⟨3, 4⟩, 0, 0⟩]⟩], []⟩ "V 9".toList
      = some ⟨[⟨[⟨.eMoveTo, ⟨1, 2⟩, 0, 0⟩, ⟨.eLineTo, ⟨3, 4⟩, 0, 0⟩,
                 ⟨.eLineTo, ⟨3, 9⟩, 0, 0⟩]⟩], []⟩ :=
  line_horiz_vert_to_absolute strtof_decimal
    ⟨[⟨[⟨.eMoveTo, ⟨1, 2⟩, 0, 0⟩, ⟨.eLineTo, ⟨3, 4⟩, 0, 0⟩]⟩], []⟩
    [] ⟨[⟨.eMoveTo, ⟨1, 2⟩, 0, 0⟩, ⟨.eLineTo, ⟨3, 4⟩, 0, 0⟩]⟩ [⟨.eMoveTo, ⟨1, 2⟩, 0, 0⟩]
    ⟨.eLineTo, ⟨3, 4⟩, 0, 0⟩ 3 4 7 9 rfl rfl (Or.inr (Or.inl rfl)) rfl
    [' '] ['7'] ['9'] isWhitespace_blank
    ⟨by decide, by decide, by decide⟩ ⟨by decide, by decide, by decide⟩

/-- C5. Contour invariant: in every path reachable from an empty path through
`move_to`, `line_to`, `line_horiz_to`, `line_vert_to`, `quad_bezier_to`,
`cubic_bezier_to`, `close` and `add_from_simplified_svg` (each returning a path,
that is, called with a contour present where it asserts one), every contour is
non-empty, its first command is `MoveTo`, and none of its later commands is
`MoveTo`. -/
theorem contour_invariant (self : le_path_o F) (h : Reachable self) :
    ∀ s ∈ self.contours, s.commands ≠ [] ∧
      (∀ c ∈ s.commands.head?, c.type = .eMoveTo) ∧
      ∀ c ∈ s.commands.tail, c.type ≠ .eMoveTo := by
  intro s hs
  obtain ⟨p, rest, hcmd, hrest⟩ := canonical_of_reachable self h s hs
  rw [hcmd]
  refine ⟨by simp, ?_, ?_⟩
  · intro c hc
    simp only [List.head?_cons, Option.mem_def, Option.some.injEq] at hc
    subst hc
    rfl
  · intro c hc
    exact (hrest c hc).1

/-- Witness of C5: the path reached by `line_to` on the empty path, then
`quad_bezier_to`, then reading `Z M 5,6 L 7,8`, then `close`. -/
theorem contour_invariant_witness :
    Reachable (⟨[⟨[⟨.eMoveTo, 0, 0, 0⟩, ⟨.eLineTo, ⟨1, 2⟩, 0, 0⟩,
                   ⟨.eQuadBezierTo, ⟨3, 4⟩, ⟨1, 1⟩, 0⟩, ⟨.eClosePath, 0, 0, 0⟩]⟩,
                 ⟨[⟨.eMoveTo, ⟨5, 6⟩, 0, 0⟩, ⟨.eLineTo, ⟨7, 8⟩, 0, 0⟩,
                   ⟨.eClosePath, 0, 0, 0⟩]⟩], []⟩ : le_path_o Nat) ∧
    ∀ s ∈ (⟨[⟨[⟨.eMoveTo, 0, 0, 0⟩, ⟨.eLineTo, ⟨1, 2⟩, 0, 0⟩,
                ⟨.eQuadBezierTo, ⟨3, 4⟩, ⟨1, 1⟩, 0⟩, ⟨.eClosePath, 0, 0, 0⟩]⟩,
              ⟨[⟨.eMoveTo, ⟨5, 6⟩, 0, 0⟩, ⟨.eLineTo, ⟨7, 8⟩, 0, 0⟩,
                ⟨.eClosePath, 0, 0, 0⟩]⟩], []⟩ : le_path_o Nat).contours,
      s.commands ≠ [] ∧
      (∀ c ∈ s.commands.head?, c.type = .eMoveTo) ∧
      ∀ c ∈ s.commands.tail, c.type ≠ .eMoveTo :=
  have hreach : Reachable (⟨[⟨[⟨.eMoveTo, 0, 0, 0⟩, ⟨.eLineTo, ⟨1, 2⟩, 0, 0⟩,
                   ⟨.eQuadBezierTo, ⟨3, 4⟩, ⟨1, 1⟩, 0⟩, ⟨.eClosePath, 0, 0, 0⟩]⟩,
                 ⟨[⟨.eMoveTo, ⟨5, 6⟩, 0, 0⟩, ⟨.eLineTo, ⟨7, 8⟩, 0, 0⟩,
                   ⟨.eClosePath, 0, 0, 0⟩]⟩], []⟩ : le_path_o Nat) :=
    Reachable.close _ _
      (Reachable.add_from_simplified_svg strtof_decimal _
        ⟨[⟨[⟨.eMoveTo, 0, 0, 0⟩, ⟨.eLineTo, ⟨1, 2⟩, 0, 0⟩,
             ⟨.eQuadBezierTo, ⟨3, 4⟩, ⟨1, 1⟩, 0⟩, ⟨.eClosePath, 0, 0, 0⟩]⟩,
           ⟨[⟨.eMoveTo, ⟨5, 6⟩, 0, 0⟩, ⟨.eLineTo, ⟨7, 8⟩, 0, 0⟩]⟩], []⟩
        "Z M 5,6 L 7,8".toList
        (Reachable.quad_bezier_to _
          ⟨[⟨[⟨.eMoveTo, 0, 0, 0⟩, ⟨.eLineTo, ⟨1, 2⟩, 0, 0⟩,
               ⟨.eQuadBezierTo, ⟨3, 4⟩, ⟨1, 1⟩, 0⟩]⟩], []⟩ ⟨3, 4⟩ ⟨1, 1⟩
          (Reachable.line_to _ ⟨1, 2⟩ Reachable.create) (by decide))
        (by decide))
      (by decide)
  ⟨hreach, contour_invariant _ hreach⟩

end ReaderClaims2

/-! ## Tracing and flattening: one polyline per contour -/

section TraceLemmas

variable {F : Type} [FloatArith F]

theorem started_trace_move_to (q : Polyline F) (p : Vertex F)
    (h : q.vertices.length = q.distances.length) : (trace_move_to q p).Started := by
  simp [Polyline.Started, trace_move_to, h]

theorem started_trace_line_to (q : Polyline F) (p : Vertex F) (h : q.Started) :
    ∃ r, trace_line_to q p = some r ∧ r.Started := by
  obtain ⟨hne, hlen⟩ := h
  obtain ⟨init, last, hv⟩ := exists_append_of_ne_nil _ hne
  have hlast : q.vertices.getLast? = some last := by simp [hv]
  simp only [trace_line_to, hlast]
  split
  · exact ⟨q, rfl, hne, hlen⟩
  · exact ⟨_, rfl, by simp, by simp [hlen]⟩

theorem started_trace_close_path (q : Polyline F) (h : q.Started) :
    ∃ r, trace_close_path q = some r ∧ r.Started := by
  obtain ⟨v, vs, hv⟩ := List.exists_cons_of_ne_nil h.1
  simp only [trace_close_path, hv, List.head?_cons]
  exact started_trace_line_to q v h

theorem started_quad_fold (p0 p1 c1 : Vertex F) (delta_t : F) (l : List Nat) :
    ∀ st : Polyline F × Vertex F, st.1.Started →
      (l.foldl (trace_quad_bezier_step p0 p1 c1 delta_t) st).1.Started := by
  induction l with
  | nil => intro st h; exact h
  | cons i l ih =>
    intro st h
    rw [List.foldl_cons]
    apply ih
    exact ⟨by simp [trace_quad_bezier_step], by simp [trace_quad_bezier_step, h.2]⟩

theorem started_cubic_fold (p0 p1 c1 c2 : Vertex F) (delta_t : F) (l : List Nat) :
    ∀ st : Polyline F × Vertex F, st.1.Started →
      (l.foldl (trace_cubic_bezier_step p0 p1 c1 c2 delta_t) st).1.Started := by
  induction l with
  | nil => intro st h; exact h
  | cons i l ih =>
    intro st h
    rw [List.foldl_cons]
    apply ih
    exact ⟨by simp [trace_cubic_bezier_step], by simp [trace_cubic_bezier_step, h.2]⟩

theorem started_trace_quad_bezier_to (q : Polyline F) (p1 c1 : Vertex F) (resolution : Nat)
    (h : q.Started) : ∃ r, trace_quad_bezier_to q p1 c1 resolution = some r ∧ r.Started := by
  unfold trace_quad_bezier_to
  split
  · exact ⟨q, rfl, h⟩
  · split
    · exact started_trace_line_to q p1 h
    · obtain ⟨init, last, hv⟩ := exists_append_of_ne_nil _ h.1
      have hlast : q.vertices.getLast? = some last := by simp [hv]
      simp only [hlast]
      exact ⟨_, rfl, started_quad_fold _ _ _ _ _ _ h⟩

theorem started_trace_cubic_bezier_to (q : Polyline F) (p1 c1 c2 : Vertex F)
    (resolution : Nat) (h : q.Started) :
    ∃ r, trace_cubic_bezier_to q p1 c1 c2 resolution = some r ∧ r.Started := by
  unfold trace_cubic_bezier_to
  split
  · exact ⟨q, rfl, h⟩
  · split
    · exact started_trace_line_to q p1 h
    · obtain ⟨init, last, hv⟩ := exists_append_of_ne_nil _ h.1
      have hlast : q.vertices.getLast? = some last := by simp [hv]
      simp only [hlast]
      exact ⟨_, rfl, started_cubic_fold _ _ _ _ _ _ _ h⟩

theorem started_trace_command (resolution : Nat) (q : Polyline F) (c : PathCommand F)
    (h : q.Started) (hc : c.type ≠ .eUnknown) :
    ∃ r, trace_command resolution q c = some r ∧ r.Started := by
  unfold trace_command
  split
  · exact ⟨_, rfl, started_trace_move_to q c.p h.2⟩
  · exact started_trace_line_to q c.p h
  · exact started_trace_quad_bezier_to q c.p c.c1 resolution h
  · exact started_trace_cubic_bezier_to q c.p c.c1 c.c2 resolution h
  · exact started_trace_close_path q h
  · rename_i hu; exact absurd hu hc

theorem started_trace_commands (resolution : Nat) (cs : List (PathCommand F)) :
    ∀ q : Polyline F, q.Started → (∀ c ∈ cs, c.type ≠ .eUnknown) →
      ∃ r, trace_commands resolution q cs = some r ∧ r.Started := by
  induction cs with
  | nil => intro q h _; exact ⟨q, rfl, h⟩
  | cons c cs ih =>
    intro q h hcs
    obtain ⟨r, hr, hs⟩ := started_trace_command resolution q c h (hcs c (by simp))
    obtain ⟨r2, hr2, hs2⟩ := ih r hs (fun d hd => hcs d (by simp [hd]))
    exact ⟨r2, by simp [trace_commands, hr, hr2], hs2⟩

/-- Tracing a contour that begins with `MoveTo` and has no `eUnknown` command
returns a polyline, and the closing assertion of the loop holds for it. -/
theorem trace_commands_contour (resolution : Nat) (s : Contour F)
    (hs : (∃ m rest, s.commands = m :: rest ∧ m.type = .eMoveTo) ∧
      ∀ c ∈ s.commands, c.type ≠ .eUnknown) :
    ∃ r, trace_commands resolution Polyline.empty s.commands = some r ∧
      r.vertices.length = r.distances.length := by
  obtain ⟨⟨m, rest, hcmd, hm⟩, hall⟩ := hs
  rw [hcmd] at hall ⊢
  have h1 : trace_command resolution Polyline.empty m
      = some (trace_move_to Polyline.empty m.p) := by
    simp [trace_command, hm]
  obtain ⟨r, hr, hst⟩ := started_trace_commands resolution rest
    (trace_move_to Polyline.empty m.p) (started_trace_move_to _ _ rfl)
    (fun c hc => hall c (by simp [hc]))
  exact ⟨r, by simp [trace_commands, h1, hr], hst.2⟩

theorem trace_contours_spec (resolution : Nat) (cs : List (Contour F)) :
    ∀ acc : List (Polyline F),
      (∀ s ∈ cs, ∃ r, trace_commands resolution Polyline.empty s.commands = some r ∧
        r.vertices.length = r.distances.length) →
      ∃ qs, trace_contours resolution acc cs = some (acc ++ qs) ∧ qs.length = cs.length ∧
        ∀ (i : Nat) (s : Contour F), cs[i]? = some s →
          qs[i]? = trace_commands resolution Polyline.empty s.commands := by
  induction cs with
  | nil => intro acc _; exact ⟨[], by simp [trace_contours], rfl, by simp⟩
  | cons s cs ih =>
    intro acc h
    obtain ⟨r, hr, hlen⟩ := h s (by simp)
    obtain ⟨qs, hqs, hl, hi⟩ := ih (acc ++ [r]) (fun t ht => h t (by simp [ht]))
    refine ⟨r :: qs, by simp [trace_contours, hr, hlen, hqs], by simp [hl], ?_⟩
    intro i t hit
    cases i with
    | zero =>
      simp only [List.getElem?_cons_zero, Option.some.injEq] at hit ⊢
      subst hit
      exact hr.symm
    | succ i =>
      simp only [List.getElem?_cons_succ] at hit ⊢
      exact hi i t hit

theorem flatten_contours_spec (fuel : Nat) (tolerance : F) (cs : List (Contour F)) :
    ∀ (acc out : List (Polyline F)), flatten_contours fuel tolerance acc cs = some out →
      ∃ qs, out = acc ++ qs ∧ qs.length = cs.length ∧
        ∀ (i : Nat) (s : Contour F), cs[i]? = some s →
          qs[i]? = flatten_commands fuel tolerance Polyline.empty s.commands := by
  induction cs with
  | nil =>
    intro acc out h
    simp only [flatten_contours, Option.some.injEq] at h
    exact ⟨[], by simp [h], rfl, by simp⟩
  | cons s cs ih =>
    intro acc out h
    simp only [flatten_contours] at h
    cases hr : flatten_commands fuel tolerance Polyline.empty s.commands with
    | none => simp [hr] at h
    | some r =>
      simp only [hr] at h
      split at h
      · obtain ⟨qs, hqs, hl, hi⟩ := ih (acc ++ [r]) out h
        refine ⟨r :: qs, by simp [hqs], by simp [hl], ?_⟩
        intro i t hit
        cases i with
        | zero =>
          simp only [List.getElem?_cons_zero, Option.some.injEq] at hit ⊢
          subst hit
          exact hr.symm
        | succ i =>
          simp only [List.getElem?_cons_succ] at hit ⊢
          exact hi i t hit
      · simp at h

end TraceLemmas

section FuelLemmas

variable {F : Type} [FloatArith F]

theorem flatten_cubic_bezier_loop_mono (toi : F) :
    ∀ (n m : Nat) (b : Bezier4 F) (p_prev : Vertex F) (q r : Polyline F), n ≤ m →
      flatten_cubic_bezier_loop toi n b p_prev q = some r →
      flatten_cubic_bezier_loop toi m b p_prev q = some r := by
  intro n
  induction n with
  | zero => intro m b p_prev q r _ h; simp [flatten_cubic_bezier_loop] at h
  | succ n ih =>
    intro m b p_prev q r hnm h
    cases m with
    | zero => omega
    | succ m =>
      rw [flatten_cubic_bezier_loop] at h ⊢
      simp only at h ⊢
      split
      · rename_i ht
        rw [if_pos ht] at h
        exact h
      · rename_i ht
        rw [if_neg ht] at h
        exact ih m _ _ _ _ (by omega) h

theorem flatten_cubic_bezier_to_mono (n m : Nat) (hnm : n ≤ m) (q r : Polyline F)
    (p1 c1 c2 : Vertex F) (tolerance : F)
    (h : flatten_cubic_bezier_to n q p1 c1 c2 tolerance = some r) :
    flatten_cubic_bezier_to m q p1 c1 c2 tolerance = some r := by
  unfold flatten_cubic_bezier_to at h ⊢
  split
  · rename_i hv; rw [hv] at h; exact h
  · rename_i p0 hv
    rw [hv] at h
    exact flatten_cubic_bezier_loop_mono _ n m _ _ _ _ hnm h

theorem flatten_command_mono (n m : Nat) (hnm : n ≤ m) (tolerance : F) (q r : Polyline F)
    (c : PathCommand F) (h : flatten_command n tolerance q c = some r) :
    flatten_command m tolerance q c = some r := by
  unfold flatten_command at h ⊢
  split <;> rename_i hc <;> simp only [hc] at h
  · exact h
  · exact h
  · exact flatten_cubic_bezier_to_mono n m hnm _ _ _ _ _ _ h
  · exact flatten_cubic_bezier_to_mono n m hnm _ _ _ _ _ _ h
  · exact h
  · exact h

theorem flatten_commands_mono (n m : Nat) (hnm : n ≤ m) (tolerance : F)
    (cs : List (PathCommand F)) :
    ∀ q r : Polyline F, flatten_commands n tolerance q cs = some r →
      flatten_commands m tolerance q cs = some r := by
  induction cs with
  | nil => intro q r h; exact h
  | cons c cs ih =>
    intro q r h
    rw [flatten_commands] at h ⊢
    cases h1 : flatten_command n tolerance q c with
    | none => simp [h1] at h
    | some q1 =>
      rw [h1, Option.some_bind] at h
      rw [flatten_command_mono n m hnm tolerance q q1 c h1, Option.some_bind]
      exact ih q1 r h

theorem flatten_contours_mono (n m : Nat) (hnm : n ≤ m) (tolerance : F)
    (cs : List (Contour F)) :
    ∀ acc out : List (Polyline F), flatten_contours n tolerance acc cs = some out →
      flatten_contours m tolerance acc cs = some out := by
  induction cs with
  | nil => intro acc out h; exact h
  | cons s cs ih =>
    intro acc out h
    rw [flatten_contours] at h ⊢
    cases h1 : flatten_commands n tolerance Polyline.empty s.commands with
    | none => simp [h1] at h
    | some q1 =>
      simp only [h1] at h
      simp only [flatten_commands_mono n m hnm tolerance _ _ _ h1]
      split at h
      · rename_i hl
        rw [if_pos hl]
        exact ih _ _ h
      · simp at h

/-- More fuel does not change what `le_path_flatten_path` returns. -/
theorem le_path_flatten_path_mono (n m : Nat) (hnm : n ≤ m) (self out : le_path_o F)
    (tolerance : F) (h : le_path_flatten_path n self tolerance = some out) :
    le_path_flatten_path m self tolerance = some out := by
  simp only [le_path_flatten_path, Option.map_eq_some'] at h ⊢
  obtain ⟨ps, hps, rfl⟩ := h
  exact ⟨ps, flatten_contours_mono n m hnm tolerance _ _ _ hps, rfl⟩

end FuelLemmas

section TraceClaims

variable {F : Type} [FloatArith F]

/-- One polyline per contour.  For a path whose contours begin with `MoveTo`
and hold no `eUnknown` command, `le_path_trace_path` returns, for any
resolution, the path with the same contours and with as many polylines as
contours, polyline `i` being the trace of the commands of contour `i` alone,
started from an empty polyline.  Whenever `le_path_flatten_path` returns within
`fuel` turns per curve, it returns the same path with any larger bound, and
that path has the same shape, with polyline `i` the flattening of contour `i`
alone. -/
theorem polylines_of_contours (self : le_path_o F) (resolution fuel : Nat) (tolerance : F)
    (hself : ∀ s ∈ self.contours,
      (∃ m rest, s.commands = m :: rest ∧ m.type = .eMoveTo) ∧
        ∀ c ∈ s.commands, c.type ≠ .eUnknown) :
    (∃ polylines, le_path_trace_path self resolution = some ⟨self.contours, polylines⟩ ∧
      polylines.length = self.contours.length ∧
      ∀ (i : Nat) (s : Contour F), self.contours[i]? = some s →
        polylines[i]? = trace_commands resolution Polyline.empty s.commands) ∧
    (∀ flattened, le_path_flatten_path fuel self tolerance = some flattened →
      (∀ more, fuel ≤ more → le_path_flatten_path more self tolerance = some flattened) ∧
      flattened.contours = self.contours ∧
      flattened.polylines.length = self.contours.length ∧
      ∀ (i : Nat) (s : Contour F), self.contours[i]? = some s →
        flattened.polylines[i]? = flatten_commands fuel tolerance Polyline.empty s.commands) := by
  constructor
  · obtain ⟨qs, hqs, hl, hi⟩ := trace_contours_spec resolution self.contours []
      (fun s hs => trace_commands_contour resolution s (hself s hs))
    exact ⟨qs, by simp [le_path_trace_path, hqs], hl, hi⟩
  · intro flattened hf
    have hmono : ∀ more, fuel ≤ more →
        le_path_flatten_path more self tolerance = some flattened :=
      fun more hm => le_path_flatten_path_mono fuel more hm self flattened tolerance hf
    simp only [le_path_flatten_path, Option.map_eq_some'] at hf
    obtain ⟨out, hout, rfl⟩ := hf
    obtain ⟨qs, rfl, hl, hi⟩ := flatten_contours_spec fuel tolerance self.contours [] out hout
    exact ⟨hmono, rfl, by simpa using hl, by simpa using hi⟩

end TraceClaims

/-! ## Claims on `le_shader_binding_info` -/

section BindingClaims

open le_shader_binding_info

theorem bit_offset_values :
    BindingField.bit_offset .dynamic_offset_idx = 0 ∧ BindingField.bit_offset .stage_bits = 8 ∧
    BindingField.bit_offset .range = 14 ∧ BindingField.bit_offset .type = 41 ∧
    BindingField.bit_offset .count = 45 ∧ BindingField.bit_offset .binding = 53 ∧
    BindingField.bit_offset .setIndex = 61 := by decide

theorem setIndex_eq (info : le_shader_binding_info) : info.setIndex = info.data / 2 ^ 61 := by
  have h := info.data_lt
  simp only [setIndex, le_shader_binding_info.get, bit_offset_values, BindingField.width]
  norm_num at h ⊢
  omega

theorem binding_eq (info : le_shader_binding_info) :
    info.binding = (info.data / 2 ^ 53) % 2 ^ 8 := by
  simp only [binding, le_shader_binding_info.get, bit_offset_values, BindingField.width]

/-- C7. Comparison on the packed word yields (set, binding) ascending order:
if `(a.setIndex, a.binding)` is lexicographically smaller than
`(b.setIndex, b.binding)` then `a < b` under `operator <`, that is
`a.data < b.data`, and `b < a` does not hold, whatever the other members
hold. -/
theorem operator_lt_of_set_binding_lt (a b : le_shader_binding_info)
    (h : a.setIndex < b.setIndex ∨ (a.setIndex = b.setIndex ∧ a.binding < b.binding)) :
    a.operator_lt b = true ∧ b.operator_lt a = false ∧ a.data < b.data := by
  have ha := a.data_lt
  have hb := b.data_lt
  rw [setIndex_eq, setIndex_eq, binding_eq, binding_eq] at h
  simp only [operator_lt, decide_eq_true_eq, decide_eq_false_iff_not, not_lt]
  norm_num at h ha hb ⊢
  omega

/-- Witness of C7: set 1, binding 200, all other members at their largest
values, against set 2, binding 3, all other members zero. -/
theorem operator_lt_of_set_binding_lt_witness :
    (sample_info_a.setIndex < sample_info_b.setIndex ∨
      (sample_info_a.setIndex = sample_info_b.setIndex ∧
        sample_info_a.binding < sample_info_b.binding)) ∧
    (sample_info_a.operator_lt sample_info_b = true ∧
      sample_info_b.operator_lt sample_info_a = false ∧
      sample_info_a.data < sample_info_b.data) :=
  ⟨Or.inl (by decide),
    operator_lt_of_set_binding_lt sample_info_a sample_info_b (Or.inl (by decide))⟩

end BindingClaims

section BindingClaims2

open le_shader_binding_info

/-- C8, as stated, fails: the low-order bits of `data` do not hold `binding`
and `setIndex`.  The record with binding 5 in set 3 and the record with
binding 0 in set 0 (all other members zero) agree in the 11 low-order bits of
`data`, so these bits do not determine `binding` and `setIndex`. -/
theorem low_bits_are_not_set_binding :
    ¬ ∀ a b : le_shader_binding_info, a.data % 2 ^ 11 = b.data % 2 ^ 11 →
      a.binding = b.binding ∧ a.setIndex = b.setIndex := by
  intro h
  have := h sample_info_c sample_info_zero (by decide)
  revert this
  decide

/-- C8, amended.  With the members placed low to high in declaration order,
`binding` and `setIndex` occupy the 11 high-order bits of `data`: `binding`
starts at bit 53 and is bits 53 to 60, `setIndex` starts at bit 61 and is bits
61 to 63, and the 11 high-order bits read as a number are
`setIndex * 2 ^ 8 + binding`. -/
theorem set_binding_in_high_bits (info : le_shader_binding_info) :
    BindingField.bit_offset .binding = 53 ∧ BindingField.bit_offset .setIndex = 61 ∧
    info.binding = (info.data / 2 ^ 53) % 2 ^ 8 ∧
    info.setIndex = info.data / 2 ^ 61 ∧
    info.data / 2 ^ 53 = info.setIndex * 2 ^ 8 + info.binding := by
  refine ⟨by decide, by decide, binding_eq info, setIndex_eq info, ?_⟩
  have h := info.data_lt
  rw [setIndex_eq, binding_eq]
  norm_num at h ⊢
  omega

theorem pack_word_eq (v : BindingField → Nat) :
    pack_word v = v .dynamic_offset_idx % 2 ^ 8 + v .stage_bits % 2 ^ 6 * 2 ^ 8
      + v .range % 2 ^ 27 * 2 ^ 14 + v .type % 2 ^ 4 * 2 ^ 41 + v .count % 2 ^ 8 * 2 ^ 45
      + v .binding % 2 ^ 8 * 2 ^ 53 + v .setIndex % 2 ^ 3 * 2 ^ 61 := by
  simp only [pack_word, BindingField.declared, List.map_cons, List.map_nil, List.sum_cons,
    List.sum_nil, bit_offset_values, BindingField.width]
  ring

theorem pack_word_lt (v : BindingField → Nat) : pack_word v < 2 ^ 64 := by
  rw [pack_word_eq]
  have h0 := Nat.mod_lt (v .dynamic_offset_idx) (show 0 < 2 ^ 8 by norm_num)
  have h1 := Nat.mod_lt (v .stage_bits) (show 0 < 2 ^ 6 by norm_num)
  have h2 := Nat.mod_lt (v .range) (show 0 < 2 ^ 27 by norm_num)
  have h3 := Nat.mod_lt (v .type) (show 0 < 2 ^ 4 by norm_num)
  have h4 := Nat.mod_lt (v .count) (show 0 < 2 ^ 8 by norm_num)
  have h5 := Nat.mod_lt (v .binding) (show 0 < 2 ^ 8 by norm_num)
  have h6 := Nat.mod_lt (v .setIndex) (show 0 < 2 ^ 3 by norm_num)
  norm_num at h0 h1 h2 h3 h4 h5 h6 ⊢
  omega

/-- C9. `le_shader_binding_info` is a packed 64-bit record: the widths of the
seven bit-field members are setIndex 3, binding 8, count 8, type 4, range 27,
stage_bits 6, dynamic_offset_idx 8 and sum to 64; every member value below two
to the width of its member is read back unchanged after being packed with the
others (no overlap); and every 64-bit word is the packing of the members read
from it (no gap). -/
theorem binding_info_packs_64_bits (v : BindingField → Nat) (name_hash : Nat)
    (hv : ∀ f, v f < 2 ^ f.width) :
    (BindingField.width .setIndex = 3 ∧ BindingField.width .binding = 8 ∧
      BindingField.width .count = 8 ∧ BindingField.width .type = 4 ∧
      BindingField.width .range = 27 ∧ BindingField.width .stage_bits = 6 ∧
      BindingField.width .dynamic_offset_idx = 8) ∧
    (BindingField.declared.map BindingField.width).sum = 64 ∧
    (∀ f, (pack v name_hash).get f = v f) ∧
    (∀ info : le_shader_binding_info, pack_word info.get = info.data) := by
  refine ⟨by decide, by decide, ?_, ?_⟩
  · intro f
    have hlt := pack_word_lt v
    have h0 := hv .dynamic_offset_idx
    have h1 := hv .stage_bits
    have h2 := hv .range
    have h3 := hv .type
    have h4 := hv .count
    have h5 := hv .binding
    have h6 := hv .setIndex
    simp only [BindingField.width] at h0 h1 h2 h3 h4 h5 h6
    simp only [le_shader_binding_info.get, pack, Nat.mod_eq_of_lt hlt]
    rw [pack_word_eq, Nat.mod_eq_of_lt h0, Nat.mod_eq_of_lt h1, Nat.mod_eq_of_lt h2,
      Nat.mod_eq_of_lt h3, Nat.mod_eq_of_lt h4, Nat.mod_eq_of_lt h5, Nat.mod_eq_of_lt h6]
    cases f <;> simp only [bit_offset_values, BindingField.width] <;>
      norm_num at h0 h1 h2 h3 h4 h5 h6 ⊢ <;> omega
  · intro info
    have h := info.data_lt
    rw [pack_word_eq]
    simp only [le_shader_binding_info.get, bit_offset_values, BindingField.width]
    norm_num at h ⊢
    omega

/-- Witness of C9: sample member values within their widths. -/
theorem binding_info_packs_64_bits_witness :
    (∀ f, sample_values f < 2 ^ f.width) ∧
    ((BindingField.width .setIndex = 3 ∧ BindingField.width .binding = 8 ∧
      BindingField.width .count = 8 ∧ BindingField.width .type = 4 ∧
      BindingField.width .range = 27 ∧ BindingField.width .stage_bits = 6 ∧
      BindingField.width .dynamic_offset_idx = 8) ∧
    (BindingField.declared.map BindingField.width).sum = 64 ∧
    (∀ f, (pack sample_values 11).get f = sample_values f) ∧
    (∀ info : le_shader_binding_info, pack_word info.get = info.data)) :=
  ⟨by intro f; cases f <;> decide,
    binding_info_packs_64_bits sample_values 11 (by intro f; cases f <;> decide)⟩

end BindingClaims2

section SortClaims

open le_shader_binding_info

/-- The order the sort uses: `a` may go before `b` unless `b < a`. -/
theorem not_operator_lt_iff (a b : le_shader_binding_info) :
    operator_lt b a = false ↔ a.data ≤ b.data := by
  simp [operator_lt]

theorem sort_binding_infos_perm (l : List le_shader_binding_info) :
    (sort_binding_infos l).Perm l :=
  List.perm_insertionSort _ l

theorem sort_binding_infos_sorted (l : List le_shader_binding_info) :
    ((sort_binding_infos l).map fun a => a.data).Sorted (· ≤ ·) := by
  haveI : IsTotal le_shader_binding_info (fun a b => operator_lt b a = false) :=
    ⟨fun a b => by simp only [not_operator_lt_iff]; exact Nat.le_total _ _⟩
  haveI : IsTrans le_shader_binding_info (fun a b => operator_lt b a = false) :=
    ⟨fun a b c h1 h2 => by
      simp only [not_operator_lt_iff] at h1 h2 ⊢; exact Nat.le_trans h1 h2⟩
  have h := List.sorted_insertionSort (fun a b => operator_lt b a = false) l
  unfold sort_binding_infos
  rw [List.Sorted, List.pairwise_map]
  exact h.imp (fun {a b} hab => (not_operator_lt_iff a b).mp hab)

theorem eq_of_map_eq_of_inj {α β : Type} (f : α → β) :
    ∀ l1 l2 : List α, l1.map f = l2.map f →
      (∀ x ∈ l1, ∀ y ∈ l2, f x = f y → x = y) → l1 = l2 := by
  intro l1
  induction l1 with
  | nil => intro l2 h _; cases l2 with
    | nil => rfl
    | cons y l2 => simp at h
  | cons x l1 ih =>
    intro l2 h hinj
    cases l2 with
    | nil => simp at h
    | cons y l2 =>
      simp only [List.map_cons, List.cons.injEq] at h
      have hxy := hinj x (by simp) y (by simp) h.1
      subst hxy
      rw [ih l2 h.2 (fun a ha b hb => hinj a (by simp [ha]) b (by simp [hb]))]

/-- C10, as stated, fails: two binding infos with the same packed word and
different name hashes are sorted to different sequences by the two insertion
orders, because `operator <` does not look at the name hash and the sort is
stable. -/
theorem sort_keeps_insertion_order_of_equal_words :
    [sample_info_x, sample_info_y].Perm [sample_info_y, sample_info_x] ∧
    sort_binding_infos [sample_info_x, sample_info_y] = [sample_info_x, sample_info_y] ∧
    sort_binding_infos [sample_info_y, sample_info_x] = [sample_info_y, sample_info_x] ∧
    sort_binding_infos [sample_info_x, sample_info_y]
      ≠ sort_binding_infos [sample_info_y, sample_info_x] :=
  ⟨List.Perm.swap _ _ _, by decide, by decide, by decide⟩

/-- C10, amended.  For two lists of binding infos that differ only in insertion
order, sorting each with `operator <` gives the same packed words at every
position; when any two binding infos of the list that have the same packed word
are the same binding info (the same name hash too), the two sorted sequences
are equal as a whole, name hashes included.  The list may hold a binding info
more than once. -/
theorem sort_binding_infos_of_perm (l1 l2 : List le_shader_binding_info)
    (h : l1.Perm l2) :
    (sort_binding_infos l1).map (fun a => a.data)
        = (sort_binding_infos l2).map (fun a => a.data) ∧
      ((∀ a ∈ l1, ∀ b ∈ l1, a.data = b.data → a = b) →
        sort_binding_infos l1 = sort_binding_infos l2) := by
  have hperm : (sort_binding_infos l1).Perm (sort_binding_infos l2) :=
    (sort_binding_infos_perm l1).trans (h.trans (sort_binding_infos_perm l2).symm)
  have hmap : (sort_binding_infos l1).map (fun a => a.data)
      = (sort_binding_infos l2).map (fun a => a.data) :=
    List.eq_of_perm_of_sorted (hperm.map _) (sort_binding_infos_sorted l1)
      (sort_binding_infos_sorted l2)
  refine ⟨hmap, fun hinj => ?_⟩
  apply eq_of_map_eq_of_inj (fun a => a.data) _ _ hmap
  intro x hx y hy hxy
  exact hinj x ((sort_binding_infos_perm l1).mem_iff.mp hx)
    y (h.mem_iff.mpr ((sort_binding_infos_perm l2).mem_iff.mp hy)) hxy

/-- Witness of C10: four binding infos, one of them twice, in two insertion
orders. -/
theorem sort_binding_infos_of_perm_witness :
    [sample_info_a, sample_info_b, sample_info_a, sample_info_c].Perm
      [sample_info_c, sample_info_a, sample_info_b, sample_info_a] ∧
    ((sort_binding_infos [sample_info_a, sample_info_b, sample_info_a, sample_info_c]).map
          (fun a => a.data)
        = (sort_binding_infos [sample_info_c, sample_info_a, sample_info_b, sample_info_a]).map
            (fun a => a.data) ∧
      ((∀ a ∈ [sample_info_a, sample_info_b, sample_info_a, sample_info_c],
          ∀ b ∈ [sample_info_a, sample_info_b, sample_info_a, sample_info_c],
            a.data = b.data → a = b) →
        sort_binding_infos [sample_info_a, sample_info_b, sample_info_a, sample_info_c]
          = sort_binding_infos [sample_info_c, sample_info_a, sample_info_b, sample_info_a])) ∧
    (∀ a ∈ [sample_info_a, sample_info_b, sample_info_a, sample_info_c],
      ∀ b ∈ [sample_info_a, sample_info_b, sample_info_a, sample_info_c],
        a.data = b.data → a = b) ∧
    sort_binding_infos [sample_info_a, sample_info_b, sample_info_a, sample_info_c]
      = [sample_info_a, sample_info_a, sample_info_b, sample_info_c] :=
  have hp : [sample_info_a, sample_info_b, sample_info_a, sample_info_c].Perm
      [sample_info_c, sample_info_a, sample_info_b, sample_info_a] := by decide
  ⟨hp, sort_binding_infos_of_perm _ _ hp, by decide, by decide⟩

end SortClaims

/-! ## Tracing curves: what is appended, and the claims on sampling -/

section TraceShape

variable {F : Type} [FloatArith F]

theorem trace_quad_bezier_step_vertices (p0 p1 c1 : Vertex F) (delta_t : F)
    (st : Polyline F × Vertex F) (i : Nat) :
    (trace_quad_bezier_step p0 p1 c1 delta_t st i).1.vertices
        = st.1.vertices ++ [trace_quad_bezier_vertex p0 p1 c1 delta_t i] ∧
      (trace_quad_bezier_step p0 p1 c1 delta_t st i).1.tangents
        = st.1.tangents ++ [trace_quad_bezier_tangent p0 p1 c1 delta_t i] ∧
      (trace_quad_bezier_step p0 p1 c1 delta_t st i).1.distances.length
        = st.1.distances.length + 1 :=
  ⟨rfl, rfl, by simp [trace_quad_bezier_step]⟩

theorem trace_quad_bezier_fold (p0 p1 c1 : Vertex F) (delta_t : F) (l : List Nat) :
    ∀ st : Polyline F × Vertex F,
      (l.foldl (trace_quad_bezier_step p0 p1 c1 delta_t) st).1.vertices
          = st.1.vertices ++ l.map (trace_quad_bezier_vertex p0 p1 c1 delta_t) ∧
        (l.foldl (trace_quad_bezier_step p0 p1 c1 delta_t) st).1.tangents
          = st.1.tangents ++ l.map (trace_quad_bezier_tangent p0 p1 c1 delta_t) ∧
        (l.foldl (trace_quad_bezier_step p0 p1 c1 delta_t) st).1.distances.length
          = st.1.distances.length + l.length := by
  induction l with
  | nil => intro st; simp
  | cons i l ih =>
    intro st
    obtain ⟨h1, h2, h3⟩ := ih (trace_quad_bezier_step p0 p1 c1 delta_t st i)
    obtain ⟨g1, g2, g3⟩ := trace_quad_bezier_step_vertices p0 p1 c1 delta_t st i
    rw [List.foldl_cons, h1, h2, h3, g1, g2, g3]
    simp
    omega

end TraceShape

section TraceShape2

variable {F : Type} [FloatArith F]

theorem trace_cubic_bezier_step_vertices (p0 p1 c1 c2 : Vertex F) (delta_t : F)
    (st : Polyline F × Vertex F) (i : Nat) :
    (trace_cubic_bezier_step p0 p1 c1 c2 delta_t st i).1.vertices
        = st.1.vertices ++ [trace_cubic_bezier_vertex p0 p1 c1 c2 delta_t i] ∧
      (trace_cubic_bezier_step p0 p1 c1 c2 delta_t st i).1.tangents
        = st.1.tangents ++ [trace_cubic_bezier_tangent p0 p1 c1 c2 delta_t i] ∧
      (trace_cubic_bezier_step p0 p1 c1 c2 delta_t st i).1.distances.length
        = st.1.distances.length + 1 :=
  ⟨rfl, rfl, by simp [trace_cubic_bezier_step]⟩

theorem trace_cubic_bezier_fold (p0 p1 c1 c2 : Vertex F) (delta_t : F) (l : List Nat) :
    ∀ st : Polyline F × Vertex F,
      (l.foldl (trace_cubic_bezier_step p0 p1 c1 c2 delta_t) st).1.vertices
          = st.1.vertices ++ l.map (trace_cubic_bezier_vertex p0 p1 c1 c2 delta_t) ∧
        (l.foldl (trace_cubic_bezier_step p0 p1 c1 c2 delta_t) st).1.tangents
          = st.1.tangents ++ l.map (trace_cubic_bezier_tangent p0 p1 c1 c2 delta_t) ∧
        (l.foldl (trace_cubic_bezier_step p0 p1 c1 c2 delta_t) st).1.distances.length
          = st.1.distances.length + l.length := by
  induction l with
  | nil => intro st; simp
  | cons i l ih =>
    intro st
    obtain ⟨h1, h2, h3⟩ := ih (trace_cubic_bezier_step p0 p1 c1 c2 delta_t st i)
    obtain ⟨g1, g2, g3⟩ := trace_cubic_bezier_step_vertices p0 p1 c1 c2 delta_t st i
    rw [List.foldl_cons, h1, h2, h3, g1, g2, g3]
    simp
    omega

/-- With a resolution of at least 2, `trace_quad_bezier_to` appends, for
`i = 1 .. resolution`, the vertex and the tangent of turn `i`, and one distance
per turn. -/
theorem trace_quad_bezier_to_shape (q : Polyline F) (p0 p1 c1 : Vertex F) (resolution : Nat)
    (hres : 2 ≤ resolution) (hp0 : q.vertices.getLast? = some p0) :
    ∃ r, trace_quad_bezier_to q p1 c1 resolution = some r ∧
      r.vertices = q.vertices ++ (List.range' 1 resolution).map
        (trace_quad_bezier_vertex p0 p1 c1 (FloatArith.ofNat 1 / FloatArith.ofNat resolution)) ∧
      r.tangents = q.tangents ++ (List.range' 1 resolution).map
        (trace_quad_bezier_tangent p0 p1 c1
          (FloatArith.ofNat 1 / FloatArith.ofNat resolution)) ∧
      r.distances.length = q.distances.length + resolution := by
  have h0 : resolution ≠ 0 := by omega
  have h1 : resolution ≠ 1 := by omega
  obtain ⟨g1, g2, g3⟩ := trace_quad_bezier_fold p0 p1 c1
    (FloatArith.ofNat 1 / FloatArith.ofNat resolution) (List.range' 1 resolution) (q, p0)
  refine ⟨_, by simp only [trace_quad_bezier_to, h0, h1, if_false, hp0], g1, g2, ?_⟩
  rw [g3]; simp

/-- With a resolution of at least 2, `trace_cubic_bezier_to` appends, for
`i = 1 .. resolution`, the vertex and the tangent of turn `i`, and one distance
per turn. -/
theorem trace_cubic_bezier_to_shape (q : Polyline F) (p0 p1 c1 c2 : Vertex F)
    (resolution : Nat) (hres : 2 ≤ resolution) (hp0 : q.vertices.getLast? = some p0) :
    ∃ r, trace_cubic_bezier_to q p1 c1 c2 resolution = some r ∧
      r.vertices = q.vertices ++ (List.range' 1 resolution).map
        (trace_cubic_bezier_vertex p0 p1 c1 c2
          (FloatArith.ofNat 1 / FloatArith.ofNat resolution)) ∧
      r.tangents = q.tangents ++ (List.range' 1 resolution).map
        (trace_cubic_bezier_tangent p0 p1 c1 c2
          (FloatArith.ofNat 1 / FloatArith.ofNat resolution)) ∧
      r.distances.length = q.distances.length + resolution := by
  have h0 : resolution ≠ 0 := by omega
  have h1 : resolution ≠ 1 := by omega
  obtain ⟨g1, g2, g3⟩ := trace_cubic_bezier_fold p0 p1 c1 c2
    (FloatArith.ofNat 1 / FloatArith.ofNat resolution) (List.range' 1 resolution) (q, p0)
  refine ⟨_, by simp only [trace_cubic_bezier_to, h0, h1, if_false, hp0], g1, g2, ?_⟩
  rw [g3]; simp

end TraceShape2

section VertexLemmas

variable {F : Type} [FloatArith F]

theorem vertex_add_x (a b : Vertex F) : (a + b).x = a.x + b.x := rfl

theorem vertex_add_y (a b : Vertex F) : (a + b).y = a.y + b.y := rfl

theorem vertex_sub_x (a b : Vertex F) : (a - b).x = a.x - b.x := rfl

theorem vertex_sub_y (a b : Vertex F) : (a - b).y = a.y - b.y := rfl

theorem vertex_smul_x (s : F) (v : Vertex F) : (s • v).x = s * v.x := rfl

theorem vertex_smul_y (s : F) (v : Vertex F) : (s • v).y = s * v.y := rfl

theorem vertex_eq_iff {G : Type} (a b : Vertex G) : a = b ↔ a.x = b.x ∧ a.y = b.y := by
  cases a; cases b; simp

end VertexLemmas

section ExactLemmas

theorem exact_add (sq : ℚ → ℚ) (a b : ℚ) :
    @HAdd.hAdd ℚ ℚ ℚ (@instHAdd ℚ (exactArith sq).toAdd) a b = a + b := rfl

theorem exact_sub (sq : ℚ → ℚ) (a b : ℚ) :
    @HSub.hSub ℚ ℚ ℚ (@instHSub ℚ (exactArith sq).toSub) a b = a - b := rfl

theorem exact_mul (sq : ℚ → ℚ) (a b : ℚ) :
    @HMul.hMul ℚ ℚ ℚ (@instHMul ℚ (exactArith sq).toMul) a b = a * b := rfl

theorem exact_div (sq : ℚ → ℚ) (a b : ℚ) :
    @HDiv.hDiv ℚ ℚ ℚ (@instHDiv ℚ (exactArith sq).toDiv) a b = a / b := rfl

theorem exact_ofNat (sq : ℚ → ℚ) (n : Nat) : (exactArith sq).ofNat n = (n : ℚ) := rfl

theorem exact_quad_vertex (sq : ℚ → ℚ) (p0 p1 c1 : Vertex ℚ) (n i : Nat) (hn : n ≠ 0) :
    @trace_quad_bezier_vertex ℚ (exactArith sq) p0 p1 c1
        (@HDiv.hDiv ℚ ℚ ℚ (@instHDiv ℚ (exactArith sq).toDiv)
          ((exactArith sq).ofNat 1) ((exactArith sq).ofNat n)) i
      = quad_bezier_point p0 c1 p1 ((i : ℚ) / n) := by
  have hn' : (n : ℚ) ≠ 0 := Nat.cast_ne_zero.mpr hn
  rw [vertex_eq_iff]
  simp only [trace_quad_bezier_vertex, trace_quad_bezier_step, quad_bezier_point,
    vertex_add_x, vertex_add_y, vertex_smul_x, vertex_smul_y, exact_add, exact_sub, exact_mul,
    exact_div, exact_ofNat]
  constructor <;> (field_simp; ring)

theorem exact_cubic_vertex (sq : ℚ → ℚ) (p0 p1 c1 c2 : Vertex ℚ) (n i : Nat) (hn : n ≠ 0) :
    @trace_cubic_bezier_vertex ℚ (exactArith sq) p0 p1 c1 c2
        (@HDiv.hDiv ℚ ℚ ℚ (@instHDiv ℚ (exactArith sq).toDiv)
          ((exactArith sq).ofNat 1) ((exactArith sq).ofNat n)) i
      = cubic_bezier_point p0 c1 c2 p1 ((i : ℚ) / n) := by
  have hn' : (n : ℚ) ≠ 0 := Nat.cast_ne_zero.mpr hn
  rw [vertex_eq_iff]
  simp only [trace_cubic_bezier_vertex, trace_cubic_bezier_step, cubic_bezier_point,
    vertex_add_x, vertex_add_y, vertex_smul_x, vertex_smul_y, exact_add, exact_sub, exact_mul,
    exact_div, exact_ofNat]
  constructor <;> (field_simp; ring)

theorem exact_quad_tangent (sq : ℚ → ℚ) (p0 p1 c1 : Vertex ℚ) (n i : Nat) (hn : n ≠ 0) :
    @trace_quad_bezier_tangent ℚ (exactArith sq) p0 p1 c1
        (@HDiv.hDiv ℚ ℚ ℚ (@instHDiv ℚ (exactArith sq).toDiv)
          ((exactArith sq).ofNat 1) ((exactArith sq).ofNat n)) i
      = quad_bezier_derivative p0 c1 p1 ((i : ℚ) / n) := by
  have hn' : (n : ℚ) ≠ 0 := Nat.cast_ne_zero.mpr hn
  rw [vertex_eq_iff]
  simp only [trace_quad_bezier_tangent, quad_bezier_derivative,
    vertex_add_x, vertex_add_y, vertex_sub_x, vertex_sub_y, vertex_smul_x, vertex_smul_y,
    exact_add, exact_sub, exact_mul, exact_div, exact_ofNat]
  constructor <;> field_simp

theorem exact_cubic_tangent (sq : ℚ → ℚ) (p0 p1 c1 c2 : Vertex ℚ) (n i : Nat)
    (hn : n ≠ 0) :
    @trace_cubic_bezier_tangent ℚ (exactArith sq) p0 p1 c1 c2
        (@HDiv.hDiv ℚ ℚ ℚ (@instHDiv ℚ (exactArith sq).toDiv)
          ((exactArith sq).ofNat 1) ((exactArith sq).ofNat n)) i
      = cubic_bezier_derivative p0 c1 c2 p1 ((i : ℚ) / n) := by
  have hn' : (n : ℚ) ≠ 0 := Nat.cast_ne_zero.mpr hn
  rw [vertex_eq_iff]
  simp only [trace_cubic_bezier_tangent, cubic_bezier_derivative,
    vertex_add_x, vertex_add_y, vertex_sub_x, vertex_sub_y, vertex_smul_x, vertex_smul_y,
    exact_add, exact_sub, exact_mul, exact_div, exact_ofNat]
  constructor <;> (field_simp; ring)

end ExactLemmas

section SamplingClaims2

theorem hasDerivAt_quad (a b c t : ℝ) :
    HasDerivAt (fun s : ℝ => (1 - s) ^ 2 * a + 2 * (1 - s) * s * b + s ^ 2 * c)
      (2 * (1 - t) * (b - a) + 2 * t * (c - b)) t := by
  have hs : HasDerivAt (fun s : ℝ => s) 1 t := hasDerivAt_id t
  have h1 : HasDerivAt (fun s : ℝ => 1 - s) (-1) t := by
    simpa using hs.const_sub 1
  have h := (((h1.pow 2).mul_const a).add (((h1.const_mul 2).mul hs).mul_const b)).add
    ((hs.pow 2).mul_const c)
  refine h.congr_deriv ?_
  simp
  ring

theorem hasDerivAt_cubic (a b c d t : ℝ) :
    HasDerivAt (fun s : ℝ => (1 - s) ^ 3 * a + 3 * (1 - s) ^ 2 * s * b
        + 3 * (1 - s) * s ^ 2 * c + s ^ 3 * d)
      (3 * (1 - t) ^ 2 * (b - a) + 6 * (1 - t) * t * (c - b) + 3 * t ^ 2 * (d - c)) t := by
  have hs : HasDerivAt (fun s : ℝ => s) 1 t := hasDerivAt_id t
  have h1 : HasDerivAt (fun s : ℝ => 1 - s) (-1) t := by
    simpa using hs.const_sub 1
  have h := ((((h1.pow 3).mul_const a).add ((((h1.pow 2).const_mul 3).mul hs).mul_const b)).add
    (((h1.const_mul 3).mul (hs.pow 2)).mul_const c)).add ((hs.pow 3).mul_const d)
  refine h.congr_deriv ?_
  simp
  ring

end SamplingClaims2

section ResolutionClaims

variable {F : Type} [FloatArith F]

omit [FloatArith F] in
theorem getLast?_append_map_range' {α : Type} (l : List α) (f : Nat → α) (n : Nat)
    (hn : n ≠ 0) : (l ++ (List.range' 1 n).map f).getLast? = some (f n) := by
  obtain ⟨m, rfl⟩ := Nat.exists_eq_succ_of_ne_zero hn
  rw [List.range'_concat, List.map_append, ← List.append_assoc]
  simp [Nat.add_comm]

/-- C19. `resolution` is the number of segments: for a resolution of at least 2
and a polyline with a last vertex, `trace_quad_bezier_to` and
`trace_cubic_bezier_to` each append exactly `resolution` vertices, `resolution`
distances and `resolution` tangents, in any arithmetic; and in exact
arithmetic, where `resolution * (1 / resolution) = 1`, the last vertex appended
is the end point of the command. -/
theorem resolution_is_segment_count (q : Polyline F) (p0 p1 c1 c2 : Vertex F)
    (sq : ℚ → ℚ) (qe : Polyline ℚ) (e0 e1 d1 d2 : Vertex ℚ)
    (resolution : Nat) (hres : 2 ≤ resolution)
    (hp0 : q.vertices.getLast? = some p0) (he0 : qe.vertices.getLast? = some e0) :
    (∃ r, trace_quad_bezier_to q p1 c1 resolution = some r ∧
      r.vertices.length = q.vertices.length + resolution ∧
      r.distances.length = q.distances.length + resolution ∧
      r.tangents.length = q.tangents.length + resolution) ∧
    (∃ r, trace_cubic_bezier_to q p1 c1 c2 resolution = some r ∧
      r.vertices.length = q.vertices.length + resolution ∧
      r.distances.length = q.distances.length + resolution ∧
      r.tangents.length = q.tangents.length + resolution) ∧
    (∃ r, @trace_quad_bezier_to ℚ (exactArith sq) qe e1 d1 resolution = some r ∧
      r.vertices.getLast? = some e1) ∧
    (∃ r, @trace_cubic_bezier_to ℚ (exactArith sq) qe e1 d1 d2 resolution = some r ∧
      r.vertices.getLast? = some e1) := by
  have hn : resolution ≠ 0 := by omega
  have hn' : (resolution : ℚ) ≠ 0 := Nat.cast_ne_zero.mpr hn
  refine ⟨?_, ?_, ?_, ?_⟩
  · obtain ⟨r, hr, hv, ht, hd⟩ := trace_quad_bezier_to_shape q p0 p1 c1 resolution hres hp0
    exact ⟨r, hr, by simp [hv], hd, by simp [ht]⟩
  · obtain ⟨r, hr, hv, ht, hd⟩ := trace_cubic_bezier_to_shape q p0 p1 c1 c2 resolution hres hp0
    exact ⟨r, hr, by simp [hv], hd, by simp [ht]⟩
  · obtain ⟨r, hr, hv, -, -⟩ :=
      @trace_quad_bezier_to_shape ℚ (exactArith sq) qe e0 e1 d1 resolution hres he0
    refine ⟨r, hr, ?_⟩
    rw [hv, getLast?_append_map_range' _ _ _ hn, exact_quad_vertex sq e0 e1 d1 resolution _ hn]
    congr 1
    rw [vertex_eq_iff]
    simp only [quad_bezier_point, div_self hn']
    constructor <;> ring
  · obtain ⟨r, hr, hv, -, -⟩ :=
      @trace_cubic_bezier_to_shape ℚ (exactArith sq) qe e0 e1 d1 d2 resolution hres he0
    refine ⟨r, hr, ?_⟩
    rw [hv, getLast?_append_map_range' _ _ _ hn,
      exact_cubic_vertex sq e0 e1 d1 d2 resolution _ hn]
    congr 1
    rw [vertex_eq_iff]
    simp only [cubic_bezier_point, div_self hn']
    constructor <;> ring

/-- Witness of C19: resolution 4 from the vertex `(0,0)`, the counts taken in
the sample arithmetic. -/
theorem resolution_is_segment_count_witness :
    2 ≤ 4 ∧ sample_polyline.vertices.getLast? = some ⟨0, 0⟩ ∧
    ((∃ r, @trace_quad_bezier_to ℚ sampleArith sample_polyline ⟨4, 0⟩ ⟨2, 2⟩ 4 = some r ∧
        r.vertices.length = sample_polyline.vertices.length + 4 ∧
        r.distances.length = sample_polyline.distances.length + 4 ∧
        r.tangents.length = sample_polyline.tangents.length + 4) ∧
      (∃ r, @trace_cubic_bezier_to ℚ sampleArith sample_polyline ⟨4, 0⟩ ⟨2, 2⟩ ⟨3, 1⟩ 4
          = some r ∧
        r.vertices.length = sample_polyline.vertices.length + 4 ∧
        r.distances.length = sample_polyline.distances.length + 4 ∧
        r.tangents.length = sample_polyline.tangents.length + 4) ∧
      (∃ r, @trace_quad_bezier_to ℚ (exactArith sqrt_milli) sample_polyline ⟨4, 0⟩ ⟨2, 2⟩ 4
          = some r ∧
        r.vertices.getLast? = some ⟨4, 0⟩) ∧
      (∃ r, @trace_cubic_bezier_to ℚ (exactArith sqrt_milli) sample_polyline ⟨4, 0⟩ ⟨2, 2⟩
          ⟨3, 1⟩ 4 = some r ∧
        r.vertices.getLast? = some ⟨4, 0⟩)) :=
  ⟨by decide, rfl,
    @resolution_is_segment_count ℚ sampleArith sample_polyline ⟨0, 0⟩ ⟨4, 0⟩ ⟨2, 2⟩ ⟨3, 1⟩
      sqrt_milli sample_polyline ⟨0, 0⟩ ⟨4, 0⟩ ⟨2, 2⟩ ⟨3, 1⟩ 4 (by decide) rfl rfl⟩

/-- C20. Degenerate resolutions: with resolution 0, `trace_quad_bezier_to` and
`trace_cubic_bezier_to` return the polyline unchanged (the curve adds nothing
and its end point is not reached); with resolution 1 they do exactly what
`trace_line_to` does with the end point of the curve. -/
theorem degenerate_resolutions (q : Polyline F) (p1 c1 c2 : Vertex F) :
    trace_quad_bezier_to q p1 c1 0 = some q ∧
    trace_cubic_bezier_to q p1 c1 c2 0 = some q ∧
    trace_quad_bezier_to q p1 c1 1 = trace_line_to q p1 ∧
    trace_cubic_bezier_to q p1 c1 c2 1 = trace_line_to q p1 := by
  refine ⟨?_, ?_, ?_, ?_⟩
  · simp [trace_quad_bezier_to]
  · simp [trace_cubic_bezier_to]
  · simp [trace_quad_bezier_to]
  · simp [trace_cubic_bezier_to]

end ResolutionClaims

/-! ## Counting vertices, tangents and distances -/

section CountLemmas

variable {F : Type} [FloatArith F]

omit [FloatArith F] in
theorem extends_refl (q : Polyline F) : q.Extends q := ⟨0, rfl, rfl, rfl⟩

omit [FloatArith F] in
theorem extends_trans {q r s : Polyline F} (h1 : q.Extends r) (h2 : r.Extends s) :
    q.Extends s := by
  obtain ⟨k, a1, a2, a3⟩ := h1
  obtain ⟨m, b1, b2, b3⟩ := h2
  exact ⟨k + m, by omega, by omega, by omega⟩

theorem extends_trace_line_to (q r : Polyline F) (p : Vertex F)
    (h : trace_line_to q p = some r) : q.Extends r := by
  unfold trace_line_to at h
  split at h
  · simp at h
  · simp only at h
    split at h
    · cases Option.some.inj h; exact extends_refl q
    · cases Option.some.inj h; exact ⟨1, by simp, by simp, by simp⟩

theorem extends_trace_close_path (q r : Polyline F) (h : trace_close_path q = some r) :
    q.Extends r := by
  unfold trace_close_path at h
  split at h
  · simp at h
  · exact extends_trace_line_to q r _ h

theorem extends_trace_quad_bezier_to (q r : Polyline F) (p1 c1 : Vertex F) (resolution : Nat)
    (h : trace_quad_bezier_to q p1 c1 resolution = some r) : q.Extends r := by
  by_cases h0 : resolution = 0
  · subst h0
    simp only [trace_quad_bezier_to, if_true] at h
    cases Option.some.inj h; exact extends_refl q
  by_cases h1 : resolution = 1
  · subst h1
    simp only [trace_quad_bezier_to, if_true, one_ne_zero, if_false] at h
    exact extends_trace_line_to q r p1 h
  cases hp : q.vertices.getLast? with
  | none => simp [trace_quad_bezier_to, h0, h1, hp] at h
  | some p0 =>
    obtain ⟨r1, hr, hv, ht, hd⟩ :=
      trace_quad_bezier_to_shape q p0 p1 c1 resolution (by omega) hp
    rw [h] at hr
    cases Option.some.inj hr
    exact ⟨resolution, by simp [hv], by simp [ht], hd⟩

theorem extends_trace_cubic_bezier_to (q r : Polyline F) (p1 c1 c2 : Vertex F)
    (resolution : Nat) (h : trace_cubic_bezier_to q p1 c1 c2 resolution = some r) :
    q.Extends r := by
  by_cases h0 : resolution = 0
  · subst h0
    simp only [trace_cubic_bezier_to, if_true] at h
    cases Option.some.inj h; exact extends_refl q
  by_cases h1 : resolution = 1
  · subst h1
    simp only [trace_cubic_bezier_to, if_true, one_ne_zero, if_false] at h
    exact extends_trace_line_to q r p1 h
  cases hp : q.vertices.getLast? with
  | none => simp [trace_cubic_bezier_to, h0, h1, hp] at h
  | some p0 =>
    obtain ⟨r1, hr, hv, ht, hd⟩ :=
      trace_cubic_bezier_to_shape q p0 p1 c1 c2 resolution (by omega) hp
    rw [h] at hr
    cases Option.some.inj hr
    exact ⟨resolution, by simp [hv], by simp [ht], hd⟩

theorem extends_flatten_cubic_bezier_loop (toi : F) :
    ∀ (fuel : Nat) (b : Bezier4 F) (p_prev : Vertex F) (q r : Polyline F),
      flatten_cubic_bezier_loop toi fuel b p_prev q = some r → q.Extends r := by
  intro fuel
  induction fuel with
  | zero => intro b p_prev q r h; simp [flatten_cubic_bezier_loop] at h
  | succ fuel ih =>
    intro b p_prev q r h
    rw [flatten_cubic_bezier_loop] at h
    simp only at h
    split at h
    · cases Option.some.inj h
      exact ⟨1, by simp, by simp, by simp⟩
    · exact extends_trans ⟨1, by simp, by simp, by simp⟩ (ih _ _ _ _ h)

theorem extends_flatten_cubic_bezier_to (fuel : Nat) (q r : Polyline F)
    (p1 c1 c2 : Vertex F) (tolerance : F)
    (h : flatten_cubic_bezier_to fuel q p1 c1 c2 tolerance = some r) : q.Extends r := by
  unfold flatten_cubic_bezier_to at h
  split at h
  · simp at h
  · exact extends_flatten_cubic_bezier_loop _ fuel _ _ q r h

theorem extends_trace_command (resolution : Nat) (q r : Polyline F) (c : PathCommand F)
    (hc : c.type ≠ .eMoveTo) (h : trace_command resolution q c = some r) : q.Extends r := by
  unfold trace_command at h
  split at h
  · rename_i hm; exact absurd hm hc
  · exact extends_trace_line_to q r _ h
  · exact extends_trace_quad_bezier_to q r _ _ _ h
  · exact extends_trace_cubic_bezier_to q r _ _ _ _ h
  · exact extends_trace_close_path q r h
  · simp at h

theorem extends_flatten_command (fuel : Nat) (tolerance : F) (q r : Polyline F)
    (c : PathCommand F) (hc : c.type ≠ .eMoveTo)
    (h : flatten_command fuel tolerance q c = some r) : q.Extends r := by
  unfold flatten_command at h
  split at h
  · rename_i hm; exact absurd hm hc
  · exact extends_trace_line_to q r _ h
  · exact extends_flatten_cubic_bezier_to fuel q r _ _ _ _ h
  · exact extends_flatten_cubic_bezier_to fuel q r _ _ _ _ h
  · exact extends_trace_close_path q r h
  · simp at h

theorem extends_trace_commands (resolution : Nat) (cs : List (PathCommand F)) :
    ∀ q r : Polyline F, (∀ c ∈ cs, c.type ≠ .eMoveTo) →
      trace_commands resolution q cs = some r → q.Extends r := by
  induction cs with
  | nil => intro q r _ h; cases Option.some.inj h; exact extends_refl q
  | cons c cs ih =>
    intro q r hcs h
    rw [trace_commands] at h
    cases h1 : trace_command resolution q c with
    | none => simp [h1] at h
    | some q1 =>
      rw [h1, Option.some_bind] at h
      exact extends_trans (extends_trace_command resolution q q1 c (hcs c (by simp)) h1)
        (ih q1 r (fun d hd => hcs d (by simp [hd])) h)

theorem extends_flatten_commands (fuel : Nat) (tolerance : F) (cs : List (PathCommand F)) :
    ∀ q r : Polyline F, (∀ c ∈ cs, c.type ≠ .eMoveTo) →
      flatten_commands fuel tolerance q cs = some r → q.Extends r := by
  induction cs with
  | nil => intro q r _ h; cases Option.some.inj h; exact extends_refl q
  | cons c cs ih =>
    intro q r hcs h
    rw [flatten_commands] at h
    cases h1 : flatten_command fuel tolerance q c with
    | none => simp [h1] at h
    | some q1 =>
      rw [h1, Option.some_bind] at h
      exact extends_trans (extends_flatten_command fuel tolerance q q1 c (hcs c (by simp)) h1)
        (ih q1 r (fun d hd => hcs d (by simp [hd])) h)

/-- Every command keeps the number of vertices equal to the number of
distances, in tracing. -/
theorem distances_trace_command (resolution : Nat) (q r : Polyline F) (c : PathCommand F)
    (hq : q.vertices.length = q.distances.length)
    (h : trace_command resolution q c = some r) :
    r.vertices.length = r.distances.length := by
  by_cases hc : c.type = .eMoveTo
  · simp only [trace_command, hc] at h
    cases Option.some.inj h
    simp [trace_move_to, hq]
  · obtain ⟨k, h1, -, h3⟩ := extends_trace_command resolution q r c hc h
    omega

/-- Every command keeps the number of vertices equal to the number of
distances, in flattening. -/
theorem distances_flatten_command (fuel : Nat) (tolerance : F) (q r : Polyline F)
    (c : PathCommand F) (hq : q.vertices.length = q.distances.length)
    (h : flatten_command fuel tolerance q c = some r) :
    r.vertices.length = r.distances.length := by
  by_cases hc : c.type = .eMoveTo
  · simp only [flatten_command, hc] at h
    cases Option.some.inj h
    simp [trace_move_to, hq]
  · obtain ⟨k, h1, -, h3⟩ := extends_flatten_command fuel tolerance q r c hc h
    omega

theorem distances_trace_commands (resolution : Nat) (cs : List (PathCommand F)) :
    ∀ q r : Polyline F, q.vertices.length = q.distances.length →
      trace_commands resolution q cs = some r → r.vertices.length = r.distances.length := by
  induction cs with
  | nil => intro q r hq h; cases Option.some.inj h; exact hq
  | cons c cs ih =>
    intro q r hq h
    rw [trace_commands] at h
    cases h1 : trace_command resolution q c with
    | none => simp [h1] at h
    | some q1 =>
      rw [h1, Option.some_bind] at h
      exact ih q1 r (distances_trace_command resolution q q1 c hq h1) h

theorem distances_flatten_commands (fuel : Nat) (tolerance : F) (cs : List (PathCommand F)) :
    ∀ q r : Polyline F, q.vertices.length = q.distances.length →
      flatten_commands fuel tolerance q cs = some r →
      r.vertices.length = r.distances.length := by
  induction cs with
  | nil => intro q r hq h; cases Option.some.inj h; exact hq
  | cons c cs ih =>
    intro q r hq h
    rw [flatten_commands] at h
    cases h1 : flatten_command fuel tolerance q c with
    | none => simp [h1] at h
    | some q1 =>
      rw [h1, Option.some_bind] at h
      exact ih q1 r (distances_flatten_command fuel tolerance q q1 c hq h1) h

end CountLemmas

section CountClaims

variable {F : Type} [FloatArith F]

/-- C14. The assertion at the end of tracing always holds.  For every command
sequence that starts with `MoveTo` (and holds no `eUnknown` command, on which
the loop asserts), `le_path_trace_path` produces, for every resolution, a
polyline with exactly as many distances as vertices; and every polyline that
`le_path_flatten_path` produces for it, for any tolerance, has exactly as many
distances as vertices. -/
theorem distances_match_vertices (resolution fuel : Nat) (tolerance : F)
    (m : PathCommand F) (rest : List (PathCommand F)) (hm : m.type = .eMoveTo)
    (hrest : ∀ c ∈ rest, c.type ≠ .eUnknown) :
    (∃ r, trace_commands resolution Polyline.empty (m :: rest) = some r ∧
      r.vertices.length = r.distances.length) ∧
    (∀ r, flatten_commands fuel tolerance Polyline.empty (m :: rest) = some r →
      r.vertices.length = r.distances.length) := by
  constructor
  · refine trace_commands_contour resolution ⟨m :: rest⟩ ⟨⟨m, rest, rfl, hm⟩, ?_⟩
    intro c hc
    simp only [List.mem_cons] at hc
    rcases hc with rfl | hc
    · rw [hm]; simp
    · exact hrest c hc
  · intro r h
    exact distances_flatten_commands fuel tolerance _ _ r rfl h

set_option maxRecDepth 100000 in
/-- Witness of C14: the sample open contour after `M 0,0`, traced with
resolution 3 and flattened; the flattening returns. -/
theorem distances_match_vertices_witness :
    (⟨.eMoveTo, ⟨0, 0⟩, 0, 0⟩ : PathCommand ℚ).type = .eMoveTo ∧
    (∀ c ∈ sample_open_commands, c.type ≠ .eUnknown) ∧
    (@flatten_commands ℚ sampleArith 10 0 (@Polyline.empty ℚ sampleArith)
      (⟨.eMoveTo, ⟨0, 0⟩, 0, 0⟩ :: sample_open_commands)).isSome = true ∧
    ((∃ r, @trace_commands ℚ sampleArith 3 (@Polyline.empty ℚ sampleArith)
          (⟨.eMoveTo, ⟨0, 0⟩, 0, 0⟩ :: sample_open_commands) = some r ∧
        r.vertices.length = r.distances.length) ∧
      (∀ r, @flatten_commands ℚ sampleArith 10 0 (@Polyline.empty ℚ sampleArith)
          (⟨.eMoveTo, ⟨0, 0⟩, 0, 0⟩ :: sample_open_commands) = some r →
        r.vertices.length = r.distances.length)) :=
  ⟨rfl, by decide, by decide!,
    @distances_match_vertices ℚ sampleArith 3 10 0 ⟨.eMoveTo, ⟨0, 0⟩, 0, 0⟩
      sample_open_commands rfl (by decide)⟩

/-- One tangent fewer than vertices on an open contour.  For every contour that
starts with its single `MoveTo` and holds no `ClosePath` (and no `eUnknown`
command), tracing returns, for any resolution, a polyline with exactly one
tangent fewer than it has vertices, and so has every polyline that flattening
returns for it. -/
theorem tangent_count_of_open_contour (resolution fuel : Nat) (tolerance : F)
    (m : PathCommand F) (rest : List (PathCommand F)) (hm : m.type = .eMoveTo)
    (hrest : ∀ c ∈ rest,
      c.type ≠ .eMoveTo ∧ c.type ≠ .eClosePath ∧ c.type ≠ .eUnknown) :
    (∃ r, trace_commands resolution Polyline.empty (m :: rest) = some r ∧
      r.tangents.length + 1 = r.vertices.length) ∧
    (∀ r, flatten_commands fuel tolerance Polyline.empty (m :: rest) = some r →
      r.tangents.length + 1 = r.vertices.length) := by
  have h1 : trace_command resolution Polyline.empty m
      = some (trace_move_to Polyline.empty m.p) := by
    simp [trace_command, hm]
  have h2 : flatten_command fuel tolerance Polyline.empty m
      = some (trace_move_to Polyline.empty m.p) := by
    simp [flatten_command, hm]
  constructor
  · obtain ⟨r, hr, -⟩ := started_trace_commands resolution rest
      (trace_move_to Polyline.empty m.p) (started_trace_move_to _ _ rfl)
      (fun c hc => (hrest c hc).2.2)
    obtain ⟨k, e1, e2, -⟩ := extends_trace_commands resolution rest _ r
      (fun c hc => (hrest c hc).1) hr
    refine ⟨r, by simp [trace_commands, h1, hr], ?_⟩
    simp only [trace_move_to, Polyline.empty, List.nil_append, List.length_singleton,
      List.length_nil] at e1 e2
    omega
  · intro r h
    rw [flatten_commands, h2, Option.some_bind] at h
    obtain ⟨k, e1, e2, -⟩ := extends_flatten_commands fuel tolerance rest _ r
      (fun c hc => (hrest c hc).1) h
    simp only [trace_move_to, Polyline.empty, List.nil_append, List.length_singleton,
      List.length_nil] at e1 e2
    omega

set_option maxRecDepth 100000 in
/-- C16 fails on the code.  Tracing the closed contour `M 0,0 L 1,0 Z` gives 3
vertices and 2 tangents: `trace_close_path` is a `trace_line_to` to the first
vertex, which adds one vertex and one tangent.  In general, for every contour
that starts with its single `MoveTo` and ends with `ClosePath`, the polyline
that `le_path_trace_path` produces has one tangent fewer than it has vertices,
never as many. -/
theorem closed_path_tangent_count :
    @trace_commands ℚ sampleArith 3 (@Polyline.empty ℚ sampleArith) sample_closed_commands
      = some ⟨[⟨0, 0⟩, ⟨1, 0⟩, ⟨0, 0⟩], [⟨1, 0⟩, ⟨-1, 0⟩], [0, 1, 2], 2⟩ ∧
    (∀ (G : Type) [FloatArith G] (resolution : Nat) (m z : PathCommand G)
      (mid : List (PathCommand G)) (r : Polyline G),
      m.type = .eMoveTo → (∀ c ∈ mid, c.type ≠ .eMoveTo) → z.type = .eClosePath →
      trace_commands resolution Polyline.empty (m :: (mid ++ [z])) = some r →
      r.tangents.length + 1 = r.vertices.length ∧ r.tangents.length ≠ r.vertices.length) := by
  refine ⟨by decide!, ?_⟩
  intro G _ resolution m z mid r hm hmid hz h
  have h1 : trace_command resolution Polyline.empty m
      = some (trace_move_to Polyline.empty m.p) := by
    simp [trace_command, hm]
  rw [trace_commands, h1, Option.some_bind] at h
  obtain ⟨k, e1, e2, -⟩ := extends_trace_commands resolution (mid ++ [z]) _ r
    (by
      intro c hc
      simp only [List.mem_append, List.mem_singleton] at hc
      rcases hc with hc | rfl
      · exact hmid c hc
      · rw [hz]; simp) h
  simp only [trace_move_to, Polyline.empty, List.nil_append, List.length_singleton,
    List.length_nil] at e1 e2
  omega

end CountClaims

/-! ## Flattening: the tolerance, and quadratic curves -/

section FlattenClaims

variable {F : Type} [FloatArith F]

theorem flatten_command_tolerance (fuel : Nat) (t1 t2 : F) (q : Polyline F)
    (c : PathCommand F) :
    flatten_command fuel t1 q c = flatten_command fuel t2 q c := by
  unfold flatten_command
  cases c.type <;> rfl

theorem flatten_commands_tolerance (fuel : Nat) (t1 t2 : F) (cs : List (PathCommand F))
    (q : Polyline F) :
    flatten_commands fuel t1 q cs = flatten_commands fuel t2 q cs := by
  induction cs generalizing q with
  | nil => rfl
  | cons c rest ih =>
    simp only [flatten_commands, flatten_command_tolerance fuel t1 t2 q c]
    congr 1
    funext r
    exact ih r

theorem flatten_contours_tolerance (fuel : Nat) (t1 t2 : F) (ss : List (Contour F))
    (acc : List (Polyline F)) :
    flatten_contours fuel t1 acc ss = flatten_contours fuel t2 acc ss := by
  induction ss generalizing acc with
  | nil => rfl
  | cons s rest ih =>
    simp only [flatten_contours, flatten_commands_tolerance fuel t1 t2 s.commands]
    split
    · rfl
    · split
      · exact ih _
      · rfl

set_option maxRecDepth 100000 in
/-- C11 fails on the code.  `flatten_cubic_bezier_to` sets `toi` to `tolerance`
and then to `0.04f`, and the loop reads only `toi`: for every path,
`le_path_flatten_path` gives the same result for any two tolerances, and each
curve is flattened by the loop run with `0.04f`.  On the sample path,
tolerance 1 gives polylines of 6 and 3 vertices, as tolerance 0.04 does; yet
the loop does depend on `toi`: run with `toi = 1` on the sample cubic curve it
appends 1 vertex, run with `toi = 0.04` it appends 4. -/
theorem flatten_ignores_tolerance :
    (∀ (G : Type) [FloatArith G] (fuel : Nat) (self : le_path_o G) (t1 t2 : G),
      le_path_flatten_path fuel self t1 = le_path_flatten_path fuel self t2) ∧
    (∀ (G : Type) [FloatArith G] (fuel : Nat) (polyline : Polyline G)
      (p0 p1 c1 c2 : Vertex G) (tolerance : G),
      polyline.vertices.getLast? = some p0 →
      flatten_cubic_bezier_to fuel polyline p1 c1 c2 tolerance
        = flatten_cubic_bezier_loop FloatArith.lit_0_04 fuel ⟨p0, c1, c2, p1⟩ p0 polyline) ∧
    (@le_path_flatten_path ℚ sampleArith 10 sample_curve_path 1).map
        (fun r => r.polylines.map fun q => q.vertices.length) = some [6, 3] ∧
    (@le_path_flatten_path ℚ sampleArith 10 sample_curve_path (4 / 100)).map
        (fun r => r.polylines.map fun q => q.vertices.length) = some [6, 3] ∧
    (@flatten_cubic_bezier_loop ℚ sampleArith 1 10 sample_bezier ⟨0, 0⟩ sample_polyline).map
        (fun r => r.vertices.length) = some 2 ∧
    (@flatten_cubic_bezier_loop ℚ sampleArith (4 / 100) 10 sample_bezier ⟨0, 0⟩
        sample_polyline).map (fun r => r.vertices.length) = some 5 := by
  refine ⟨?_, ?_, by decide!, by decide!, by decide!, by decide!⟩
  · intro G _ fuel self t1 t2
    simp only [le_path_flatten_path, flatten_contours_tolerance fuel t1 t2]
  · intro G _ fuel polyline p0 p1 c1 c2 tolerance h
    simp only [flatten_cubic_bezier_to, h]

set_option maxRecDepth 100000 in
/-- C12 fails on the code.  `le_path_flatten_path` hands a `Q` command to
`flatten_cubic_bezier_to` with `c1` as both control points, and the cubic curve
`(p0, c1, c1, p)` is not the quadratic curve `(p0, c1, p)`: for `p0 = (0,0)`,
`c1 = (3,4)`, `p = (6,0)` and `t = 1/2` the cubic is at `(3,3)` and the
quadratic at `(3,2)`; in general they differ by `(1-t) t (c1 - ((1-t) p0 + t p))`.
On `M 0,0 Q 3,4 6,0` tracing with resolution 2 puts a vertex at `(3,2)`, while
flattening appends the single vertex `(6,0)`. -/
theorem flatten_quad_is_not_the_quadratic :
    (∀ (G : Type) [FloatArith G] (fuel : Nat) (tolerance : G) (polyline : Polyline G)
      (command : PathCommand G), command.type = .eQuadBezierTo →
      flatten_command fuel tolerance polyline command
        = flatten_cubic_bezier_to fuel polyline command.p command.c1 command.c1 tolerance) ∧
    cubic_bezier_point (⟨0, 0⟩ : Vertex ℚ) ⟨3, 4⟩ ⟨3, 4⟩ ⟨6, 0⟩ (1 / 2) = ⟨3, 3⟩ ∧
    quad_bezier_point (⟨0, 0⟩ : Vertex ℚ) ⟨3, 4⟩ ⟨6, 0⟩ (1 / 2) = ⟨3, 2⟩ ∧
    (∀ (p0 c1 p : Vertex ℚ) (t : ℚ),
      (cubic_bezier_point p0 c1 c1 p t).x - (quad_bezier_point p0 c1 p t).x
          = (1 - t) * t * (c1.x - ((1 - t) * p0.x + t * p.x)) ∧
        (cubic_bezier_point p0 c1 c1 p t).y - (quad_bezier_point p0 c1 p t).y
          = (1 - t) * t * (c1.y - ((1 - t) * p0.y + t * p.y))) ∧
    (@trace_commands ℚ sampleArith 2 (@Polyline.empty ℚ sampleArith) sample_quad_commands).map
        (fun r => r.vertices) = some [⟨0, 0⟩, ⟨3, 2⟩, ⟨6, 0⟩] ∧
    (@flatten_commands ℚ sampleArith 10 (4 / 100) (@Polyline.empty ℚ sampleArith)
        sample_quad_commands).map (fun r => r.vertices) = some [⟨0, 0⟩, ⟨6, 0⟩] := by
  refine ⟨?_, by decide!, by decide!, ?_, by decide!, by decide!⟩
  · intro G _ fuel tolerance polyline command h
    simp only [flatten_command, h]
  · intro p0 c1 p t
    simp only [cubic_bezier_point, quad_bezier_point]
    constructor <;> ring

end FlattenClaims

/-! ## The facade le::RenderPass: calls of ref_inc and ref_dec -/

section FacadeLemmas

theorem self_in_append_new (l : List (Nat × Option Nat)) (a b : Nat) (v : Option Nat)
    (h : self_in l a = none) :
    self_in (l ++ [(a, v)]) b = if b = a then some v else self_in l b := by
  induction l with
  | nil =>
    simp only [List.nil_append, self_in]
    by_cases hb : b = a
    · simp [hb]
    · simp [hb, Ne.symm hb]
  | cons e es ih =>
    simp only [self_in] at h
    split at h
    · simp at h
    · rename_i hne
      show self_in (e :: (es ++ [(a, v)])) b = _
      simp only [self_in]
      rw [ih h]
      by_cases hb : e.1 = b
      · have : b ≠ a := fun hba => hne (hb.trans hba)
        simp [hb, this]
      · simp [hb]

theorem set_self_in_append_new (l : List (Nat × Option Nat)) (a b : Nat) (v u : Option Nat)
    (h : self_in l b ≠ none) :
    set_self_in (l ++ [(a, v)]) b u = set_self_in l b u ++ [(a, v)] := by
  induction l with
  | nil => simp [self_in] at h
  | cons e es ih =>
    simp only [self_in] at h
    show set_self_in (e :: (es ++ [(a, v)])) b u = _
    simp only [set_self_in]
    split
    · rfl
    · rename_i hne
      simp only [hne, if_false] at h
      rw [ih h]
      rfl

theorem countP_set_self_in (l : List (Nat × Option Nat)) (a p : Nat) (v u : Option Nat)
    (h : self_in l a = some v) :
    ((set_self_in l a u).countP fun e => e.2 = some p) + (if v = some p then 1 else 0)
      = (l.countP fun e => e.2 = some p) + (if u = some p then 1 else 0) := by
  induction l with
  | nil => simp [self_in] at h
  | cons e es ih =>
    simp only [self_in] at h
    simp only [set_self_in]
    split
    · rename_i he
      simp only [he, if_true, Option.some.injEq] at h
      simp only [List.countP_cons, decide_eq_true_eq, h]
      omega
    · rename_i he
      simp only [he, if_false] at h
      have := ih h
      simp only [List.countP_cons, decide_eq_true_eq]
      omega

theorem countP_remove_facade (l : List (Nat × Option Nat)) (a p : Nat) (v : Option Nat)
    (h : self_in l a = some v) :
    ((remove_facade l a).countP fun e => e.2 = some p) + (if v = some p then 1 else 0)
      = l.countP fun e => e.2 = some p := by
  induction l with
  | nil => simp [self_in] at h
  | cons e es ih =>
    simp only [self_in] at h
    simp only [remove_facade]
    split
    · rename_i he
      simp only [he, if_true, Option.some.injEq] at h
      simp only [List.countP_cons, decide_eq_true_eq, h]
    · rename_i he
      simp only [he, if_false] at h
      have := ih h
      simp only [List.countP_cons, decide_eq_true_eq]
      omega

theorem self_in_set_self_in (l : List (Nat × Option Nat)) (a b : Nat) (u : Option Nat) :
    self_in (set_self_in l a u) b
      = if b = a then (self_in l a).map (fun _ => u) else self_in l b := by
  induction l with
  | nil => simp [self_in, set_self_in]
  | cons e es ih =>
    simp only [set_self_in]
    by_cases he : e.1 = a
    · simp only [he, if_true, self_in]
      by_cases hb : b = a
      · simp [hb]
      · simp [hb, Ne.symm hb]
    · simp only [he, if_false, self_in, ih]
      by_cases hb : b = a
      · subst hb
        simp [he]
      · simp only [hb, if_false]

theorem count_append_singleton (l : List (Option Nat)) (x : Option Nat) (p : Nat) :
    ((l ++ [x]).count (some p) : Int) = l.count (some p) + (if x = some p then 1 else 0) := by
  rw [List.count_append, List.count_singleton]
  by_cases h : x = some p
  · simp [h]
  · have : ¬ (some p = x) := fun e => h e.symm
    simp [h, this]

end FacadeLemmas

section FacadeBalance

open FacadeWorld

theorem holders_construct (w : FacadeWorld) (a p : Nat) (v : Option Nat) :
    (w.construct a v).holders p = w.holders p + (if v = some p then 1 else 0) := by
  simp only [holders, construct, List.countP_append, List.countP_cons, List.countP_nil,
    decide_eq_true_eq, Nat.zero_add]

theorem holders_set_self (w : FacadeWorld) (a p : Nat) (v u : Option Nat)
    (h : w.self_of a = some v) :
    (w.set_self a u).holders p + (if v = some p then 1 else 0)
      = w.holders p + (if u = some p then 1 else 0) :=
  countP_set_self_in w.facades a p v u h

theorem net_ref_inc (w : FacadeWorld) (s : Option Nat) (p : Nat) :
    (w.ref_inc s).net_ref_calls p = w.net_ref_calls p + (if s = some p then 1 else 0) := by
  simp only [net_ref_calls, ref_inc, count_append_singleton]
  ring

theorem net_ref_dec (w : FacadeWorld) (s : Option Nat) (p : Nat) :
    (w.ref_dec s).net_ref_calls p = w.net_ref_calls p - (if s = some p then 1 else 0) := by
  simp only [net_ref_calls, ref_dec, count_append_singleton]
  ring

theorem balanced_from_pointer (w w2 : FacadeWorld) (this : Nat) (self_ : Option Nat) (p : Nat)
    (h : RenderPass.from_pointer w this self_ = some w2) : Balanced w w2 p := by
  unfold RenderPass.from_pointer at h
  split at h
  · simp at h
  · simp only [Option.some.injEq] at h
    subst h
    have h1 := holders_construct w this p self_
    have h2 : ((w.construct this self_).ref_inc self_).holders p
        = (w.construct this self_).holders p := rfl
    have h3 : (w.construct this self_).net_ref_calls p = w.net_ref_calls p := rfl
    unfold FacadeWorld.Balanced
    rw [net_ref_inc, h2, h1, h3]
    split <;> push_cast <;> ring

theorem balanced_copy_constructor (w w2 : FacadeWorld) (this rhs p : Nat)
    (h : RenderPass.copy_constructor w this rhs = some w2) : Balanced w w2 p := by
  unfold RenderPass.copy_constructor at h
  split at h
  · rename_i rhs_self _ _
    simp only [Option.some.injEq] at h
    subst h
    have h1 := holders_construct w this p rhs_self
    have h2 : ((w.construct this rhs_self).ref_inc rhs_self).holders p
        = (w.construct this rhs_self).holders p := rfl
    have h3 : (w.construct this rhs_self).net_ref_calls p = w.net_ref_calls p := rfl
    unfold FacadeWorld.Balanced
    rw [net_ref_inc, h2, h1, h3]
    split <;> push_cast <;> ring
  · simp at h

theorem balanced_destructor (w w2 : FacadeWorld) (this p : Nat)
    (h : RenderPass.destructor w this = some w2) : Balanced w w2 p := by
  unfold RenderPass.destructor at h
  split at h
  · simp at h
  · rename_i self hs
    simp only [Option.some.injEq] at h
    subst h
    unfold FacadeWorld.Balanced
    cases self with
    | none =>
      have h1 := countP_remove_facade w.facades this p none hs
      simp only [Option.isSome_none, Bool.false_eq_true, if_false, holders] at h1 ⊢
      simp only [net_ref_calls, reduceCtorEq, if_false, Nat.add_zero] at h1 ⊢
      rw [h1]
      ring
    | some q =>
      have h1 := countP_remove_facade w.facades this p (some q) hs
      simp only [Option.isSome_some, if_true]
      have h2 : (({ w.ref_dec (some q) with
            facades := remove_facade (w.ref_dec (some q)).facades this } : FacadeWorld)).net_ref_calls p
          = (w.ref_dec (some q)).net_ref_calls p := rfl
      have h3 : (({ w.ref_dec (some q) with
            facades := remove_facade (w.ref_dec (some q)).facades this } : FacadeWorld)).holders p
          = (remove_facade w.facades this).countP fun e => e.2 = some p := rfl
      have h4 : w.holders p = w.facades.countP fun e => e.2 = some p := rfl
      rw [h2, h3, h4, net_ref_dec, ← h1]
      split <;> push_cast <;> ring

theorem balanced_move_constructor (w w2 : FacadeWorld) (this rhs p : Nat)
    (h : RenderPass.move_constructor w this rhs = some w2) : Balanced w w2 p := by
  unfold RenderPass.move_constructor at h
  split at h
  · rename_i rhs_self hthis hrhs
    simp only [Option.some.injEq] at h
    subst h
    have hne : rhs ≠ this := by
      rintro rfl
      rw [hthis] at hrhs
      simp at hrhs
    have h0 : (w.construct this rhs_self).self_of rhs = some rhs_self := by
      show self_in (w.facades ++ [(this, rhs_self)]) rhs = _
      rw [self_in_append_new _ _ _ _ hthis]
      simp only [hne, if_false]
      exact hrhs
    have h1 := holders_set_self (w.construct this rhs_self) rhs p rhs_self none h0
    have h2 := holders_construct w this p rhs_self
    have h3 : ((w.construct this rhs_self).set_self rhs none).net_ref_calls p
        = w.net_ref_calls p := rfl
    have hx : ((w.construct this rhs_self).set_self rhs none).holders p = w.holders p :=
      Nat.add_right_cancel (h1.trans h2)
    unfold FacadeWorld.Balanced
    rw [h3, hx]
    ring
  · simp at h

theorem unbalanced_copy_assignment (w w2 : FacadeWorld) (this rhs p : Nat)
    (hp : w.self_of this = some (some p))
    (h : RenderPass.copy_assignment w this rhs = some w2) : ¬ Balanced w w2 p := by
  unfold RenderPass.copy_assignment at h
  split at h
  · rename_i old rhs_self hthis hrhs
    simp only [Option.some.injEq] at h
    subst h
    have h1 := holders_set_self w this p (some p) rhs_self hp
    have h2 : ((w.set_self this rhs_self).ref_inc rhs_self).holders p
        = (w.set_self this rhs_self).holders p := rfl
    have h3 : (w.set_self this rhs_self).net_ref_calls p = w.net_ref_calls p := rfl
    unfold FacadeWorld.Balanced
    rw [net_ref_inc, h2, h3]
    simp only [if_true] at h1
    intro hb
    by_cases hq : rhs_self = some p
    · rw [if_pos hq] at h1 hb
      have hx : ((w.set_self this rhs_self).holders p : Int) = w.holders p := by
        exact_mod_cast Nat.add_right_cancel h1
      rw [hx] at hb
      omega
    · rw [if_neg hq] at h1 hb
      have hx : ((w.set_self this rhs_self).holders p : Int) + 1 = w.holders p := by
        exact_mod_cast h1
      omega
  · simp at h

theorem unbalanced_move_assignment (w w2 : FacadeWorld) (this rhs p : Nat)
    (hp : w.self_of this = some (some p))
    (h : RenderPass.move_assignment w this rhs = some w2) : ¬ Balanced w w2 p := by
  unfold RenderPass.move_assignment at h
  split at h
  · rename_i old rhs_self hthis hrhs
    simp only [Option.some.injEq] at h
    subst h
    have h1 := holders_set_self w this p (some p) rhs_self hp
    have h0 : (w.set_self this rhs_self).self_of rhs = some rhs_self := by
      show self_in (set_self_in w.facades this rhs_self) rhs = _
      rw [self_in_set_self_in]
      by_cases hr : rhs = this
      · subst hr
        simp only [if_true]
        show Option.map _ (w.self_of rhs) = _
        rw [hp]
        rfl
      · simp only [hr, if_false]
        exact hrhs
    have h2 := holders_set_self (w.set_self this rhs_self) rhs p rhs_self none h0
    have h3 : ((w.set_self this rhs_self).set_self rhs none).net_ref_calls p
        = w.net_ref_calls p := rfl
    unfold FacadeWorld.Balanced
    rw [h3]
    simp only [if_true, reduceCtorEq, if_false, Nat.add_zero] at h1 h2
    intro hb
    have hx : (((w.set_self this rhs_self).set_self rhs none).holders p : Int) + 1
        = w.holders p := by
      have hy : ((w.set_self this rhs_self).set_self rhs none).holders p + 1 = w.holders p := by
        by_cases hq : rhs_self = some p
        · rw [if_pos hq] at h1 h2
          omega
        · rw [if_neg hq] at h1 h2
          omega
      exact_mod_cast hy
    omega
  · simp at h

end FacadeBalance

section FacadeClaim

/-- C13 fails on the code.  Copy assignment and move assignment overwrite
`self` and never call `ref_dec` for the pass held before.  With `a` on the pass
1 and `b` on the pass 2, both built from pointers, `a = b` leaves the world
with two facades on the pass 2, the calls `ref_inc(1)`, `ref_inc(2)`,
`ref_inc(2)` and no call of `ref_dec`; `a = std::move(b)` leaves `a` on the
pass 2, `b` on `nullptr` and no further call: in both cases the calls for the
pass 1 do not change while one facade fewer holds it.  In general either
assignment breaks the balance for the pass that the assigned facade held,
whenever it held one; construction from a pointer, copy construction, move
construction and destruction keep the balance for every pass. -/
theorem assignment_does_not_release_the_pass_held :
    ((RenderPass.from_pointer ⟨[], [], []⟩ 0 (some 1)).bind fun w =>
        RenderPass.from_pointer w 1 (some 2)) = some sample_world ∧
    RenderPass.copy_assignment sample_world 0 1
      = some ⟨[(0, some 2), (1, some 2)], [some 1, some 2, some 2], []⟩ ∧
    RenderPass.move_assignment sample_world 0 1
      = some ⟨[(0, some 2), (1, none)], [some 1, some 2], []⟩ ∧
    (∀ w2, RenderPass.copy_assignment sample_world 0 1 = some w2 →
      w2.net_ref_calls 1 - sample_world.net_ref_calls 1 = 0 ∧
        (w2.holders 1 : Int) - (sample_world.holders 1 : Int) = -1) ∧
    (∀ w2, RenderPass.move_assignment sample_world 0 1 = some w2 →
      w2.net_ref_calls 1 - sample_world.net_ref_calls 1 = 0 ∧
        (w2.holders 1 : Int) - (sample_world.holders 1 : Int) = -1) ∧
    (∀ (w w2 : FacadeWorld) (this rhs pass : Nat), w.self_of this = some (some pass) →
      (RenderPass.copy_assignment w this rhs = some w2 → ¬ FacadeWorld.Balanced w w2 pass) ∧
      (RenderPass.move_assignment w this rhs = some w2 → ¬ FacadeWorld.Balanced w w2 pass)) ∧
    (∀ (w w2 : FacadeWorld) (this rhs pass : Nat) (self_ : Option Nat),
      (RenderPass.from_pointer w this self_ = some w2 → FacadeWorld.Balanced w w2 pass) ∧
      (RenderPass.copy_constructor w this rhs = some w2 → FacadeWorld.Balanced w w2 pass) ∧
      (RenderPass.move_constructor w this rhs = some w2 → FacadeWorld.Balanced w w2 pass) ∧
      (RenderPass.destructor w this = some w2 → FacadeWorld.Balanced w w2 pass)) := by
  refine ⟨by decide, by decide, by decide, ?_, ?_, ?_, ?_⟩
  · intro w2 h
    have e : w2 = ⟨[(0, some 2), (1, some 2)], [some 1, some 2, some 2], []⟩ :=
      Option.some.inj (h.symm.trans (by decide))
    subst e
    exact ⟨by decide, by decide⟩
  · intro w2 h
    have e : w2 = ⟨[(0, some 2), (1, none)], [some 1, some 2], []⟩ :=
      Option.some.inj (h.symm.trans (by decide))
    subst e
    exact ⟨by decide, by decide⟩
  · intro w w2 this rhs pass hp
    exact ⟨unbalanced_copy_assignment w w2 this rhs pass hp,
      unbalanced_move_assignment w w2 this rhs pass hp⟩
  · intro w w2 this rhs pass self_
    exact ⟨balanced_from_pointer w w2 this self_ pass,
      balanced_copy_constructor w w2 this rhs pass,
      balanced_move_constructor w w2 this rhs pass,
      balanced_destructor w w2 this pass⟩

end FacadeClaim

/-! ## trace_line_to: a point identical with the previous one -/

section LineToClaim

variable {F : Type} [FloatArith F]

theorem exact_glm_dot (sq : ℚ → ℚ) (a b : Vertex ℚ) :
    @glm_dot ℚ (exactArith sq) a b = a.x * b.x + a.y * b.y := rfl

theorem exact_sub_vertex (sq : ℚ → ℚ) (a b : Vertex ℚ) :
    @HSub.hSub (Vertex ℚ) (Vertex ℚ) (Vertex ℚ) (@instHSub _ (@Vertex.instSub ℚ (exactArith sq)))
      a b = ⟨a.x - b.x, a.y - b.y⟩ := rfl

theorem exact_trace_line_to (sq : ℚ → ℚ) (q : Polyline ℚ) (p p0 : Vertex ℚ)
    (hp0 : q.vertices.getLast? = some p0) :
    @trace_line_to ℚ (exactArith sq) q p
      = if (p.x - p0.x) ^ 2 + (p.y - p0.y) ^ 2 ≤ (1 / 2 ^ 23 : ℚ) ^ 2 then some q
        else some ⟨q.vertices ++ [p], q.tangents ++ [⟨p.x - p0.x, p.y - p0.y⟩],
          q.distances ++ [q.total_distance + sq ((p.x - p0.x) ^ 2 + (p.y - p0.y) ^ 2)],
          q.total_distance + sq ((p.x - p0.x) ^ 2 + (p.y - p0.y) ^ 2)⟩ := by
  have e1 : @glm_dot ℚ (exactArith sq)
      (@HSub.hSub (Vertex ℚ) (Vertex ℚ) (Vertex ℚ)
        (@instHSub _ (@Vertex.instSub ℚ (exactArith sq))) p p0)
      (@HSub.hSub (Vertex ℚ) (Vertex ℚ) (Vertex ℚ)
        (@instHSub _ (@Vertex.instSub ℚ (exactArith sq))) p p0)
      = (p.x - p0.x) ^ 2 + (p.y - p0.y) ^ 2 := by
    rw [exact_glm_dot, exact_sub_vertex]
    ring
  have e2 : @HMul.hMul ℚ ℚ ℚ (@instHMul ℚ (exactArith sq).toMul) (exactArith sq).epsilon
      (exactArith sq).epsilon = (1 / 2 ^ 23 : ℚ) ^ 2 := by
    rw [exact_mul]
    show (1 / 2 ^ 23 : ℚ) * (1 / 2 ^ 23) = _
    ring
  simp only [trace_line_to, hp0, e1, e2, exact_add]
  show (if decide ((p.x - p0.x) ^ 2 + (p.y - p0.y) ^ 2 ≤ (1 / 2 ^ 23 : ℚ) ^ 2) = true then _
    else _) = _
  simp only [decide_eq_true_eq]
  rfl

end LineToClaim

/-! ## The loop of flatten_cubic_bezier_to in float: a curve on which it does not end -/

section FlattenStuck

variable {F : Type} [FloatArith F]

theorem flatten_cubic_bezier_loop_succ (toi : F) (fuel : Nat) (b : Bezier4 F)
    (p_prev : Vertex F) (polyline : Polyline F) :
    flatten_cubic_bezier_loop toi (fuel + 1) b p_prev polyline
      = if FloatArith.le (FloatArith.ofNat 1) (flatten_step_t toi b) then
          some ⟨polyline.vertices ++ [flatten_step_pt toi b p_prev], polyline.tangents ++ [0],
            polyline.distances
              ++ [polyline.total_distance + glm_distance (flatten_step_pt toi b p_prev) p_prev],
            polyline.total_distance + glm_distance (flatten_step_pt toi b p_prev) p_prev⟩
        else
          flatten_cubic_bezier_loop toi fuel (flatten_step_bezier toi b p_prev)
            (flatten_step_pt toi b p_prev)
            ⟨polyline.vertices ++ [flatten_step_pt toi b p_prev], polyline.tangents ++ [0],
              polyline.distances
                ++ [polyline.total_distance
                  + glm_distance (flatten_step_pt toi b p_prev) p_prev],
              polyline.total_distance + glm_distance (flatten_step_pt toi b p_prev) p_prev⟩ :=
  rfl

/-- When a turn of the loop takes a step `t < 1` and leaves the curve and the
previous point as they were, no number of turns ends the loop. -/
theorem flatten_cubic_bezier_loop_stuck (toi : F) (b : Bezier4 F) (p_prev : Vertex F)
    (ht : FloatArith.le (FloatArith.ofNat 1) (flatten_step_t toi b) = false)
    (hb : flatten_step_bezier toi b p_prev = b) (hp : flatten_step_pt toi b p_prev = p_prev) :
    ∀ (fuel : Nat) (polyline : Polyline F),
      flatten_cubic_bezier_loop toi fuel b p_prev polyline = none := by
  intro fuel
  induction fuel with
  | zero => intro polyline; rfl
  | succ n ih =>
    intro polyline
    rw [flatten_cubic_bezier_loop_succ, ht, hb, hp]
    exact ih _

end FlattenStuck

section FlattenStuck32

set_option maxRecDepth 100000 in
theorem far_step_t :
    @flatten_step_t Binary32 binary32Arith binary32Arith.lit_0_04 far_bezier
      = .finite (10958831 / 17179869184) := by
  decide!

set_option maxRecDepth 100000 in
theorem far_step_pt :
    @flatten_step_pt Binary32 binary32Arith binary32Arith.lit_0_04 far_bezier far_p0
      = far_p0 := by
  decide!

set_option maxRecDepth 100000 in
theorem far_step_bezier :
    @flatten_step_bezier Binary32 binary32Arith binary32Arith.lit_0_04 far_bezier far_p0
      = far_bezier := by
  decide!

/-- On the curve `far_bezier` the loop of `flatten_cubic_bezier_to` does not
end: a turn takes the step `t = 10958831 / 2^34`, about 0.00064, the point
`pt` it appends is `p_prev` again, and the rest of the curve is the curve
again, all after rounding to `float`. -/
theorem far_loop_stuck (fuel : Nat) (polyline : Polyline Binary32) :
    @flatten_cubic_bezier_loop Binary32 binary32Arith binary32Arith.lit_0_04 fuel
      far_bezier far_p0 polyline = none :=
  @flatten_cubic_bezier_loop_stuck Binary32 binary32Arith _ far_bezier far_p0
    (by rw [far_step_t]; decide!) far_step_bezier far_step_pt fuel polyline

theorem far_flatten_commands (fuel : Nat) (tolerance : Binary32) :
    @flatten_commands Binary32 binary32Arith fuel tolerance
      (@Polyline.empty Binary32 binary32Arith) far_commands = none := by
  simp only [far_commands, flatten_commands, flatten_command, Option.some_bind,
    flatten_cubic_bezier_to, trace_move_to, Polyline.empty, List.nil_append,
    List.getLast?_singleton]
  rw [show (⟨far_p0, far_bezier.b1, far_bezier.b2, far_bezier.b3⟩ : Bezier4 Binary32)
    = far_bezier from rfl, far_loop_stuck]
  rfl

theorem far_flatten_path (fuel : Nat) (tolerance : Binary32) :
    @le_path_flatten_path Binary32 binary32Arith fuel far_path tolerance = none := by
  simp only [le_path_flatten_path, far_path, flatten_contours, far_flatten_commands,
    Option.map_none']

end FlattenStuck32

/-! ## Polylines begin with the point of their MoveTo; the claim on translation -/

section PrefixLemmas

variable {F : Type} [FloatArith F]

theorem prefix_trace_line_to (q r : Polyline F) (p : Vertex F)
    (h : trace_line_to q p = some r) : q.vertices <+: r.vertices := by
  unfold trace_line_to at h
  split at h
  · simp at h
  · simp only at h
    split at h
    · cases Option.some.inj h; exact List.prefix_refl _
    · cases Option.some.inj h; exact List.prefix_append _ _

theorem prefix_trace_close_path (q r : Polyline F) (h : trace_close_path q = some r) :
    q.vertices <+: r.vertices := by
  unfold trace_close_path at h
  split at h
  · simp at h
  · exact prefix_trace_line_to q r _ h

theorem prefix_trace_quad_bezier_to (q r : Polyline F) (p1 c1 : Vertex F) (resolution : Nat)
    (h : trace_quad_bezier_to q p1 c1 resolution = some r) : q.vertices <+: r.vertices := by
  by_cases h0 : resolution = 0
  · subst h0
    simp only [trace_quad_bezier_to, if_true] at h
    cases Option.some.inj h; exact List.prefix_refl _
  by_cases h1 : resolution = 1
  · subst h1
    simp only [trace_quad_bezier_to, if_true, one_ne_zero, if_false] at h
    exact prefix_trace_line_to q r p1 h
  cases hp : q.vertices.getLast? with
  | none => simp [trace_quad_bezier_to, h0, h1, hp] at h
  | some p0 =>
    obtain ⟨r1, hr, hv, -, -⟩ :=
      trace_quad_bezier_to_shape q p0 p1 c1 resolution (by omega) hp
    rw [h] at hr
    cases Option.some.inj hr
    rw [hv]
    exact List.prefix_append _ _

theorem prefix_trace_cubic_bezier_to (q r : Polyline F) (p1 c1 c2 : Vertex F)
    (resolution : Nat) (h : trace_cubic_bezier_to q p1 c1 c2 resolution = some r) :
    q.vertices <+: r.vertices := by
  by_cases h0 : resolution = 0
  · subst h0
    simp only [trace_cubic_bezier_to, if_true] at h
    cases Option.some.inj h; exact List.prefix_refl _
  by_cases h1 : resolution = 1
  · subst h1
    simp only [trace_cubic_bezier_to, if_true, one_ne_zero, if_false] at h
    exact prefix_trace_line_to q r p1 h
  cases hp : q.vertices.getLast? with
  | none => simp [trace_cubic_bezier_to, h0, h1, hp] at h
  | some p0 =>
    obtain ⟨r1, hr, hv, -, -⟩ :=
      trace_cubic_bezier_to_shape q p0 p1 c1 c2 resolution (by omega) hp
    rw [h] at hr
    cases Option.some.inj hr
    rw [hv]
    exact List.prefix_append _ _

theorem prefix_flatten_cubic_bezier_loop (toi : F) :
    ∀ (fuel : Nat) (b : Bezier4 F) (p_prev : Vertex F) (q r : Polyline F),
      flatten_cubic_bezier_loop toi fuel b p_prev q = some r → q.vertices <+: r.vertices := by
  intro fuel
  induction fuel with
  | zero => intro b p_prev q r h; simp [flatten_cubic_bezier_loop] at h
  | succ fuel ih =>
    intro b p_prev q r h
    rw [flatten_cubic_bezier_loop_succ] at h
    split at h
    · cases Option.some.inj h
      exact List.prefix_append _ _
    · exact (List.prefix_append _ _).trans (ih _ _ _ _ h)

theorem prefix_flatten_cubic_bezier_to (fuel : Nat) (q r : Polyline F)
    (p1 c1 c2 : Vertex F) (tolerance : F)
    (h : flatten_cubic_bezier_to fuel q p1 c1 c2 tolerance = some r) :
    q.vertices <+: r.vertices := by
  unfold flatten_cubic_bezier_to at h
  split at h
  · simp at h
  · exact prefix_flatten_cubic_bezier_loop _ fuel _ _ q r h

theorem prefix_trace_command (resolution : Nat) (q r : Polyline F) (c : PathCommand F)
    (h : trace_command resolution q c = some r) : q.vertices <+: r.vertices := by
  unfold trace_command at h
  split at h
  · cases Option.some.inj h; exact List.prefix_append _ _
  · exact prefix_trace_line_to q r _ h
  · exact prefix_trace_quad_bezier_to q r _ _ _ h
  · exact prefix_trace_cubic_bezier_to q r _ _ _ _ h
  · exact prefix_trace_close_path q r h
  · simp at h

theorem prefix_flatten_command (fuel : Nat) (tolerance : F) (q r : Polyline F)
    (c : PathCommand F) (h : flatten_command fuel tolerance q c = some r) :
    q.vertices <+: r.vertices := by
  unfold flatten_command at h
  split at h
  · cases Option.some.inj h; exact List.prefix_append _ _
  · exact prefix_trace_line_to q r _ h
  · exact prefix_flatten_cubic_bezier_to fuel q r _ _ _ _ h
  · exact prefix_flatten_cubic_bezier_to fuel q r _ _ _ _ h
  · exact prefix_trace_close_path q r h
  · simp at h

theorem prefix_trace_commands (resolution : Nat) (cs : List (PathCommand F)) :
    ∀ q r : Polyline F, trace_commands resolution q cs = some r →
      q.vertices <+: r.vertices := by
  induction cs with
  | nil => intro q r h; cases Option.some.inj h; exact List.prefix_refl _
  | cons c cs ih =>
    intro q r h
    rw [trace_commands] at h
    cases h1 : trace_command resolution q c with
    | none => simp [h1] at h
    | some q1 =>
      rw [h1, Option.some_bind] at h
      exact (prefix_trace_command resolution q q1 c h1).trans (ih q1 r h)

theorem prefix_flatten_commands (fuel : Nat) (tolerance : F) (cs : List (PathCommand F)) :
    ∀ q r : Polyline F, flatten_commands fuel tolerance q cs = some r →
      q.vertices <+: r.vertices := by
  induction cs with
  | nil => intro q r h; cases Option.some.inj h; exact List.prefix_refl _
  | cons c cs ih =>
    intro q r h
    rw [flatten_commands] at h
    cases h1 : flatten_command fuel tolerance q c with
    | none => simp [h1] at h
    | some q1 =>
      rw [h1, Option.some_bind] at h
      exact (prefix_flatten_command fuel tolerance q q1 c h1).trans (ih q1 r h)

/-- The polyline traced from a contour that begins with `MoveTo` begins with
the point of that `MoveTo`. -/
theorem head_trace_commands (resolution : Nat) (m : PathCommand F)
    (rest : List (PathCommand F)) (r : Polyline F) (hm : m.type = .eMoveTo)
    (h : trace_commands resolution Polyline.empty (m :: rest) = some r) :
    r.vertices.head? = some m.p := by
  have h1 : trace_command resolution Polyline.empty m
      = some (trace_move_to Polyline.empty m.p) := by
    simp [trace_command, hm]
  rw [trace_commands, h1, Option.some_bind] at h
  obtain ⟨t, ht⟩ := prefix_trace_commands resolution rest _ r h
  rw [← ht]
  rfl

/-- The polyline flattened from a contour that begins with `MoveTo` begins with
the point of that `MoveTo`. -/
theorem head_flatten_commands (fuel : Nat) (tolerance : F) (m : PathCommand F)
    (rest : List (PathCommand F)) (r : Polyline F) (hm : m.type = .eMoveTo)
    (h : flatten_commands fuel tolerance Polyline.empty (m :: rest) = some r) :
    r.vertices.head? = some m.p := by
  have h1 : flatten_command fuel tolerance Polyline.empty m
      = some (trace_move_to Polyline.empty m.p) := by
    simp [flatten_command, hm]
  rw [flatten_commands, h1, Option.some_bind] at h
  obtain ⟨t, ht⟩ := prefix_flatten_commands fuel tolerance rest _ r h
  rw [← ht]
  rfl

end PrefixLemmas

section TranslationClaim

set_option maxRecDepth 100000 in
/-- C6 fails on the code for `le_path_flatten_path`.  Tracing does what the
claim says: for a path whose contours begin with `MoveTo` (and hold no
`eUnknown` command), `le_path_trace_path` returns, for any resolution, as many
polylines as contours, polyline `i` is the trace of the commands of contour `i`
alone and begins with the point of its `MoveTo`, and the polylines held before
are discarded.  So does every call of `le_path_flatten_path` that returns.  But
the loop of `flatten_cubic_bezier_to` has no bound, and in `float` it does not
end on the path `far_path` (one contour, `M` and `C` with coordinates near
`2^40`): for no number of turns and no tolerance is a polyline produced, while
tracing the same path returns.  On the path `sample_path32`, with small
coordinates, both return in `float`. -/
theorem flatten_path_does_not_return :
    (∀ (G : Type) [FloatArith G] (self : le_path_o G) (resolution : Nat),
      (∀ s ∈ self.contours, (∃ m rest, s.commands = m :: rest ∧ m.type = .eMoveTo) ∧
        ∀ c ∈ s.commands, c.type ≠ .eUnknown) →
      ∃ polylines, le_path_trace_path self resolution = some ⟨self.contours, polylines⟩ ∧
        polylines.length = self.contours.length ∧
        ∀ (i : Nat) (s : Contour G), self.contours[i]? = some s →
          ∃ q, polylines[i]? = some q ∧
            trace_commands resolution Polyline.empty s.commands = some q ∧
            q.vertices.head? = s.commands.head?.map (fun c => c.p) ∧
            q.vertices.length = q.distances.length) ∧
    (∀ (G : Type) [FloatArith G] (self : le_path_o G) (fuel : Nat) (tolerance : G)
      (flattened : le_path_o G),
      (∀ s ∈ self.contours, (∃ m rest, s.commands = m :: rest ∧ m.type = .eMoveTo) ∧
        ∀ c ∈ s.commands, c.type ≠ .eUnknown) →
      le_path_flatten_path fuel self tolerance = some flattened →
      (∀ more, fuel ≤ more → le_path_flatten_path more self tolerance = some flattened) ∧
      flattened.contours = self.contours ∧
      flattened.polylines.length = self.contours.length ∧
      ∀ (i : Nat) (s : Contour G), self.contours[i]? = some s →
        ∃ q, flattened.polylines[i]? = some q ∧
          flatten_commands fuel tolerance Polyline.empty s.commands = some q ∧
          q.vertices.head? = s.commands.head?.map (fun c => c.p) ∧
          q.vertices.length = q.distances.length) ∧
    (@le_path_trace_path Binary32 binary32Arith sample_path32 3).map
        (fun r => r.polylines.map fun q => q.vertices)
      = some [[⟨.finite 0, .finite 0⟩,
          ⟨.finite (16777215 / 16777216), .finite (14913081 / 67108864)⟩,
          ⟨.finite 2, .finite (14913081 / 33554432)⟩, ⟨.finite 3, .finite 0⟩,
          ⟨.finite 0, .finite 0⟩],
        [⟨.finite 5, .finite 5⟩, ⟨.finite 6, .finite 5⟩,
          ⟨.finite (3495253 / 524288), .finite (5708913 / 1048576)⟩,
          ⟨.finite (7689557 / 1048576), .finite (11417827 / 2097152)⟩,
          ⟨.finite 8, .finite 5⟩]] ∧
    (@le_path_flatten_path Binary32 binary32Arith 10 sample_path32 (.finite 0)).map
        (fun r => r.polylines.map fun q => q.vertices)
      = some [[⟨.finite 0, .finite 0⟩,
          ⟨.finite (2905899 / 4194304), .finite (16515435 / 134217728)⟩,
          ⟨.finite (4132263 / 2097152), .finite (14903389 / 33554432)⟩,
          ⟨.finite (11214665 / 4194304), .finite (4347451 / 16777216)⟩,
          ⟨.finite (12582911 / 4194304), .finite (-1 / 33554432)⟩, ⟨.finite 0, .finite 0⟩],
        [⟨.finite 5, .finite 5⟩, ⟨.finite 6, .finite 5⟩, ⟨.finite 8, .finite 5⟩]] ∧
    (∀ s ∈ far_path.contours, (∃ m rest, s.commands = m :: rest ∧ m.type = .eMoveTo) ∧
      ∀ c ∈ s.commands, c.type ≠ .eUnknown) ∧
    (∀ (fuel : Nat) (tolerance : Binary32),
      @le_path_flatten_path Binary32 binary32Arith fuel far_path tolerance = none) ∧
    (@le_path_trace_path Binary32 binary32Arith far_path 3).map
        (fun r => r.polylines.map fun q => q.vertices)
      = some [[⟨.finite 1099511627776, .finite 1099511627776⟩,
          ⟨.finite 1099511627776, .finite 1099511562240⟩,
          ⟨.finite 1099511889920, .finite 1099511758848⟩,
          ⟨.finite 1099512020992, .finite 1099511627776⟩]] := by
  refine ⟨?_, ?_, by decide!, by decide!, ?_, far_flatten_path, by decide!⟩
  · intro G _ self resolution hself
    obtain ⟨⟨polylines, hp, hl, hi⟩, -⟩ :=
      polylines_of_contours self resolution 0 (0 : G) hself
    refine ⟨polylines, hp, hl, ?_⟩
    intro i s his
    obtain ⟨⟨m, rest, hcmd, hm⟩, -⟩ := hself s (List.mem_iff_getElem?.mpr ⟨i, his⟩)
    obtain ⟨q, hq, hlen⟩ := trace_commands_contour resolution s (hself s (List.mem_iff_getElem?.mpr ⟨i, his⟩))
    refine ⟨q, (hi i s his).trans hq, hq, ?_, hlen⟩
    rw [hcmd] at hq ⊢
    exact head_trace_commands resolution m rest q hm hq
  · intro G _ self fuel tolerance flattened hself hf
    obtain ⟨hmono, hc, hl, hi⟩ := (polylines_of_contours self 0 fuel tolerance hself).2
      flattened hf
    refine ⟨hmono, hc, hl, ?_⟩
    intro i s his
    have hlt : i < flattened.polylines.length := by
      rw [hl]
      exact (List.getElem?_eq_some_iff.mp his).1
    obtain ⟨q, hq⟩ : ∃ q, flattened.polylines[i]? = some q :=
      ⟨flattened.polylines[i], List.getElem?_eq_getElem hlt⟩
    have hq2 : flatten_commands fuel tolerance Polyline.empty s.commands = some q :=
      (hi i s his).symm.trans hq
    obtain ⟨⟨m, rest, hcmd, hm⟩, -⟩ := hself s (List.mem_iff_getElem?.mpr ⟨i, his⟩)
    refine ⟨q, hq, hq2, ?_, distances_flatten_commands fuel tolerance _ _ q rfl hq2⟩
    rw [hcmd] at hq2 ⊢
    exact head_flatten_commands fuel tolerance m rest q hm hq2
  · intro s hs
    simp only [far_path, List.mem_singleton] at hs
    subst hs
    exact ⟨⟨_, _, rfl, rfl⟩, by decide⟩

end TranslationClaim

/-! ## Open contours: the tangent count, and a contour that is never flattened -/

section OpenPathClaim

set_option maxRecDepth 100000 in
/-- C15 fails on the code for `le_path_flatten_path`.  The count is right for
every polyline that is produced: for every contour that starts with its single
`MoveTo` and holds no `ClosePath` (and no `eUnknown` command), tracing returns,
for any resolution, a polyline with exactly one tangent fewer than it has
vertices, and every polyline that flattening returns has one tangent fewer than
vertices.  But for the open contour `far_commands` (`M` and `C` with
coordinates near `2^40`) flattening in `float` produces no polyline, for no
number of turns of the loop of `flatten_cubic_bezier_to` and no tolerance,
while tracing it gives 4 vertices and 3 tangents.  On the open contour
`M 0,0 L 1,0 Q 2,1 3,0 C 4,0 5,1 6,0` flattening in `float` gives 7 vertices
and 6 tangents, tracing with resolution 3 gives 8 and 7. -/
theorem open_path_flatten_does_not_return :
    (∀ (G : Type) [FloatArith G] (resolution fuel : Nat) (tolerance : G)
      (m : PathCommand G) (rest : List (PathCommand G)), m.type = .eMoveTo →
      (∀ c ∈ rest, c.type ≠ .eMoveTo ∧ c.type ≠ .eClosePath ∧ c.type ≠ .eUnknown) →
      (∃ r, trace_commands resolution Polyline.empty (m :: rest) = some r ∧
        r.tangents.length + 1 = r.vertices.length) ∧
      (∀ r, flatten_commands fuel tolerance Polyline.empty (m :: rest) = some r →
        r.tangents.length + 1 = r.vertices.length)) ∧
    (∃ m rest, far_commands = m :: rest ∧ m.type = .eMoveTo ∧
      ∀ c ∈ rest, c.type ≠ .eMoveTo ∧ c.type ≠ .eClosePath ∧ c.type ≠ .eUnknown) ∧
    (∀ (fuel : Nat) (tolerance : Binary32),
      @flatten_commands Binary32 binary32Arith fuel tolerance
        (@Polyline.empty Binary32 binary32Arith) far_commands = none) ∧
    (@trace_commands Binary32 binary32Arith 3 (@Polyline.empty Binary32 binary32Arith)
        far_commands).map (fun r => (r.vertices.length, r.tangents.length)) = some (4, 3) ∧
    (@flatten_commands Binary32 binary32Arith 10 (.finite 0)
        (@Polyline.empty Binary32 binary32Arith) (sample_move32 :: sample_open_commands32)).map
      (fun r => (r.vertices.length, r.tangents.length)) = some (7, 6) ∧
    (@trace_commands Binary32 binary32Arith 3 (@Polyline.empty Binary32 binary32Arith)
        (sample_move32 :: sample_open_commands32)).map
      (fun r => (r.vertices.length, r.tangents.length)) = some (8, 7) := by
  refine ⟨?_, ⟨_, _, rfl, rfl, by decide⟩, far_flatten_commands, by decide!, by decide!,
    by decide!⟩
  intro G _ resolution fuel tolerance m rest hm hrest
  exact tangent_count_of_open_contour resolution fuel tolerance m rest hm hrest

end OpenPathClaim

/-! ## Sampling in float: the parameter of a turn, and the claims on vertices and tangents -/

section SamplingLemmas

variable {F : Type} [FloatArith F]

omit [FloatArith F] in
theorem getElem?_append_map_range' {α : Type} (l : List α) (f : Nat → α) (n i : Nat)
    (h1 : 1 ≤ i) (h2 : i ≤ n) :
    (l ++ (List.range' 1 n).map f)[l.length + (i - 1)]? = some (f i) := by
  rw [List.getElem?_append_right (by omega)]
  simp only [Nat.add_sub_cancel_left, List.getElem?_map]
  rw [List.getElem?_range' 1 1 (show i - 1 < n by omega)]
  simp only [Option.map_some', one_mul]
  congr 2
  omega

set_option maxRecDepth 100000 in
theorem binary32_last_quad_vertex :
    @trace_quad_bezier_vertex Binary32 binary32Arith ⟨.finite 0, .finite 0⟩
        ⟨.finite 4, .finite 0⟩ ⟨.finite 2, .finite 2⟩
        (@HDiv.hDiv Binary32 Binary32 Binary32 (@instHDiv _ binary32Arith.toDiv)
          (binary32Arith.ofNat 1) (binary32Arith.ofNat 41)) 41
      = ⟨.finite (16777215 / 4194304), .finite (16777215 / 70368744177664)⟩ := by
  decide!

set_option maxRecDepth 100000 in
theorem binary32_last_cubic_vertex :
    @trace_cubic_bezier_vertex Binary32 binary32Arith ⟨.finite 0, .finite 0⟩
        ⟨.finite 4, .finite 0⟩ ⟨.finite 2, .finite 2⟩ ⟨.finite 3, .finite 1⟩
        (@HDiv.hDiv Binary32 Binary32 Binary32 (@instHDiv _ binary32Arith.toDiv)
          (binary32Arith.ofNat 1) (binary32Arith.ofNat 41)) 41
      = ⟨.finite (16777215 / 4194304), .finite (12582911 / 70368744177664)⟩ := by
  decide!

set_option maxRecDepth 100000 in
theorem binary32_last_quad_tangent :
    @trace_quad_bezier_tangent Binary32 binary32Arith ⟨.finite 0, .finite 0⟩
        ⟨.finite 4, .finite 0⟩ ⟨.finite 2, .finite 2⟩
        (@HDiv.hDiv Binary32 Binary32 Binary32 (@instHDiv _ binary32Arith.toDiv)
          (binary32Arith.ofNat 1) (binary32Arith.ofNat 41)) 41
      = ⟨.finite 4, .finite (-8388607 / 2097152)⟩ := by
  decide!

set_option maxRecDepth 100000 in
theorem binary32_last_cubic_tangent :
    @trace_cubic_bezier_tangent Binary32 binary32Arith ⟨.finite 0, .finite 0⟩
        ⟨.finite 4, .finite 0⟩ ⟨.finite 2, .finite 2⟩ ⟨.finite 3, .finite 1⟩
        (@HDiv.hDiv Binary32 Binary32 Binary32 (@instHDiv _ binary32Arith.toDiv)
          (binary32Arith.ofNat 1) (binary32Arith.ofNat 41)) 41
      = ⟨.finite 3, .finite (-12582911 / 4194304)⟩ := by
  decide!

end SamplingLemmas

section SamplingClaims

variable {F : Type} [FloatArith F]

set_option maxRecDepth 100000 in
/-- C17, as stated, fails in `float`.  Traced from `(0,0)` with control point
`(2,2)` and end point `(4,0)`, the quadratic curve at resolution 3 gets the
first vertex `(5592405 / 2^22, 1864135 / 2^21)`, where the Bezier point at
`t = 1/3` is `(4/3, 8/9)` and the values of `float` nearest to it are
`(11184811 / 2^23, 14913081 / 2^24)`.  At resolution 41 the parameter of the
last turn, `41 * (1 / 41)` in `float`, is `1 - 2^-24`, and the last vertex is
`(4 - 2^-22, 16777215 / 2^46)`, for the quadratic and (with second control
point `(3,1)`) `(4 - 2^-22, 12582911 / 2^46)` for the cubic curve, where the
Bezier point at `t = 41/41` is the end point `(4,0)`.  So the vertex of turn
`i` is not, for every curve, the Bezier point at `i / resolution`. -/
theorem traced_vertex_is_not_the_bezier_point :
    (@trace_quad_bezier_to Binary32 binary32Arith sample_polyline32 ⟨.finite 4, .finite 0⟩
        ⟨.finite 2, .finite 2⟩ 3).map (fun r => r.vertices)
      = some [⟨.finite 0, .finite 0⟩,
          ⟨.finite (5592405 / 4194304), .finite (1864135 / 2097152)⟩,
          ⟨.finite (11184811 / 4194304), .finite (1864135 / 2097152)⟩,
          ⟨.finite 4, .finite 0⟩] ∧
    quad_bezier_point (⟨0, 0⟩ : Vertex ℚ) ⟨2, 2⟩ ⟨4, 0⟩ ((1 : ℚ) / 3) = ⟨4 / 3, 8 / 9⟩ ∧
    Binary32.round (4 / 3) = .finite (11184811 / 8388608) ∧
    Binary32.round (8 / 9) = .finite (14913081 / 16777216) ∧
    @HMul.hMul Binary32 Binary32 Binary32 (@instHMul _ binary32Arith.toMul)
        (binary32Arith.ofNat 41)
        (@HDiv.hDiv Binary32 Binary32 Binary32 (@instHDiv _ binary32Arith.toDiv)
          (binary32Arith.ofNat 1) (binary32Arith.ofNat 41))
      = .finite (16777215 / 16777216) ∧
    (∃ r, @trace_quad_bezier_to Binary32 binary32Arith sample_polyline32
          ⟨.finite 4, .finite 0⟩ ⟨.finite 2, .finite 2⟩ 41 = some r ∧
        r.vertices[sample_polyline32.vertices.length + (41 - 1)]?
          = some ⟨.finite (16777215 / 4194304), .finite (16777215 / 70368744177664)⟩) ∧
    quad_bezier_point (⟨0, 0⟩ : Vertex ℚ) ⟨2, 2⟩ ⟨4, 0⟩ ((41 : ℚ) / 41) = ⟨4, 0⟩ ∧
    (∃ r, @trace_cubic_bezier_to Binary32 binary32Arith sample_polyline32
          ⟨.finite 4, .finite 0⟩ ⟨.finite 2, .finite 2⟩ ⟨.finite 3, .finite 1⟩ 41 = some r ∧
        r.vertices[sample_polyline32.vertices.length + (41 - 1)]?
          = some ⟨.finite (16777215 / 4194304), .finite (12582911 / 70368744177664)⟩) ∧
    cubic_bezier_point (⟨0, 0⟩ : Vertex ℚ) ⟨2, 2⟩ ⟨3, 1⟩ ⟨4, 0⟩ ((41 : ℚ) / 41) = ⟨4, 0⟩ ∧
    ¬ (∀ (q : Polyline Binary32) (p0 p1 c1 : Vertex ℚ) (resolution i : Nat),
        2 ≤ resolution → 1 ≤ i → i ≤ resolution →
        q.vertices.getLast? = some ⟨.finite p0.x, .finite p0.y⟩ →
        ∃ r, @trace_quad_bezier_to Binary32 binary32Arith q ⟨.finite p1.x, .finite p1.y⟩
            ⟨.finite c1.x, .finite c1.y⟩ resolution = some r ∧
          r.vertices[q.vertices.length + (i - 1)]?
            = some ⟨.finite (quad_bezier_point p0 c1 p1 ((i : ℚ) / resolution)).x,
                .finite (quad_bezier_point p0 c1 p1 ((i : ℚ) / resolution)).y⟩) := by
  have hq : ∃ r, @trace_quad_bezier_to Binary32 binary32Arith sample_polyline32
        ⟨.finite 4, .finite 0⟩ ⟨.finite 2, .finite 2⟩ 41 = some r ∧
      r.vertices[sample_polyline32.vertices.length + (41 - 1)]?
        = some ⟨.finite (16777215 / 4194304), .finite (16777215 / 70368744177664)⟩ := by
    obtain ⟨r, hr, hv, -, -⟩ := @trace_quad_bezier_to_shape Binary32 binary32Arith
      sample_polyline32 ⟨.finite 0, .finite 0⟩ ⟨.finite 4, .finite 0⟩ ⟨.finite 2, .finite 2⟩ 41
      (by decide) rfl
    refine ⟨r, hr, ?_⟩
    rw [hv, getElem?_append_map_range' _ _ 41 41 (by decide) (by decide),
      binary32_last_quad_vertex]
  have hc : ∃ r, @trace_cubic_bezier_to Binary32 binary32Arith sample_polyline32
        ⟨.finite 4, .finite 0⟩ ⟨.finite 2, .finite 2⟩ ⟨.finite 3, .finite 1⟩ 41 = some r ∧
      r.vertices[sample_polyline32.vertices.length + (41 - 1)]?
        = some ⟨.finite (16777215 / 4194304), .finite (12582911 / 70368744177664)⟩ := by
    obtain ⟨r, hr, hv, -, -⟩ := @trace_cubic_bezier_to_shape Binary32 binary32Arith
      sample_polyline32 ⟨.finite 0, .finite 0⟩ ⟨.finite 4, .finite 0⟩ ⟨.finite 2, .finite 2⟩
      ⟨.finite 3, .finite 1⟩ 41 (by decide) rfl
    refine ⟨r, hr, ?_⟩
    rw [hv, getElem?_append_map_range' _ _ 41 41 (by decide) (by decide),
      binary32_last_cubic_vertex]
  refine ⟨by decide!, by decide!, by decide!, by decide!, by decide!, hq, by decide!, hc,
    by decide!, ?_⟩
  intro h
  obtain ⟨r, hr, hv⟩ := hq
  obtain ⟨r2, hr2, hv2⟩ := h sample_polyline32 ⟨0, 0⟩ ⟨4, 0⟩ ⟨2, 2⟩ 41 41 (by decide)
    (by decide) (by decide) rfl
  rw [hr] at hr2
  cases Option.some.inj hr2
  rw [hv] at hv2
  revert hv2
  decide!

end SamplingClaims

section SamplingClaimsAmended

variable {F : Type} [FloatArith F]

/-- C17, amended.  For a resolution of at least 2 and with `p0` the last vertex
of the polyline before the call, `trace_quad_bezier_to` appends `resolution`
vertices, and the vertex of turn `i`, `1 <= i <= resolution`, is the value in
the arithmetic of the code of `(1-t)^2 p0 + 2(1-t)t c1 + t^2 p1` at
`t = i * (1 / resolution)`, computed as the source writes it;
`trace_cubic_bezier_to` likewise with
`(1-t)^3 p0 + 3(1-t)^2 t c1 + 3(1-t)t^2 c2 + t^3 p1`.  In exact arithmetic these
vertices are the points of the Bezier curve at `t = i / resolution`. -/
theorem trace_samples_bezier_uniformly (q : Polyline F) (p0 p1 c1 c2 : Vertex F)
    (sq : ℚ → ℚ) (qe : Polyline ℚ) (e0 e1 d1 d2 : Vertex ℚ)
    (resolution : Nat) (hres : 2 ≤ resolution)
    (hp0 : q.vertices.getLast? = some p0) (he0 : qe.vertices.getLast? = some e0) :
    (∃ r, trace_quad_bezier_to q p1 c1 resolution = some r ∧
      r.vertices.length = q.vertices.length + resolution ∧
      ∀ i, 1 ≤ i → i ≤ resolution →
        r.vertices[q.vertices.length + (i - 1)]?
          = some (
              let t : F := FloatArith.ofNat i * (FloatArith.ofNat 1 / FloatArith.ofNat resolution)
              let one_minus_t : F := FloatArith.ofNat 1 - t
              (one_minus_t * one_minus_t : F) • p0
                + (FloatArith.ofNat 2 * one_minus_t * t : F) • c1 + (t * t : F) • p1)) ∧
    (∃ r, trace_cubic_bezier_to q p1 c1 c2 resolution = some r ∧
      r.vertices.length = q.vertices.length + resolution ∧
      ∀ i, 1 ≤ i → i ≤ resolution →
        r.vertices[q.vertices.length + (i - 1)]?
          = some (
              let t : F := FloatArith.ofNat i * (FloatArith.ofNat 1 / FloatArith.ofNat resolution)
              let one_minus_t : F := FloatArith.ofNat 1 - t
              (one_minus_t * one_minus_t * one_minus_t : F) • p0
                + (FloatArith.ofNat 3 * (one_minus_t * one_minus_t) * t : F) • c1
                + (FloatArith.ofNat 3 * one_minus_t * (t * t) : F) • c2
                + (t * t * t : F) • p1)) ∧
    (∃ r, @trace_quad_bezier_to ℚ (exactArith sq) qe e1 d1 resolution = some r ∧
      r.vertices = qe.vertices ++ (List.range' 1 resolution).map
        (fun i : Nat => quad_bezier_point e0 d1 e1 ((i : ℚ) / resolution)) ∧
      ∀ i, 1 ≤ i → i ≤ resolution →
        r.vertices[qe.vertices.length + (i - 1)]?
          = some (quad_bezier_point e0 d1 e1 ((i : ℚ) / resolution))) ∧
    (∃ r, @trace_cubic_bezier_to ℚ (exactArith sq) qe e1 d1 d2 resolution = some r ∧
      r.vertices = qe.vertices ++ (List.range' 1 resolution).map
        (fun i : Nat => cubic_bezier_point e0 d1 d2 e1 ((i : ℚ) / resolution)) ∧
      ∀ i, 1 ≤ i → i ≤ resolution →
        r.vertices[qe.vertices.length + (i - 1)]?
          = some (cubic_bezier_point e0 d1 d2 e1 ((i : ℚ) / resolution))) := by
  have hn : resolution ≠ 0 := by omega
  refine ⟨?_, ?_, ?_, ?_⟩
  · obtain ⟨r, hr, hv, -, -⟩ := trace_quad_bezier_to_shape q p0 p1 c1 resolution hres hp0
    refine ⟨r, hr, by simp [hv], fun i h1 h2 => ?_⟩
    rw [hv, getElem?_append_map_range' _ _ resolution i h1 h2]
    rfl
  · obtain ⟨r, hr, hv, -, -⟩ := trace_cubic_bezier_to_shape q p0 p1 c1 c2 resolution hres hp0
    refine ⟨r, hr, by simp [hv], fun i h1 h2 => ?_⟩
    rw [hv, getElem?_append_map_range' _ _ resolution i h1 h2]
    rfl
  · obtain ⟨r, hr, hv, -, -⟩ :=
      @trace_quad_bezier_to_shape ℚ (exactArith sq) qe e0 e1 d1 resolution hres he0
    have hv' : r.vertices = qe.vertices ++ (List.range' 1 resolution).map
        (fun i : Nat => quad_bezier_point e0 d1 e1 ((i : ℚ) / resolution)) := by
      rw [hv]
      congr 1
      exact List.map_congr_left (fun i _ => exact_quad_vertex sq e0 e1 d1 resolution i hn)
    exact ⟨r, hr, hv', fun i h1 h2 => by
      rw [hv']; exact getElem?_append_map_range' _ _ resolution i h1 h2⟩
  · obtain ⟨r, hr, hv, -, -⟩ :=
      @trace_cubic_bezier_to_shape ℚ (exactArith sq) qe e0 e1 d1 d2 resolution hres he0
    have hv' : r.vertices = qe.vertices ++ (List.range' 1 resolution).map
        (fun i : Nat => cubic_bezier_point e0 d1 d2 e1 ((i : ℚ) / resolution)) := by
      rw [hv]
      congr 1
      exact List.map_congr_left (fun i _ => exact_cubic_vertex sq e0 e1 d1 d2 resolution i hn)
    exact ⟨r, hr, hv', fun i h1 h2 => by
      rw [hv']; exact getElem?_append_map_range' _ _ resolution i h1 h2⟩

end SamplingClaimsAmended

section SamplingWitness

/-- Witness of C17: resolution 4 from the vertex `(0,0)`, in `float` and in
exact arithmetic. -/
theorem trace_samples_bezier_uniformly_witness :
    2 ≤ 4 ∧ sample_polyline32.vertices.getLast? = some ⟨.finite 0, .finite 0⟩ ∧
    sample_polyline.vertices.getLast? = some ⟨0, 0⟩ ∧
    ((∃ r, trace_quad_bezier_to sample_polyline32 ⟨.finite 4, .finite 0⟩
          ⟨.finite 2, .finite 2⟩ 4 = some r ∧
        r.vertices.length = sample_polyline32.vertices.length + 4 ∧
        ∀ i, 1 ≤ i → i ≤ 4 →
          r.vertices[sample_polyline32.vertices.length + (i - 1)]?
            = some (
                let t : Binary32 :=
                  FloatArith.ofNat i * (FloatArith.ofNat 1 / FloatArith.ofNat 4)
                let one_minus_t : Binary32 := FloatArith.ofNat 1 - t
                (one_minus_t * one_minus_t : Binary32) • (⟨.finite 0, .finite 0⟩ : Vertex Binary32)
                  + (FloatArith.ofNat 2 * one_minus_t * t : Binary32)
                    • (⟨.finite 2, .finite 2⟩ : Vertex Binary32)
                  + (t * t : Binary32) • (⟨.finite 4, .finite 0⟩ : Vertex Binary32))) ∧
      (∃ r, trace_cubic_bezier_to sample_polyline32 ⟨.finite 4, .finite 0⟩
          ⟨.finite 2, .finite 2⟩ ⟨.finite 3, .finite 1⟩ 4 = some r ∧
        r.vertices.length = sample_polyline32.vertices.length + 4 ∧
        ∀ i, 1 ≤ i → i ≤ 4 →
          r.vertices[sample_polyline32.vertices.length + (i - 1)]?
            = some (
                let t : Binary32 :=
                  FloatArith.ofNat i * (FloatArith.ofNat 1 / FloatArith.ofNat 4)
                let one_minus_t : Binary32 := FloatArith.ofNat 1 - t
                (one_minus_t * one_minus_t * one_minus_t : Binary32)
                    • (⟨.finite 0, .finite 0⟩ : Vertex Binary32)
                  + (FloatArith.ofNat 3 * (one_minus_t * one_minus_t) * t : Binary32)
                    • (⟨.finite 2, .finite 2⟩ : Vertex Binary32)
                  + (FloatArith.ofNat 3 * one_minus_t * (t * t) : Binary32)
                    • (⟨.finite 3, .finite 1⟩ : Vertex Binary32)
                  + (t * t * t : Binary32) • (⟨.finite 4, .finite 0⟩ : Vertex Binary32))) ∧
      (∃ r, @trace_quad_bezier_to ℚ (exactArith sqrt_milli) sample_polyline ⟨4, 0⟩ ⟨2, 2⟩ 4
          = some r ∧
        r.vertices = sample_polyline.vertices ++ (List.range' 1 4).map
          (fun i : Nat => quad_bezier_point ⟨0, 0⟩ ⟨2, 2⟩ ⟨4, 0⟩ ((i : ℚ) / (4 : Nat))) ∧
        ∀ i, 1 ≤ i → i ≤ 4 →
          r.vertices[sample_polyline.vertices.length + (i - 1)]?
            = some (quad_bezier_point ⟨0, 0⟩ ⟨2, 2⟩ ⟨4, 0⟩ ((i : ℚ) / (4 : Nat)))) ∧
      (∃ r, @trace_cubic_bezier_to ℚ (exactArith sqrt_milli) sample_polyline ⟨4, 0⟩ ⟨2, 2⟩
            ⟨3, 1⟩ 4 = some r ∧
        r.vertices = sample_polyline.vertices ++ (List.range' 1 4).map
          (fun i : Nat =>
            cubic_bezier_point ⟨0, 0⟩ ⟨2, 2⟩ ⟨3, 1⟩ ⟨4, 0⟩ ((i : ℚ) / (4 : Nat))) ∧
        ∀ i, 1 ≤ i → i ≤ 4 →
          r.vertices[sample_polyline.vertices.length + (i - 1)]?
            = some (cubic_bezier_point ⟨0, 0⟩ ⟨2, 2⟩ ⟨3, 1⟩ ⟨4, 0⟩ ((i : ℚ) / (4 : Nat))))) :=
  ⟨by decide, rfl, rfl,
    trace_samples_bezier_uniformly sample_polyline32 ⟨.finite 0, .finite 0⟩
      ⟨.finite 4, .finite 0⟩ ⟨.finite 2, .finite 2⟩ ⟨.finite 3, .finite 1⟩
      sqrt_milli sample_polyline ⟨0, 0⟩ ⟨4, 0⟩ ⟨2, 2⟩ ⟨3, 1⟩ 4 (by decide) rfl rfl⟩

end SamplingWitness

/-! ## Tangents of traced curves: the claim on derivatives -/

section TangentClaims

variable {F : Type} [FloatArith F]

set_option maxRecDepth 100000 in
/-- C18, as stated, fails.  With resolution 1 the curve is traced as a line and
the tangent recorded with its vertex is `p1 - p0`: from `(0,0)` to `(4,0)` it
is `(4,0)`, where the derivative at the parameter `t = 1` of that vertex is
`(4,-4)` for the quadratic curve with control point `(2,2)` and `(3,-3)` for
the cubic curve with control points `(2,2)` and `(3,1)`.  In `float`, at
resolution 41, the tangent recorded with the last vertex is
`(4, -(4 - 2^-21))` for the quadratic and `(3, -(3 - 2^-22))` for the cubic
curve, where the derivatives at `t = 41/41` are `(4,-4)` and `(3,-3)`. -/
theorem traced_tangent_is_not_the_derivative :
    @trace_quad_bezier_to Binary32 binary32Arith sample_polyline32 ⟨.finite 4, .finite 0⟩
        ⟨.finite 2, .finite 2⟩ 1
      = some ⟨[⟨.finite 0, .finite 0⟩, ⟨.finite 4, .finite 0⟩], [⟨.finite 4, .finite 0⟩],
          [.finite 0, .finite 4], .finite 4⟩ ∧
    quad_bezier_derivative (⟨0, 0⟩ : Vertex ℚ) ⟨2, 2⟩ ⟨4, 0⟩ ((1 : ℚ) / 1) = ⟨4, -4⟩ ∧
    @trace_cubic_bezier_to Binary32 binary32Arith sample_polyline32 ⟨.finite 4, .finite 0⟩
        ⟨.finite 2, .finite 2⟩ ⟨.finite 3, .finite 1⟩ 1
      = some ⟨[⟨.finite 0, .finite 0⟩, ⟨.finite 4, .finite 0⟩], [⟨.finite 4, .finite 0⟩],
          [.finite 0, .finite 4], .finite 4⟩ ∧
    cubic_bezier_derivative (⟨0, 0⟩ : Vertex ℚ) ⟨2, 2⟩ ⟨3, 1⟩ ⟨4, 0⟩ ((1 : ℚ) / 1) = ⟨3, -3⟩ ∧
    (∀ sq : ℚ → ℚ,
      (@trace_quad_bezier_to ℚ (exactArith sq) sample_polyline ⟨4, 0⟩ ⟨2, 2⟩ 1).map
          (fun r => r.tangents) = some [⟨4, 0⟩] ∧
      (@trace_cubic_bezier_to ℚ (exactArith sq) sample_polyline ⟨4, 0⟩ ⟨2, 2⟩ ⟨3, 1⟩ 1).map
          (fun r => r.tangents) = some [⟨4, 0⟩]) ∧
    (∃ r, @trace_quad_bezier_to Binary32 binary32Arith sample_polyline32
          ⟨.finite 4, .finite 0⟩ ⟨.finite 2, .finite 2⟩ 41 = some r ∧
        r.tangents[sample_polyline32.tangents.length + (41 - 1)]?
          = some ⟨.finite 4, .finite (-8388607 / 2097152)⟩) ∧
    quad_bezier_derivative (⟨0, 0⟩ : Vertex ℚ) ⟨2, 2⟩ ⟨4, 0⟩ ((41 : ℚ) / 41) = ⟨4, -4⟩ ∧
    (∃ r, @trace_cubic_bezier_to Binary32 binary32Arith sample_polyline32
          ⟨.finite 4, .finite 0⟩ ⟨.finite 2, .finite 2⟩ ⟨.finite 3, .finite 1⟩ 41 = some r ∧
        r.tangents[sample_polyline32.tangents.length + (41 - 1)]?
          = some ⟨.finite 3, .finite (-12582911 / 4194304)⟩) ∧
    cubic_bezier_derivative (⟨0, 0⟩ : Vertex ℚ) ⟨2, 2⟩ ⟨3, 1⟩ ⟨4, 0⟩ ((41 : ℚ) / 41)
      = ⟨3, -3⟩ ∧
    ¬ (∀ (sq : ℚ → ℚ) (q : Polyline ℚ) (p0 p1 c1 : Vertex ℚ) (resolution : Nat),
        1 ≤ resolution → q.vertices.getLast? = some p0 →
        ∃ r, @trace_quad_bezier_to ℚ (exactArith sq) q p1 c1 resolution = some r ∧
          r.tangents = q.tangents ++ (List.range' 1 resolution).map
            (fun i : Nat => quad_bezier_derivative p0 c1 p1 ((i : ℚ) / resolution))) := by
  have hexact : ∀ sq : ℚ → ℚ,
      (@trace_quad_bezier_to ℚ (exactArith sq) sample_polyline ⟨4, 0⟩ ⟨2, 2⟩ 1).map
          (fun r => r.tangents) = some [⟨4, 0⟩] ∧
      (@trace_cubic_bezier_to ℚ (exactArith sq) sample_polyline ⟨4, 0⟩ ⟨2, 2⟩ ⟨3, 1⟩ 1).map
          (fun r => r.tangents) = some [⟨4, 0⟩] := by
    intro sq
    have h := exact_trace_line_to sq sample_polyline ⟨4, 0⟩ ⟨0, 0⟩ rfl
    rw [if_neg (by norm_num)] at h
    constructor
    · simp only [trace_quad_bezier_to, one_ne_zero, if_false, if_true, h]
      simp [sample_polyline]
    · simp only [trace_cubic_bezier_to, one_ne_zero, if_false, if_true, h]
      simp [sample_polyline]
  have hq : ∃ r, @trace_quad_bezier_to Binary32 binary32Arith sample_polyline32
        ⟨.finite 4, .finite 0⟩ ⟨.finite 2, .finite 2⟩ 41 = some r ∧
      r.tangents[sample_polyline32.tangents.length + (41 - 1)]?
        = some ⟨.finite 4, .finite (-8388607 / 2097152)⟩ := by
    obtain ⟨r, hr, -, ht, -⟩ := @trace_quad_bezier_to_shape Binary32 binary32Arith
      sample_polyline32 ⟨.finite 0, .finite 0⟩ ⟨.finite 4, .finite 0⟩ ⟨.finite 2, .finite 2⟩ 41
      (by decide) rfl
    refine ⟨r, hr, ?_⟩
    rw [ht, getElem?_append_map_range' _ _ 41 41 (by decide) (by decide),
      binary32_last_quad_tangent]
  have hc : ∃ r, @trace_cubic_bezier_to Binary32 binary32Arith sample_polyline32
        ⟨.finite 4, .finite 0⟩ ⟨.finite 2, .finite 2⟩ ⟨.finite 3, .finite 1⟩ 41 = some r ∧
      r.tangents[sample_polyline32.tangents.length + (41 - 1)]?
        = some ⟨.finite 3, .finite (-12582911 / 4194304)⟩ := by
    obtain ⟨r, hr, -, ht, -⟩ := @trace_cubic_bezier_to_shape Binary32 binary32Arith
      sample_polyline32 ⟨.finite 0, .finite 0⟩ ⟨.finite 4, .finite 0⟩ ⟨.finite 2, .finite 2⟩
      ⟨.finite 3, .finite 1⟩ 41 (by decide) rfl
    refine ⟨r, hr, ?_⟩
    rw [ht, getElem?_append_map_range' _ _ 41 41 (by decide) (by decide),
      binary32_last_cubic_tangent]
  refine ⟨by decide!, by decide!, by decide!, by decide!, hexact, hq, by decide!, hc,
    by decide!, ?_⟩
  intro h
  obtain ⟨r, hr, ht⟩ := h (fun x => x) sample_polyline ⟨0, 0⟩ ⟨4, 0⟩ ⟨2, 2⟩ 1 (by decide) rfl
  have h1 := (hexact (fun x => x)).1
  rw [hr] at h1
  simp only [Option.map_some', Option.some.injEq] at h1
  rw [h1] at ht
  revert ht
  decide!

end TangentClaims

section TangentClaimsAmended

variable {F : Type} [FloatArith F]

/-- C18, amended.  For a resolution of at least 2 the tangent recorded with the
vertex of turn `i` is the value in the arithmetic of the code of
`2(1-t)(c1-p0) + 2t(p1-c1)` for the quadratic and of
`3(1-t)^2(c1-p0) + 6(1-t)t(c2-c1) + 3t^2(p1-c2)` for the cubic curve, at
`t = i * (1 / resolution)`; in exact arithmetic it is that vector at
`t = i / resolution`, which is the first derivative of the curve with respect
to `t` there: over the reals, for every `t`, the two vectors are the
derivatives of the quadratic and of the cubic Bezier point, coordinate by
coordinate.  With resolution 1 the curve is traced as a line to `p1`, and the
tangent recorded, if a vertex is added, is `p1 - p0`. -/
theorem trace_tangent_is_derivative (q : Polyline F) (p0 p1 c1 c2 : Vertex F)
    (sq : ℚ → ℚ) (qe : Polyline ℚ) (e0 e1 d1 d2 : Vertex ℚ)
    (resolution : Nat) (hres : 2 ≤ resolution)
    (hp0 : q.vertices.getLast? = some p0) (he0 : qe.vertices.getLast? = some e0) :
    (∃ r, trace_quad_bezier_to q p1 c1 resolution = some r ∧
      r.tangents.length = q.tangents.length + resolution ∧
      ∀ i, 1 ≤ i → i ≤ resolution →
        r.tangents[q.tangents.length + (i - 1)]?
          = some (
              let t : F := FloatArith.ofNat i * (FloatArith.ofNat 1 / FloatArith.ofNat resolution)
              let one_minus_t : F := FloatArith.ofNat 1 - t
              (FloatArith.ofNat 2 * one_minus_t : F) • (c1 - p0)
                + (FloatArith.ofNat 2 * t : F) • (p1 - c1))) ∧
    (∃ r, trace_cubic_bezier_to q p1 c1 c2 resolution = some r ∧
      r.tangents.length = q.tangents.length + resolution ∧
      ∀ i, 1 ≤ i → i ≤ resolution →
        r.tangents[q.tangents.length + (i - 1)]?
          = some (
              let t : F := FloatArith.ofNat i * (FloatArith.ofNat 1 / FloatArith.ofNat resolution)
              let one_minus_t : F := FloatArith.ofNat 1 - t
              (FloatArith.ofNat 3 * (one_minus_t * one_minus_t) : F) • (c1 - p0)
                + (FloatArith.ofNat 6 * one_minus_t * t : F) • (c2 - c1)
                + (FloatArith.ofNat 3 * (t * t) : F) • (p1 - c2))) ∧
    (∃ r, @trace_quad_bezier_to ℚ (exactArith sq) qe e1 d1 resolution = some r ∧
      r.tangents = qe.tangents ++ (List.range' 1 resolution).map
        (fun i : Nat => quad_bezier_derivative e0 d1 e1 ((i : ℚ) / resolution))) ∧
    (∃ r, @trace_cubic_bezier_to ℚ (exactArith sq) qe e1 d1 d2 resolution = some r ∧
      r.tangents = qe.tangents ++ (List.range' 1 resolution).map
        (fun i : Nat => cubic_bezier_derivative e0 d1 d2 e1 ((i : ℚ) / resolution))) ∧
    (trace_quad_bezier_to q p1 c1 1 = trace_line_to q p1 ∧
      trace_cubic_bezier_to q p1 c1 c2 1 = trace_line_to q p1 ∧
      ∀ r, trace_line_to q p1 = some r →
        r.tangents = q.tangents ∨ r.tangents = q.tangents ++ [p1 - p0]) ∧
    (∀ (a b c : Vertex ℝ) (t : ℝ),
      HasDerivAt (fun s => (quad_bezier_point a b c s).x) (quad_bezier_derivative a b c t).x t ∧
      HasDerivAt (fun s => (quad_bezier_point a b c s).y)
        (quad_bezier_derivative a b c t).y t) ∧
    (∀ (a b c d : Vertex ℝ) (t : ℝ),
      HasDerivAt (fun s => (cubic_bezier_point a b c d s).x)
        (cubic_bezier_derivative a b c d t).x t ∧
      HasDerivAt (fun s => (cubic_bezier_point a b c d s).y)
        (cubic_bezier_derivative a b c d t).y t) := by
  have hn : resolution ≠ 0 := by omega
  refine ⟨?_, ?_, ?_, ?_, ⟨?_, ?_, ?_⟩, ?_, ?_⟩
  · obtain ⟨r, hr, -, ht, -⟩ := trace_quad_bezier_to_shape q p0 p1 c1 resolution hres hp0
    refine ⟨r, hr, by simp [ht], fun i h1 h2 => ?_⟩
    rw [ht, getElem?_append_map_range' _ _ resolution i h1 h2]
    rfl
  · obtain ⟨r, hr, -, ht, -⟩ := trace_cubic_bezier_to_shape q p0 p1 c1 c2 resolution hres hp0
    refine ⟨r, hr, by simp [ht], fun i h1 h2 => ?_⟩
    rw [ht, getElem?_append_map_range' _ _ resolution i h1 h2]
    rfl
  · obtain ⟨r, hr, -, ht, -⟩ :=
      @trace_quad_bezier_to_shape ℚ (exactArith sq) qe e0 e1 d1 resolution hres he0
    refine ⟨r, hr, ?_⟩
    rw [ht]
    congr 1
    exact List.map_congr_left (fun i _ => exact_quad_tangent sq e0 e1 d1 resolution i hn)
  · obtain ⟨r, hr, -, ht, -⟩ :=
      @trace_cubic_bezier_to_shape ℚ (exactArith sq) qe e0 e1 d1 d2 resolution hres he0
    refine ⟨r, hr, ?_⟩
    rw [ht]
    congr 1
    exact List.map_congr_left (fun i _ => exact_cubic_tangent sq e0 e1 d1 d2 resolution i hn)
  · simp [trace_quad_bezier_to]
  · simp [trace_cubic_bezier_to]
  · intro r h
    simp only [trace_line_to, hp0] at h
    split at h
    · cases Option.some.inj h; exact Or.inl rfl
    · cases Option.some.inj h; exact Or.inr rfl
  · intro a b c t
    exact ⟨hasDerivAt_quad a.x b.x c.x t, hasDerivAt_quad a.y b.y c.y t⟩
  · intro a b c d t
    exact ⟨hasDerivAt_cubic a.x b.x c.x d.x t, hasDerivAt_cubic a.y b.y c.y d.y t⟩

/-- Witness of C18: resolution 4 from the vertex `(0,0)`, in `float` and in
exact arithmetic. -/
theorem trace_tangent_is_derivative_witness :
    2 ≤ 4 ∧ sample_polyline32.vertices.getLast? = some ⟨.finite 0, .finite 0⟩ ∧
    sample_polyline.vertices.getLast? = some ⟨0, 0⟩ ∧
    ((∃ r, trace_quad_bezier_to sample_polyline32 ⟨.finite 4, .finite 0⟩
          ⟨.finite 2, .finite 2⟩ 4 = some r ∧
        r.tangents.length = sample_polyline32.tangents.length + 4 ∧
        ∀ i, 1 ≤ i → i ≤ 4 →
          r.tangents[sample_polyline32.tangents.length + (i - 1)]?
            = some (
                let t : Binary32 :=
                  FloatArith.ofNat i * (FloatArith.ofNat 1 / FloatArith.ofNat 4)
                let one_minus_t : Binary32 := FloatArith.ofNat 1 - t
                (FloatArith.ofNat 2 * one_minus_t : Binary32)
                    • ((⟨.finite 2, .finite 2⟩ : Vertex Binary32) - ⟨.finite 0, .finite 0⟩)
                  + (FloatArith.ofNat 2 * t : Binary32)
                    • ((⟨.finite 4, .finite 0⟩ : Vertex Binary32) - ⟨.finite 2, .finite 2⟩))) ∧
      (∃ r, trace_cubic_bezier_to sample_polyline32 ⟨.finite 4, .finite 0⟩
          ⟨.finite 2, .finite 2⟩ ⟨.finite 3, .finite 1⟩ 4 = some r ∧
        r.tangents.length = sample_polyline32.tangents.length + 4 ∧
        ∀ i, 1 ≤ i → i ≤ 4 →
          r.tangents[sample_polyline32.tangents.length + (i - 1)]?
            = some (
                let t : Binary32 :=
                  FloatArith.ofNat i * (FloatArith.ofNat 1 / FloatArith.ofNat 4)
                let one_minus_t : Binary32 := FloatArith.ofNat 1 - t
                (FloatArith.ofNat 3 * (one_minus_t * one_minus_t) : Binary32)
                    • ((⟨.finite 2, .finite 2⟩ : Vertex Binary32) - ⟨.finite 0, .finite 0⟩)
                  + (FloatArith.ofNat 6 * one_minus_t * t : Binary32)
                    • ((⟨.finite 3, .finite 1⟩ : Vertex Binary32) - ⟨.finite 2, .finite 2⟩)
                  + (FloatArith.ofNat 3 * (t * t) : Binary32)
                    • ((⟨.finite 4, .finite 0⟩ : Vertex Binary32) - ⟨.finite 3, .finite 1⟩))) ∧
      (∃ r, @trace_quad_bezier_to ℚ (exactArith sqrt_milli) sample_polyline ⟨4, 0⟩ ⟨2, 2⟩ 4
          = some r ∧
        r.tangents = sample_polyline.tangents ++ (List.range' 1 4).map
          (fun i : Nat =>
            quad_bezier_derivative ⟨0, 0⟩ ⟨2, 2⟩ ⟨4, 0⟩ ((i : ℚ) / (4 : Nat)))) ∧
      (∃ r, @trace_cubic_bezier_to ℚ (exactArith sqrt_milli) sample_polyline ⟨4, 0⟩ ⟨2, 2⟩
            ⟨3, 1⟩ 4 = some r ∧
        r.tangents = sample_polyline.tangents ++ (List.range' 1 4).map
          (fun i : Nat =>
            cubic_bezier_derivative ⟨0, 0⟩ ⟨2, 2⟩ ⟨3, 1⟩ ⟨4, 0⟩ ((i : ℚ) / (4 : Nat)))) ∧
      (trace_quad_bezier_to sample_polyline32 ⟨.finite 4, .finite 0⟩ ⟨.finite 2, .finite 2⟩ 1
          = trace_line_to sample_polyline32 ⟨.finite 4, .finite 0⟩ ∧
        trace_cubic_bezier_to sample_polyline32 ⟨.finite 4, .finite 0⟩ ⟨.finite 2, .finite 2⟩
            ⟨.finite 3, .finite 1⟩ 1
          = trace_line_to sample_polyline32 ⟨.finite 4, .finite 0⟩ ∧
        ∀ r, trace_line_to sample_polyline32 ⟨.finite 4, .finite 0⟩ = some r →
          r.tangents = sample_polyline32.tangents ∨
            r.tangents = sample_polyline32.tangents
              ++ [(⟨.finite 4, .finite 0⟩ : Vertex Binary32) - ⟨.finite 0, .finite 0⟩]) ∧
      (∀ (a b c : Vertex ℝ) (t : ℝ),
        HasDerivAt (fun s => (quad_bezier_point a b c s).x)
          (quad_bezier_derivative a b c t).x t ∧
        HasDerivAt (fun s => (quad_bezier_point a b c s).y)
          (quad_bezier_derivative a b c t).y t) ∧
      (∀ (a b c d : Vertex ℝ) (t : ℝ),
        HasDerivAt (fun s => (cubic_bezier_point a b c d s).x)
          (cubic_bezier_derivative a b c d t).x t ∧
        HasDerivAt (fun s => (cubic_bezier_point a b c d s).y)
          (cubic_bezier_derivative a b c d t).y t)) :=
  ⟨by decide, rfl, rfl,
    trace_tangent_is_derivative sample_polyline32 ⟨.finite 0, .finite 0⟩
      ⟨.finite 4, .finite 0⟩ ⟨.finite 2, .finite 2⟩ ⟨.finite 3, .finite 1⟩
      sqrt_milli sample_polyline ⟨0, 0⟩ ⟨4, 0⟩ ⟨2, 2⟩ ⟨3, 1⟩ 4 (by decide) rfl rfl⟩

end TangentClaimsAmended

/-! ## trace_line_to in float: finite and infinite points -/

section LineToClaims

variable {F : Type} [FloatArith F]

end LineToClaims

end Island
